import Mathlib

/-! Region base of the QoS-aware CPU advisor

A shallow embedding of `pkg/agent/sysadvisor/plugin/qosaware/resource/cpu/region/region_base.go`
and of the record types of `pkg/agent/sysadvisor/types/types.go`.

Conventions of the embedding

* Go string types (`PolicyUpdateStatus`, `QoSRegionType`, policy names) are `String`.
* Go maps are association lists; what a map denotes is read through lookups, key sets
  and membership, never through the order of the list.
* A Go `error` is the `String` of its message; a `(value, error)` return is an `Except`.
* `float64` values are only stored and handed through by the operations embedded here
  (no floating point arithmetic is performed on them); they are carried as `Rat`.
* The region mutex serialises whole operations; each operation is therefore one atomic
  function from the state before to the state after (plus what it returns and logs).
* A policy object is a method table (`ProvisionPolicy`, `HeadroomPolicy`) together with the
  object's private state; a pointer into a policy chain is the index of the entry.
* Where it matters which map object a value is (the accessors that hand out maps), the map
  objects are kept on an explicit heap and a map value is a reference into it.
-/

namespace Katalyst

/-! ## `types.go` -/

abbrev float64 := Rat

/-- CPUProvisionPolicyName defines policy names for cpu advisor resource provision -/
abbrev CPUProvisionPolicyName := String

def CPUProvisionPolicyNone : CPUProvisionPolicyName := "none"
def CPUProvisionPolicyCanonical : CPUProvisionPolicyName := "canonical"
def CPUProvisionPolicyRama : CPUProvisionPolicyName := "rama"

/-- CPUHeadroomPolicyName defines policy names for cpu advisor headroom estimation -/
abbrev CPUHeadroomPolicyName := String

def CPUHeadroomPolicyNone : CPUHeadroomPolicyName := "none"
def CPUHeadroomPolicyCanonical : CPUHeadroomPolicyName := "canonical"
def CPUHeadroomPolicyUtilization : CPUHeadroomPolicyName := "utilization"

/-- QoSRegionType declares pre-defined region types -/
abbrev QoSRegionType := String

def QoSRegionTypeShare : QoSRegionType := "share"
def QoSRegionTypeDedicatedNumaExclusive : QoSRegionType := "dedicated-numa-exclusive"
def QoSRegionTypeEmpty : QoSRegionType := "empty"

/-- PolicyUpdateStatus works as a flag indicating update result -/
abbrev PolicyUpdateStatus := String

def PolicyUpdateSucceeded : PolicyUpdateStatus := "succeeded"
def PolicyUpdateFailed : PolicyUpdateStatus := "failed"

/-- Modelled from the spec: `machine.CPUSet` (package `pkg/util/machine`, absent from the
sources at hand) is "a set of integer core IDs". -/
abbrev CPUSet := Finset Int

/-- Modelled from the spec: `CPUSet.Clone` (package `pkg/util/machine`, absent) returns a
copy of the set ("clone"); the copy holds the core IDs the set holds. -/
def CPUSet.Clone (s : CPUSet) : CPUSet :=
  s.image id

/-- Go `map[int]machine.CPUSet`, as an association list from NUMA node to CPU set -/
structure TopologyAwareAssignment where
  entries : List (Int × CPUSet)
  deriving DecidableEq

/-- Go `map[string]sets.String`: container names keyed by pod uid -/
structure PodSet where
  entries : List (String × List String)
  deriving DecidableEq

/-- ResourceEssentials defines essential (const) variables -/
structure ResourceEssentials where
  EnableReclaim : Bool
  ResourceUpperBound : float64
  ResourceLowerBound : float64
  ReservedForAllocate : float64
  deriving DecidableEq

/-- ControlKnobValue holds control knob value and action -/
structure ControlKnobValue where
  Value : float64
  Action : String
  deriving DecidableEq

/-- ControlKnob holds tunable system entries affecting indicator metrics,
Go `map[ControlKnobName]ControlKnobValue` -/
abbrev ControlKnob := List (String × ControlKnobValue)

/-- The fields of `types.ContainerInfo` the region and the advisor read -/
structure ContainerInfo where
  PodUID : String
  ContainerName : String
  QoSLevel : String
  OwnerPoolName : String := ""
  TopologyAwareAssignments : TopologyAwareAssignment
  RegionNames : List String
  deriving DecidableEq

/-! ## Helpers of the record types

`types/helper.go` is not among the sources at hand; the few map helpers the region calls are
modelled from the data-model section of the specification. -/

/-- Modelled from the spec: `len` of the Go map, the number of distinct NUMA nodes that
have an entry ("mapping from NUMA-node index to a CPU-set"). -/
def TopologyAwareAssignment.len (ta : TopologyAwareAssignment) : Nat :=
  (ta.entries.map Prod.fst).dedup.length

/-- Modelled from the spec: the CPU set a NUMA node is mapped to, if any. -/
def TopologyAwareAssignment.lookup (ta : TopologyAwareAssignment) (numaID : Int) : Option CPUSet :=
  (ta.entries.find? (fun e => e.1 == numaID)).map Prod.snd

/-- Modelled from the spec: `TopologyAwareAssignment.Clone` (types/helper.go, absent) returns
a copy of the mapping; with value semantics the copy is the mapping itself. -/
def TopologyAwareAssignment.Clone (ta : TopologyAwareAssignment) : TopologyAwareAssignment :=
  ⟨ta.entries.map (fun e => (e.1, e.2))⟩

/-- Modelled from the spec: `TopologyAwareAssignment.Equals` (types/helper.go, absent) tells
whether two assignments are the same mapping: as many NUMA nodes, and every node of the
first mapped to an equal CPU set by the second. -/
def TopologyAwareAssignment.Equals (ta t : TopologyAwareAssignment) : Bool :=
  ta.len == t.len && ta.entries.all (fun e => t.lookup e.1 == ta.lookup e.1)

/-- Modelled from the spec: `len` of the Go map, the number of distinct pod uids. -/
def PodSet.len (ps : PodSet) : Nat :=
  (ps.entries.map Prod.fst).dedup.length

/-- Insertion of a container name under a pod uid, on the association list. -/
def PodSet.insertEntries (podUID containerName : String) :
    List (String × List String) → List (String × List String)
  | [] => [(podUID, [containerName])]
  | (uid, names) :: rest =>
    if uid = podUID then
      (uid, if containerName ∈ names then names else names ++ [containerName]) :: rest
    else (uid, names) :: PodSet.insertEntries podUID containerName rest

/-- Modelled from the spec: `PodSet.Insert` (types/helper.go, absent) adds a container name
to the set kept under the pod uid, creating that set when the pod is new ("mapping from pod
UID to the set of its container names ... mutated through insertion"). -/
def PodSet.Insert (ps : PodSet) (podUID containerName : String) : PodSet :=
  ⟨PodSet.insertEntries podUID containerName ps.entries⟩

/-- Modelled from the spec: `PodSet.Clone` (types/helper.go, absent) returns a copy. -/
def PodSet.Clone (ps : PodSet) : PodSet :=
  ⟨ps.entries.map (fun e => (e.1, e.2.map id))⟩

/-- The (pod uid, container name) pairs a pod set denotes -/
def PodSet.containers (ps : PodSet) : Finset (String × String) :=
  (ps.entries.flatMap (fun e => e.2.map (fun c => (e.1, c)))).toFinset

/-- The number of containers a pod set holds -/
def PodSet.count (ps : PodSet) : Nat := ps.containers.card

/-! ## Policy contracts

The packages `provisionpolicy` and `headroompolicy` are external to the region. A policy
object is its private state together with its methods. -/

/-- Modelled from the spec: the capability surface of a provision policy (package
`provisionpolicy`, absent): `SetPodSet`, `SetEssentials`, `SetBindingNumas` are pushed by the
region, `Update` performs one estimation pass and may fail, `GetControlKnobAdjusted`
pulls the last computed result and may fail. -/
structure ProvisionPolicy (σ : Type) where
  state : σ
  SetPodSet : σ → PodSet → σ
  SetEssentials : σ → ResourceEssentials → σ
  SetBindingNumas : σ → CPUSet → σ
  Update : σ → σ × Option String
  GetControlKnobAdjusted : σ → Except String ControlKnob

/-- Modelled from the spec: the capability surface of a headroom policy (package
`headroompolicy`, absent): `SetPodSet` and `SetEssentials` are pushed by the region, `Update`
performs one estimation pass and may fail, `GetHeadroom` pulls the last computed result
and may fail. -/
structure HeadroomPolicy (σ : Type) where
  state : σ
  SetPodSet : σ → PodSet → σ
  SetEssentials : σ → ResourceEssentials → σ
  Update : σ → σ × Option String
  GetHeadroom : σ → Except String float64

/-! ## `region_base.go` -/

structure internalProvisionPolicy (σ : Type) where
  name : CPUProvisionPolicyName
  policy : ProvisionPolicy σ
  updateStatus : PolicyUpdateStatus

structure internalHeadroomPolicy (σ : Type) where
  name : CPUHeadroomPolicyName
  policy : HeadroomPolicy σ
  updateStatus : PolicyUpdateStatus

/-- The state of a base region. `provisionPolicyInUse` and `headroomPolicyInUse` are
pointers to an entry of the respective chain (`none` is the nil pointer). The handles
`metaReader`, `metaServer` and `emitter` are not read by the operations below. -/
structure QoSRegionBase (σp σh : Type) where
  name : String
  ownerPoolName : String
  regionType : QoSRegionType
  ResourceEssentials : Katalyst.ResourceEssentials
  bindingNumas : CPUSet
  podSet : PodSet
  containerTopologyAwareAssignment : TopologyAwareAssignment
  provisionPolicies : List (internalProvisionPolicy σp)
  provisionPolicyInUse : Option Nat
  headroomPolicies : List (internalHeadroomPolicy σh)
  headroomPolicyInUse : Option Nat

/-- The part of `config.Configuration` the region reads: the configured policy names per
region type (Go maps keyed by region type) -/
structure CPUAdvisorConfiguration where
  ProvisionPolicies : QoSRegionType → Option (List CPUProvisionPolicyName)
  HeadroomPolicies : QoSRegionType → Option (List CPUHeadroomPolicyName)

/-- A registered constructor of a provision policy, applied to the region name -/
abbrev ProvisionInitializers (σ : Type) := CPUProvisionPolicyName → Option (String → ProvisionPolicy σ)

/-- A registered constructor of a headroom policy, applied to the region name -/
abbrev HeadroomInitializers (σ : Type) := CPUHeadroomPolicyName → Option (String → HeadroomPolicy σ)

variable {σp σh : Type}

/-- The body of the `for` loop of `initProvisionPolicy`: a configured name with a registered
initializer appends an entry to the chain, any other name is passed over -/
def initProvisionPolicy.body (initializers : ProvisionInitializers σp)
    (r : QoSRegionBase σp σh) (policyName : CPUProvisionPolicyName) : QoSRegionBase σp σh :=
  match initializers policyName with
  | some initializer =>
    let policy := initializer r.name
    let policy := { policy with state := policy.SetBindingNumas policy.state r.bindingNumas }
    { r with provisionPolicies := r.provisionPolicies ++
        [{ name := policyName, policy := policy, updateStatus := PolicyUpdateFailed }] }
  | none => r

/-- initProvisionPolicy initializes provision by adding additional policies into default ones -/
def QoSRegionBase.initProvisionPolicy (r : QoSRegionBase σp σh) (conf : CPUAdvisorConfiguration)
    (initializers : ProvisionInitializers σp) : QoSRegionBase σp σh :=
  match conf.ProvisionPolicies r.regionType with
  | none => r
  | some configuredProvisionPolicy =>
    configuredProvisionPolicy.foldl (initProvisionPolicy.body initializers) r

/-- The body of the `for` loop of `initHeadroomPolicy`: a configured name with a registered
initializer appends an entry to the chain, any other name is passed over -/
def initHeadroomPolicy.body (headroomInitializers : HeadroomInitializers σh)
    (r : QoSRegionBase σp σh) (policyName : CPUHeadroomPolicyName) : QoSRegionBase σp σh :=
  match headroomInitializers policyName with
  | some initializer =>
    let policy := initializer r.name
    { r with headroomPolicies := r.headroomPolicies ++
        [{ name := policyName, policy := policy, updateStatus := PolicyUpdateFailed }] }
  | none => r

/-- initHeadroomPolicy initializes headroom by adding additional policies into default ones -/
def QoSRegionBase.initHeadroomPolicy (r : QoSRegionBase σp σh) (conf : CPUAdvisorConfiguration)
    (headroomInitializers : HeadroomInitializers σh) : QoSRegionBase σp σh :=
  match conf.HeadroomPolicies r.regionType with
  | none => r
  | some configuredHeadroomPolicy =>
    configuredHeadroomPolicy.foldl (initHeadroomPolicy.body headroomInitializers) r

/-- NewQoSRegionBase returns a base qos region instance with common region methods -/
def NewQoSRegionBase (name ownerPoolName : String) (regionType : QoSRegionType)
    (conf : CPUAdvisorConfiguration) (provisionInitializers : ProvisionInitializers σp)
    (headroomInitializers : HeadroomInitializers σh) : QoSRegionBase σp σh :=
  let r : QoSRegionBase σp σh :=
    { name := name
      ownerPoolName := ownerPoolName
      regionType := regionType
      ResourceEssentials := ⟨false, 0, 0, 0⟩
      bindingNumas := ∅
      podSet := ⟨[]⟩
      containerTopologyAwareAssignment := ⟨[]⟩
      provisionPolicies := []
      provisionPolicyInUse := none
      headroomPolicies := []
      headroomPolicyInUse := none }
  let r := r.initHeadroomPolicy conf headroomInitializers
  let r := r.initProvisionPolicy conf provisionInitializers
  r

def QoSRegionBase.IsEmpty (r : QoSRegionBase σp σh) : Bool :=
  r.podSet.len ≤ 0

def QoSRegionBase.Clear (r : QoSRegionBase σp σh) : QoSRegionBase σp σh :=
  { r with podSet := ⟨[]⟩, containerTopologyAwareAssignment := ⟨[]⟩ }

-- `GetBindingNumas` and `GetPods` hand out maps: they are embedded further down, on the
-- heap of map objects.

def QoSRegionBase.SetBindingNumas (r : QoSRegionBase σp σh) (numas : CPUSet) :
    QoSRegionBase σp σh :=
  { r with bindingNumas := numas }

def QoSRegionBase.SetEssentials (r : QoSRegionBase σp σh)
    (essentials : Katalyst.ResourceEssentials) : QoSRegionBase σp σh :=
  { r with ResourceEssentials := essentials }

/-- What `AddContainer` leaves behind: the region, the lines it logged through
`klog.Warningf`, and the error it returned (`none` is a nil error) -/
structure AddContainerResult (σp σh : Type) where
  region : QoSRegionBase σp σh
  warnings : List String
  err : Option String

/-- AddContainer; `ci = none` is the nil pointer -/
def QoSRegionBase.AddContainer (r : QoSRegionBase σp σh) (ci : Option ContainerInfo) :
    AddContainerResult σp σh :=
  match ci with
  | none => { region := r, warnings := [], err := some "container info nil" }
  | some ci =>
    let r := { r with podSet := r.podSet.Insert ci.PodUID ci.ContainerName }
    if r.containerTopologyAwareAssignment.len ≤ 0 then
      { region := { r with containerTopologyAwareAssignment := ci.TopologyAwareAssignments.Clone }
        warnings := []
        err := none }
    else
      -- Sanity check: all containers in the region share the same cpuset
      -- Do not return error when sanity check fails to prevent unnecessary stall
      if !r.containerTopologyAwareAssignment.Equals ci.TopologyAwareAssignments then
        { region := r, warnings := ["[qosaware-cpu] sanity check failed"], err := none }
      else
        { region := r, warnings := [], err := none }

/-- A call the region makes on the headroom policy at index `idx` of the chain, with the
argument it passes (for `Update`: the error the call returned) -/
inductive PolicyCall where
  | SetPodSet (idx : Nat) (podSet : PodSet)
  | SetEssentials (idx : Nat) (essentials : Katalyst.ResourceEssentials)
  | Update (idx : Nat) (err : Option String)
  deriving DecidableEq

/-- The body of the `for` loop of `TryUpdateHeadroom`, on the entry at index `idx`: the
entry afterwards and the calls made on its policy, in order -/
def TryUpdateHeadroom.body (podSet : PodSet) (essentials : Katalyst.ResourceEssentials)
    (idx : Nat) (internal : internalHeadroomPolicy σh) :
    internalHeadroomPolicy σh × List PolicyCall :=
  let internal := { internal with updateStatus := PolicyUpdateFailed }
  -- set essentials for policy and regulator
  let internal := { internal with
    policy := { internal.policy with state := internal.policy.SetPodSet internal.policy.state podSet } }
  let internal := { internal with
    policy := { internal.policy with
      state := internal.policy.SetEssentials internal.policy.state essentials } }
  -- run an episode of policy and calculator update
  let res := internal.policy.Update internal.policy.state
  let internal := { internal with policy := { internal.policy with state := res.1 } }
  let calls := [PolicyCall.SetPodSet idx podSet, PolicyCall.SetEssentials idx essentials,
    PolicyCall.Update idx res.2]
  match res.2 with
  | some _ => (internal, calls)
  | none => ({ internal with updateStatus := PolicyUpdateSucceeded }, calls)

/-- The `for` loop of `TryUpdateHeadroom` over the chain, from index `idx` on -/
def TryUpdateHeadroom.loop (podSet : PodSet) (essentials : Katalyst.ResourceEssentials) :
    Nat → List (internalHeadroomPolicy σh) → List (internalHeadroomPolicy σh) × List PolicyCall
  | _, [] => ([], [])
  | idx, internal :: rest =>
    let done := TryUpdateHeadroom.body podSet essentials idx internal
    let more := TryUpdateHeadroom.loop podSet essentials (idx + 1) rest
    (done.1 :: more.1, done.2 ++ more.2)

/-- TryUpdateHeadroom: the region afterwards and the calls made on the policies, in order.
The Go method has no return value. -/
def QoSRegionBase.TryUpdateHeadroom (r : QoSRegionBase σp σh) :
    QoSRegionBase σp σh × List PolicyCall :=
  let out := TryUpdateHeadroom.loop r.podSet r.ResourceEssentials 0 r.headroomPolicies
  ({ r with headroomPolicies := out.1 }, out.2)

/-- The `for` loop of `GetProvision` from index `idx` on: the index of the entry returned
from and the control knob, or `none` when the loop runs to its end -/
def GetProvision.loop : Nat → List (internalProvisionPolicy σp) → Option (Nat × ControlKnob)
  | _, [] => none
  | idx, internal :: rest =>
    if internal.updateStatus ≠ PolicyUpdateSucceeded then
      GetProvision.loop (idx + 1) rest
    else
      match internal.policy.GetControlKnobAdjusted internal.policy.state with
      | .error _ => GetProvision.loop (idx + 1) rest
      | .ok controlKnobAdjusted => some (idx, controlKnobAdjusted)

def QoSRegionBase.GetProvision (r : QoSRegionBase σp σh) :
    QoSRegionBase σp σh × Except String ControlKnob :=
  match GetProvision.loop 0 r.provisionPolicies with
  | some (idx, controlKnobAdjusted) =>
    ({ r with provisionPolicyInUse := some idx }, .ok controlKnobAdjusted)
  | none => (r, .error "failed to get legal provison")

/-- The `for` loop of `GetHeadroom` from index `idx` on: the index of the entry returned
from and the headroom, or `none` when the loop runs to its end -/
def GetHeadroom.loop : Nat → List (internalHeadroomPolicy σh) → Option (Nat × float64)
  | _, [] => none
  | idx, internal :: rest =>
    if internal.updateStatus ≠ PolicyUpdateSucceeded then
      GetHeadroom.loop (idx + 1) rest
    else
      match internal.policy.GetHeadroom internal.policy.state with
      | .error _ => GetHeadroom.loop (idx + 1) rest
      | .ok headroom => some (idx, headroom)

def QoSRegionBase.GetHeadroom (r : QoSRegionBase σp σh) :
    QoSRegionBase σp σh × Except String float64 :=
  match GetHeadroom.loop 0 r.headroomPolicies with
  | some (idx, headroom) => ({ r with headroomPolicyInUse := some idx }, .ok headroom)
  | none => (r, .error "failed to get valid headroom")

/-- The name read through a pointer into the provision chain -/
def provisionPolicyName (chain : List (internalProvisionPolicy σp)) (idx : Nat) :
    CPUProvisionPolicyName :=
  match chain[idx]? with
  | some internal => internal.name
  | none => CPUProvisionPolicyNone

/-- The name read through a pointer into the headroom chain -/
def headroomPolicyName (chain : List (internalHeadroomPolicy σh)) (idx : Nat) :
    CPUHeadroomPolicyName :=
  match chain[idx]? with
  | some internal => internal.name
  | none => CPUHeadroomPolicyNone

/-- GetProvisionPolicy returns (policyTopPriority, policyInUse) -/
def QoSRegionBase.GetProvisionPolicy (r : QoSRegionBase σp σh) :
    CPUProvisionPolicyName × CPUProvisionPolicyName :=
  let policyTopPriority :=
    match r.provisionPolicies with
    | first :: _ => first.name
    | [] => CPUProvisionPolicyNone
  let policyInUse :=
    match r.provisionPolicyInUse with
    | some idx => provisionPolicyName r.provisionPolicies idx
    | none => CPUProvisionPolicyNone
  (policyTopPriority, policyInUse)

/-- GetHeadRoomPolicy returns (policyTopPriority, policyInUse) -/
def QoSRegionBase.GetHeadRoomPolicy (r : QoSRegionBase σp σh) :
    CPUHeadroomPolicyName × CPUHeadroomPolicyName :=
  let policyTopPriority :=
    match r.headroomPolicies with
    | first :: _ => first.name
    | [] => CPUHeadroomPolicyNone
  let policyInUse :=
    match r.headroomPolicyInUse with
    | some idx => headroomPolicyName r.headroomPolicies idx
    | none => CPUHeadroomPolicyNone
  (policyTopPriority, policyInUse)

/-! ## Histories of a region -/

/-- A call of a method of `QoSRegionBase` -/
inductive Op where
  | AddContainer (ci : Option ContainerInfo)
  | Clear
  | SetEssentials (essentials : Katalyst.ResourceEssentials)
  | SetBindingNumas (numas : CPUSet)
  | TryUpdateHeadroom
  | GetProvision
  | GetHeadroom
  | GetProvisionPolicy
  | GetHeadRoomPolicy
  | GetPods
  | GetBindingNumas
  | IsEmpty

/-- The region after one method call -/
def QoSRegionBase.step (r : QoSRegionBase σp σh) : Op → QoSRegionBase σp σh
  | .AddContainer ci => (r.AddContainer ci).region
  | .Clear => r.Clear
  | .SetEssentials essentials => r.SetEssentials essentials
  | .SetBindingNumas numas => r.SetBindingNumas numas
  | .TryUpdateHeadroom => r.TryUpdateHeadroom.1
  | .GetProvision => r.GetProvision.1
  | .GetHeadroom => r.GetHeadroom.1
  | .GetProvisionPolicy => r
  | .GetHeadRoomPolicy => r
  | .GetPods => r
  | .GetBindingNumas => r
  | .IsEmpty => r

/-- The region after a sequence of method calls -/
def QoSRegionBase.run (r : QoSRegionBase σp σh) (ops : List Op) : QoSRegionBase σp σh :=
  ops.foldl QoSRegionBase.step r

/-- A provision chain entry that `GetProvision` can return from: its last update succeeded
and its policy hands out an adjusted control knob -/
def internalProvisionPolicy.valid (internal : internalProvisionPolicy σp) : Prop :=
  internal.updateStatus = PolicyUpdateSucceeded ∧
    ∃ knob, internal.policy.GetControlKnobAdjusted internal.policy.state = .ok knob

/-- A headroom chain entry that `GetHeadroom` can return from: its last update succeeded
and its policy hands out a headroom -/
def internalHeadroomPolicy.valid (internal : internalHeadroomPolicy σh) : Prop :=
  internal.updateStatus = PolicyUpdateSucceeded ∧
    ∃ headroom, internal.policy.GetHeadroom internal.policy.state = .ok headroom

/-! ## Stub policies and a sample region

Test doubles in the manner of the repository's tests: a provision policy that hands out the
control knob it was loaded with, and a headroom policy that becomes ready when the
essentials pushed to it enable reclaim. -/

/-- A provision policy whose state is the control knob it was loaded with, if any -/
def stubProvisionPolicy (loaded : Option ControlKnob) : ProvisionPolicy (Option ControlKnob) :=
  { state := loaded
    SetPodSet := fun s _ => s
    SetEssentials := fun s _ => s
    SetBindingNumas := fun s _ => s
    Update := fun s => (s, if s.isSome then none else some "no metrics yet")
    GetControlKnobAdjusted := fun s =>
      match s with
      | some knob => .ok knob
      | none => .error "not updated" }

/-- The state of the stub headroom policy: what was pushed to it and what it computed -/
structure StubHeadroomState where
  podSet : PodSet
  essentials : Katalyst.ResourceEssentials
  broken : Bool
  headroom : Option float64
  deriving DecidableEq

/-- A headroom policy that reports the pushed upper bound; a broken one never updates -/
def stubHeadroomPolicy (broken : Bool) (headroom : Option float64) :
    HeadroomPolicy StubHeadroomState :=
  { state := { podSet := ⟨[]⟩, essentials := ⟨false, 0, 0, 0⟩, broken := broken,
               headroom := headroom }
    SetPodSet := fun s podSet => { s with podSet := podSet }
    SetEssentials := fun s essentials => { s with essentials := essentials }
    Update := fun s =>
      if s.broken then (s, some "no metrics yet")
      else ({ s with headroom := some s.essentials.ResourceUpperBound }, none)
    GetHeadroom := fun s =>
      match s.headroom with
      | some headroom => .ok headroom
      | none => .error "not updated" }

def sampleKnob : ControlKnob := [("non-reclaimed-cpuset-size", ⟨40, "none"⟩)]

/-- A share region whose first provision policy has failed and whose second succeeded,
and whose first headroom policy has failed and whose second succeeded -/
def sampleRegion : QoSRegionBase (Option ControlKnob) StubHeadroomState :=
  { name := "share"
    ownerPoolName := "share"
    regionType := QoSRegionTypeShare
    ResourceEssentials := ⟨true, 90, 4, 4⟩
    bindingNumas := {0, 1}
    podSet := ⟨[("uid1", ["c1"])]⟩
    containerTopologyAwareAssignment := ⟨[(0, {1, 2})]⟩
    provisionPolicies :=
      [⟨"rama", stubProvisionPolicy none, PolicyUpdateFailed⟩,
       ⟨"canonical", stubProvisionPolicy (some sampleKnob), PolicyUpdateSucceeded⟩]
    provisionPolicyInUse := none
    headroomPolicies :=
      [⟨"utilization", stubHeadroomPolicy true none, PolicyUpdateFailed⟩,
       ⟨"canonical", stubHeadroomPolicy false (some 12), PolicyUpdateSucceeded⟩]
    headroomPolicyInUse := none }

/-- The sample region with every policy of both chains failed, and earlier choices recorded -/
def exhaustedRegion : QoSRegionBase (Option ControlKnob) StubHeadroomState :=
  { sampleRegion with
    provisionPolicies :=
      [⟨"rama", stubProvisionPolicy none, PolicyUpdateFailed⟩,
       ⟨"canonical", stubProvisionPolicy (some sampleKnob), PolicyUpdateFailed⟩]
    provisionPolicyInUse := some 1
    headroomPolicies :=
      [⟨"utilization", stubHeadroomPolicy true none, PolicyUpdateFailed⟩,
       ⟨"canonical", stubHeadroomPolicy false none, PolicyUpdateSucceeded⟩]
    headroomPolicyInUse := some 1 }

/-- The chain index of an `Update` call, `none` for the other calls -/
def PolicyCall.updateIdx : PolicyCall → Option Nat
  | .Update idx _ => some idx
  | _ => none

/-- The state a headroom policy is in when the region calls its `Update`, the region
having pushed `podSet` and then `essentials` into it -/
def internalHeadroomPolicy.pushed (internal : internalHeadroomPolicy σh) (podSet : PodSet)
    (essentials : Katalyst.ResourceEssentials) : σh :=
  internal.policy.SetEssentials (internal.policy.SetPodSet internal.policy.state podSet) essentials

/-- The calls one round of `TryUpdateHeadroom` is expected to make on the entry at `idx` -/
def expectedCalls (podSet : PodSet) (essentials : Katalyst.ResourceEssentials)
    (p : Nat × internalHeadroomPolicy σh) : List PolicyCall :=
  [PolicyCall.SetPodSet p.1 podSet, PolicyCall.SetEssentials p.1 essentials,
    PolicyCall.Update p.1 (p.2.policy.Update (p.2.pushed podSet essentials)).2]

/-- The sample region with a first headroom policy that succeeded earlier but is broken
now, and a second one that failed earlier but is able to update -/
def staleRegion : QoSRegionBase (Option ControlKnob) StubHeadroomState :=
  { sampleRegion with
    headroomPolicies :=
      [⟨"utilization", stubHeadroomPolicy true (some 7), PolicyUpdateSucceeded⟩,
       ⟨"canonical", stubHeadroomPolicy false none, PolicyUpdateFailed⟩] }

/-- The region after the containers `cs` have been added to it, one after the other -/
def QoSRegionBase.addAll (r : QoSRegionBase σp σh) (cs : List ContainerInfo) :
    QoSRegionBase σp σh :=
  r.run (cs.map (fun ci => Op.AddContainer (some ci)))

/-- A configuration that names two provision and two headroom policies for share regions -/
def sampleConf : CPUAdvisorConfiguration :=
  { ProvisionPolicies := fun regionType =>
      if regionType = QoSRegionTypeShare then some ["rama", "canonical"] else none
    HeadroomPolicies := fun regionType =>
      if regionType = QoSRegionTypeShare then some ["utilization", "canonical"] else none }

/-- A registry that knows the provision policy "canonical" only -/
def sampleProvisionInitializers : ProvisionInitializers (Option ControlKnob) :=
  fun policyName =>
    if policyName = "canonical" then some (fun _ => stubProvisionPolicy (some sampleKnob))
    else none

/-- A registry that knows the headroom policies "utilization" (broken) and "canonical" -/
def sampleHeadroomInitializers : HeadroomInitializers StubHeadroomState :=
  fun policyName =>
    if policyName = "utilization" then some (fun _ => stubHeadroomPolicy true none)
    else if policyName = "canonical" then some (fun _ => stubHeadroomPolicy false none)
    else none

/-- A freshly constructed share region -/
def freshRegion : QoSRegionBase (Option ControlKnob) StubHeadroomState :=
  NewQoSRegionBase "share-0" "share" QoSRegionTypeShare sampleConf sampleProvisionInitializers
    sampleHeadroomInitializers

/-- A container on the cores 1 and 2 of NUMA node 0 -/
def containerA : ContainerInfo :=
  { PodUID := "uid1", ContainerName := "c1", QoSLevel := "shared_cores",
    TopologyAwareAssignments := ⟨[(0, {1, 2})]⟩, RegionNames := [] }

/-- A second container on the same cores -/
def containerB : ContainerInfo :=
  { PodUID := "uid2", ContainerName := "c2", QoSLevel := "shared_cores",
    TopologyAwareAssignments := ⟨[(0, {1, 2})]⟩, RegionNames := [] }

/-- A third container on another core -/
def containerC : ContainerInfo :=
  { PodUID := "uid3", ContainerName := "c3", QoSLevel := "shared_cores",
    TopologyAwareAssignments := ⟨[(0, {3})]⟩, RegionNames := [] }

/-- A container in ramp-up, with no cores assigned yet -/
def rampUpA : ContainerInfo :=
  { PodUID := "uid1", ContainerName := "c1", QoSLevel := "shared_cores",
    TopologyAwareAssignments := ⟨[]⟩, RegionNames := [] }

/-- A second container in ramp-up, with no cores assigned yet -/
def rampUpB : ContainerInfo :=
  { PodUID := "uid2", ContainerName := "c2", QoSLevel := "shared_cores",
    TopologyAwareAssignments := ⟨[]⟩, RegionNames := [] }

/-- The fields of a region that the constructor's policy initialisation leaves alone -/
def QoSRegionBase.sameButChains (r r' : QoSRegionBase σp σh) : Prop :=
  r'.name = r.name ∧ r'.regionType = r.regionType ∧ r'.bindingNumas = r.bindingNumas ∧
    r'.podSet = r.podSet ∧
    r'.containerTopologyAwareAssignment = r.containerTopologyAwareAssignment ∧
    r'.provisionPolicyInUse = r.provisionPolicyInUse ∧
    r'.headroomPolicyInUse = r.headroomPolicyInUse

/-- A region without members has no reference assignment -/
def QoSRegionBase.referenceInv (r : QoSRegionBase σp σh) : Prop :=
  r.podSet.len = 0 → r.containerTopologyAwareAssignment.len = 0

/-- Whether `GetProvision` can return from a provision chain entry -/
def internalProvisionPolicy.validB (internal : internalProvisionPolicy σp) : Bool :=
  internal.updateStatus == PolicyUpdateSucceeded &&
    match internal.policy.GetControlKnobAdjusted internal.policy.state with
    | .ok _ => true
    | .error _ => false

/-- Whether `GetHeadroom` can return from a headroom chain entry -/
def internalHeadroomPolicy.validB (internal : internalHeadroomPolicy σh) : Bool :=
  internal.updateStatus == PolicyUpdateSucceeded &&
    match internal.policy.GetHeadroom internal.policy.state with
    | .ok _ => true
    | .error _ => false

/-- The name of the first provision policy of the chain that `GetProvision` can return from -/
def QoSRegionBase.firstValidProvisionName (r : QoSRegionBase σp σh) : CPUProvisionPolicyName :=
  ((r.provisionPolicies.find? internalProvisionPolicy.validB).map (fun e => e.name)).getD
    CPUProvisionPolicyNone

/-- The name of the first headroom policy of the chain that `GetHeadroom` can return from -/
def QoSRegionBase.firstValidHeadroomName (r : QoSRegionBase σp σh) : CPUHeadroomPolicyName :=
  ((r.headroomPolicies.find? internalHeadroomPolicy.validB).map (fun e => e.name)).getD
    CPUHeadroomPolicyNone

/-- The provision policy name on record after one method call on `r`, `inUse` being the
name on record before: a `GetProvision` that succeeds records the policy it returned from,
every other call leaves the record as it is -/
def provisionInUseStep (r : QoSRegionBase σp σh) (inUse : CPUProvisionPolicyName) :
    Op → CPUProvisionPolicyName
  | .GetProvision =>
    match r.GetProvision.2 with
    | .ok _ => r.firstValidProvisionName
    | .error _ => inUse
  | _ => inUse

/-- The provision policy name recorded by the last successful `GetProvision` of a history
that starts in `r`, or `inUse` when no `GetProvision` of the history succeeds -/
def provisionInUseAfter (r : QoSRegionBase σp σh) (inUse : CPUProvisionPolicyName) :
    List Op → CPUProvisionPolicyName
  | [] => inUse
  | op :: ops => provisionInUseAfter (r.step op) (provisionInUseStep r inUse op) ops

/-- The headroom policy name on record after one method call on `r`, `inUse` being the
name on record before: a `GetHeadroom` that succeeds records the policy it returned from,
every other call leaves the record as it is -/
def headroomInUseStep (r : QoSRegionBase σp σh) (inUse : CPUHeadroomPolicyName) :
    Op → CPUHeadroomPolicyName
  | .GetHeadroom =>
    match r.GetHeadroom.2 with
    | .ok _ => r.firstValidHeadroomName
    | .error _ => inUse
  | _ => inUse

/-- The headroom policy name recorded by the last successful `GetHeadroom` of a history
that starts in `r`, or `inUse` when no `GetHeadroom` of the history succeeds -/
def headroomInUseAfter (r : QoSRegionBase σp σh) (inUse : CPUHeadroomPolicyName) :
    List Op → CPUHeadroomPolicyName
  | [] => inUse
  | op :: ops => headroomInUseAfter (r.step op) (headroomInUseStep r inUse op) ops

/-- The names a chain is expected to be built from: the configured names, in configured
order, that have a registered initializer; no name when nothing is configured -/
def expectedChain (configured : Option (List String)) (registered : String → Bool) :
    List String :=
  (configured.getD []).filter registered

/-- No provision policy has ever been marked succeeded or been put in use -/
def QoSRegionBase.provisionIdle (r : QoSRegionBase σp σh) : Prop :=
  (∀ e ∈ r.provisionPolicies, e.updateStatus = PolicyUpdateFailed) ∧
    r.provisionPolicyInUse = none

/-- A freshly constructed region of type empty, for which the sample configuration names
no policy -/
def emptyTypeRegion : QoSRegionBase (Option ControlKnob) StubHeadroomState :=
  NewQoSRegionBase "empty-0" "" QoSRegionTypeEmpty sampleConf sampleProvisionInitializers
    sampleHeadroomInitializers

/-! ## Restoring the region of a container -/

/-- RegionInfo contains region information generated by sysadvisor resource advisor -/
structure RegionInfo where
  RegionType : QoSRegionType
  BindingNumas : CPUSet
  HeadroomPolicyTopPriority : CPUHeadroomPolicyName
  HeadroomPolicyInUse : CPUHeadroomPolicyName
  Headroom : float64
  ControlKnobMap : ControlKnob
  ProvisionPolicyTopPriority : CPUProvisionPolicyName
  ProvisionPolicyInUse : CPUProvisionPolicyName
  deriving DecidableEq

/-- Modelled from the spec: the read side of the record store (`metacache.MetaReader`,
absent), of which the region code calls `GetRegionInfo(name) → (record, found)`. -/
structure MetaReader where
  GetRegionInfo : String → Option RegionInfo

/-- The QoS level of shared-cores containers, `consts.PodAnnotationQoSLevelSharedCores`
of the katalyst-api module -/
def PodAnnotationQoSLevelSharedCores : String := "shared_cores"

/-- Modelled from the spec: `CPUSet.ToSliceInt` (package `pkg/util/machine`, absent) hands
out the core IDs of the set as a slice, in increasing order. -/
def CPUSet.ToSliceInt (s : CPUSet) : List Int :=
  s.sort (fun a b => a ≤ b)

/-- The `len` of a `sets.String` (a Go map used as a set): the number of distinct members -/
def stringSetLen (s : List String) : Nat :=
  s.dedup.length

/-- The members of a `sets.String` as `List()` hands them out: a sorted slice -/
def stringSetList (s : List String) : List String :=
  s.dedup.insertionSort (fun a b => a ≤ b)

/-- The `for regionName := range ci.RegionNames` loop of `getRegionNameFromMetaCache`. Go
visits the members of the set in an unspecified order; the list is the order of the visit
at hand. -/
def getRegionNameFromMetaCache.loop (numaID : Int) (metaReader : MetaReader) :
    List String → String
  | [] => ""
  | regionName :: rest =>
    match metaReader.GetRegionInfo regionName with
    | some regionInfo =>
      if regionInfo.RegionType = QoSRegionTypeDedicatedNumaExclusive then
        let regionNUMAs := CPUSet.ToSliceInt regionInfo.BindingNumas
        if regionNUMAs.length = 1 ∧ regionNUMAs[0]? = some numaID then regionName
        else getRegionNameFromMetaCache.loop numaID metaReader rest
      else getRegionNameFromMetaCache.loop numaID metaReader rest
    | none => getRegionNameFromMetaCache.loop numaID metaReader rest

/-- getRegionNameFromMetaCache returns region name owned by container from metacache,
to restore region info after restart. If numaID is specified, binding numas of the
region will be checked, otherwise only one region should be owned by container.
`IsNumaBinding` is the method of `ContainerInfo` of that name (types/helper.go, absent),
taken as a parameter. -/
def getRegionNameFromMetaCache (IsNumaBinding : ContainerInfo → Bool) (ci : ContainerInfo)
    (numaID : Int) (metaReader : MetaReader) : String :=
  if ci.QoSLevel = PodAnnotationQoSLevelSharedCores then
    if stringSetLen ci.RegionNames = 1 then
      -- get region name from metaCache
      match stringSetList ci.RegionNames with
      | regionName :: _ =>
        match metaReader.GetRegionInfo regionName with
        | some regionInfo =>
          if regionInfo.RegionType = QoSRegionTypeShare then regionName else ""
        | none => ""
      | [] => ""
    else ""
  else if IsNumaBinding ci then
    getRegionNameFromMetaCache.loop numaID metaReader ci.RegionNames
  else ""

/-- A region-summary record of the given type and binding NUMA nodes -/
def sampleRegionInfo (regionType : QoSRegionType) (numas : CPUSet) : RegionInfo :=
  { RegionType := regionType, BindingNumas := numas,
    HeadroomPolicyTopPriority := "canonical", HeadroomPolicyInUse := "canonical",
    Headroom := 0, ControlKnobMap := [],
    ProvisionPolicyTopPriority := "canonical", ProvisionPolicyInUse := "canonical" }

/-- A record store that holds the share regions "share-a" and "share-b", the dedicated
region "dedicated-numa0" bound to NUMA node 0, and a share region under the empty name -/
def sampleMetaReader : MetaReader :=
  { GetRegionInfo := fun regionName =>
      if regionName = "share-a" then some (sampleRegionInfo QoSRegionTypeShare {0, 1})
      else if regionName = "share-b" then some (sampleRegionInfo QoSRegionTypeShare {0, 1})
      else if regionName = "dedicated-numa0" then
        some (sampleRegionInfo QoSRegionTypeDedicatedNumaExclusive {0})
      else if regionName = "" then some (sampleRegionInfo QoSRegionTypeShare {0, 1})
      else none }

/-- A shared-cores container that records the region "share-a" -/
def restartedShared : ContainerInfo :=
  { PodUID := "uid1", ContainerName := "c1", QoSLevel := "shared_cores",
    TopologyAwareAssignments := ⟨[(1, {25, 26})]⟩, RegionNames := ["share-a"] }

/-- A shared-cores container that records two regions, "share-a" and "share-b" -/
def restartedSharedTwoRegions : ContainerInfo :=
  { PodUID := "uid1", ContainerName := "c1", QoSLevel := "shared_cores",
    TopologyAwareAssignments := ⟨[(1, {25, 26})]⟩, RegionNames := ["share-a", "share-b"] }

/-- A dedicated-cores container that records the region "dedicated-numa0" -/
def restartedDedicated : ContainerInfo :=
  { PodUID := "uid2", ContainerName := "c2", QoSLevel := "dedicated_cores",
    TopologyAwareAssignments := ⟨[(0, {1, 2})]⟩, RegionNames := ["dedicated-numa0"] }

/-! ## `pkg/metaserver/external/manager.go`

The mutex serialises `Run` and `setComponentImplementation`; each is one atomic function on
the manager. `Run` then waits for the context to be done, which changes no field. -/

/-- The embedded cgroup-ID manager, of which the embedding keeps how many times `Run` has
started it in a goroutine -/
structure CgroupIDManager where
  runs : Nat
  deriving DecidableEq

/-- ExternalManager contains a set of managers that execute configurations beyond the OCI
spec; `ν` and `ρ` are the network manager and RDT manager implementations -/
structure ExternalManager (ν ρ : Type) where
  start : Bool
  CgroupIDManager : CgroupIDManager
  NetworkManager : ν
  RDTManager : ρ
  deriving DecidableEq

/-- InitExternalManager initializes an ExternalManager. `manager` is the package variable
(`none` before the first call): `initManagerOnce` builds the manager on the first call
only, with the default network and RDT managers; the result is the variable afterwards
and the manager returned. -/
def InitExternalManager {ν ρ : Type} (defaultNetworkManager : ν) (defaultRDTManager : ρ)
    (manager : Option (ExternalManager ν ρ)) :
    Option (ExternalManager ν ρ) × ExternalManager ν ρ :=
  match manager with
  | none =>
    let m : ExternalManager ν ρ :=
      { start := false
        CgroupIDManager := ⟨0⟩
        NetworkManager := defaultNetworkManager
        RDTManager := defaultRDTManager }
    (some m, m)
  | some m => (some m, m)

/-- Run starts an ExternalManager -/
def ExternalManager.Run {ν ρ : Type} (m : ExternalManager ν ρ) : ExternalManager ν ρ :=
  if m.start then m
  else
    { m with start := true, CgroupIDManager := { runs := m.CgroupIDManager.runs + 1 } }

/-- The manager after `setComponentImplementation(setter)` and the warnings logged -/
def ExternalManager.setComponentImplementation {ν ρ : Type} (m : ExternalManager ν ρ)
    (setter : ExternalManager ν ρ → ExternalManager ν ρ) :
    ExternalManager ν ρ × List String :=
  if m.start then
    (m, ["external manager has already started, not allowed to set implementations"])
  else (setter m, [])

/-- SetNetworkManager replaces defaultNetworkManager with a custom implementation -/
def ExternalManager.SetNetworkManager {ν ρ : Type} (m : ExternalManager ν ρ) (n : ν) :
    ExternalManager ν ρ × List String :=
  m.setComponentImplementation (fun m => { m with NetworkManager := n })

/-- A call of a method of `ExternalManager` -/
inductive ManagerOp (ν : Type) where
  | Run
  | SetNetworkManager (n : ν)

/-- The manager after one method call -/
def ExternalManager.step {ν ρ : Type} (m : ExternalManager ν ρ) :
    ManagerOp ν → ExternalManager ν ρ
  | .Run => m.Run
  | .SetNetworkManager n => (m.SetNetworkManager n).1

/-- The manager after a sequence of method calls -/
def ExternalManager.runOps {ν ρ : Type} (m : ExternalManager ν ρ) (ops : List (ManagerOp ν)) :
    ExternalManager ν ρ :=
  ops.foldl ExternalManager.step m

/-- The manager as `InitExternalManager` first builds it, with named stand-ins for the
default network and RDT managers -/
def sampleManager : ExternalManager String String :=
  (InitExternalManager "default-network" "default-rdt" none).2

/-! ## The maps handed out by the accessors

`types.PodSet` is `map[string]sets.String` (types.go) and `sets.String` is itself a map: a
value of either type is a reference to a map object, and whoever holds the reference can
change the object in place; a `machine.CPUSet` is taken the same way. To tell a copy from
an alias the map objects are kept on an explicit heap. A reference is the index of the
object on the heap; a pod set object maps a pod uid to the reference of the set that holds
the container names of the pod, so two pod set objects may share such a set. -/

/-- The Go heap as far as the accessors of the region reach it: the objects behind the
`sets.String` values, behind the `types.PodSet` values (pod uid to the reference of a
`sets.String`) and behind the `machine.CPUSet` values -/
structure Heap where
  stringSets : List (List String)
  podSets : List (List (String × Nat))
  cpuSets : List CPUSet
  deriving DecidableEq

/-- The container names in the set behind a reference (none where nothing is allocated) -/
def Heap.stringSetAt (h : Heap) (ref : Nat) : List String :=
  h.stringSets.getD ref []

/-- The entries of the pod set object behind a reference: pod uids with the references of
their sets (none where nothing is allocated) -/
def Heap.podSetEntriesAt (h : Heap) (ref : Nat) : List (String × Nat) :=
  h.podSets.getD ref []

/-- The pod set a holder of the reference reads: every pod uid of the object with the
container names in the set its entry refers to -/
def Heap.podSetAt (h : Heap) (ref : Nat) : PodSet :=
  ⟨(h.podSetEntriesAt ref).map (fun e => (e.1, h.stringSetAt e.2))⟩

/-- The CPU set behind a reference (the empty set where nothing is allocated) -/
def Heap.cpuSetAt (h : Heap) (ref : Nat) : CPUSet :=
  h.cpuSets.getD ref ∅

/-- The loop that allocates the sets of a new pod set object: for every pod a new set (at
`next`, `next + 1`, ...) that holds the container names of the pod. The result is the new
sets and the entries of the new pod set object. -/
def allocPodSet.loop :
    Nat → List (String × List String) → List (List String) × List (String × Nat)
  | _, [] => ([], [])
  | next, e :: rest =>
    let more := allocPodSet.loop (next + 1) rest
    (e.2 :: more.1, (e.1, next) :: more.2)

/-- A new pod set object that holds the pod set `ps`, with a new set for every pod: the
heap afterwards and the reference to the new object -/
def Heap.allocPodSet (h : Heap) (ps : PodSet) : Heap × Nat :=
  let out := allocPodSet.loop h.stringSets.length ps.entries
  ({ h with stringSets := h.stringSets ++ out.1, podSets := h.podSets ++ [out.2] },
    h.podSets.length)

/-- Modelled from the spec: `PodSet.Clone` (types/helper.go, absent) on the heap returns a
copy of the pod set that can be changed on its own ("copies returned to callers", "a
defensive copy of mutable collections (never a live alias)", "independently-mutable
copies"): a new map object that maps every pod uid to a new set holding the container
names of the pod. The result is the heap afterwards and the reference to the new object. -/
def Heap.ClonePodSet (h : Heap) (ref : Nat) : Heap × Nat :=
  h.allocPodSet (h.podSetAt ref).Clone

/-- Modelled from the spec: `CPUSet.Clone` (package `pkg/util/machine`, absent) on the
heap allocates a new set object that holds the core IDs of the set cloned ("clone", "a
defensive copy ... never a live alias"). The result is the heap afterwards and the
reference to the new object. -/
def Heap.CloneCPUSet (h : Heap) (ref : Nat) : Heap × Nat :=
  ({ h with cpuSets := h.cpuSets ++ [CPUSet.Clone (h.cpuSetAt ref)] }, h.cpuSets.length)

/-- The fields `bindingNumas` and `podSet` of `QoSRegionBase` as Go holds them: references
to map objects -/
structure RegionRefs where
  bindingNumas : Nat
  podSet : Nat
  deriving DecidableEq

/-- GetBindingNumas, `return r.bindingNumas.Clone()`: the heap afterwards and the
reference returned. The region is not changed. -/
def QoSRegionBase.GetBindingNumas (r : RegionRefs) (h : Heap) : Heap × Nat :=
  h.CloneCPUSet r.bindingNumas

/-- GetPods, `return r.podSet.Clone()`: the heap afterwards and the reference returned.
The region is not changed. -/
def QoSRegionBase.GetPods (r : RegionRefs) (h : Heap) : Heap × Nat :=
  h.ClonePodSet r.podSet

/-- What the holder of a `types.PodSet` value `ps` does to insert into it or remove from
it: `ps.Insert(podUID, containerName)`, `ps[podUID].Delete(containerName)` and
`delete(ps, podUID)` -/
inductive PodSetEdit where
  | Insert (podUID containerName : String)
  | Remove (podUID containerName : String)
  | Delete (podUID : String)
  deriving DecidableEq

/-- Modelled from the spec: `PodSet.Insert` (types/helper.go, absent) on the heap, with
the removals a holder of the map can make. `Insert` adds the container name to the set
kept under the pod uid, in place, and for a new pod allocates that set and enters it in
the pod set object; `Remove` takes the container name out of the set of the pod, in place
(nothing to do for a pod the object does not have); `Delete` takes the entry of the pod
out of the pod set object. -/
def Heap.editPodSet (h : Heap) (ref : Nat) : PodSetEdit → Heap
  | .Insert podUID containerName =>
    match (h.podSetEntriesAt ref).find? (fun e => e.1 == podUID) with
    | some e =>
      let names := h.stringSetAt e.2
      let names := if containerName ∈ names then names else names ++ [containerName]
      { h with stringSets := h.stringSets.set e.2 names }
    | none =>
      let entries := h.podSetEntriesAt ref ++ [(podUID, h.stringSets.length)]
      { h with
        stringSets := h.stringSets ++ [[containerName]]
        podSets := h.podSets.set ref entries }
  | .Remove podUID containerName =>
    match (h.podSetEntriesAt ref).find? (fun e => e.1 == podUID) with
    | some e =>
      let names := (h.stringSetAt e.2).filter (fun c => c != containerName)
      { h with stringSets := h.stringSets.set e.2 names }
    | none => h
  | .Delete podUID =>
    let entries := (h.podSetEntriesAt ref).filter (fun e => e.1 != podUID)
    { h with podSets := h.podSets.set ref entries }

/-- A sequence of edits through one reference to a pod set object -/
def Heap.editsPodSet (h : Heap) (ref : Nat) (edits : List PodSetEdit) : Heap :=
  edits.foldl (fun h e => h.editPodSet ref e) h

/-- A change in place of the CPU set behind a reference, by whoever holds the reference:
adding or removing core IDs, or any other update `g` of the set -/
def Heap.mutateCPUSet (h : Heap) (ref : Nat) (g : CPUSet → CPUSet) : Heap :=
  { h with cpuSets := h.cpuSets.set ref (g (h.cpuSetAt ref)) }

/-- What may differ between the heap `h` and a heap `h2` reached from it by the holder of
the reference `p` to a pod set object: the object behind `p`, the sets it refers to, and
what was allocated since. No CPU set differs, no other pod set object differs, the object
behind `p` refers to sets it referred to before or to new ones, and a set of `h` that the
object behind `p` did not refer to holds what it held. -/
def Heap.Frame (h h2 : Heap) (p : Nat) : Prop :=
  h2.cpuSets = h.cpuSets ∧
  h2.podSets.length = h.podSets.length ∧
  h.stringSets.length ≤ h2.stringSets.length ∧
  (∀ q, p ≠ q → h2.podSetEntriesAt q = h.podSetEntriesAt q) ∧
  (∀ y ∈ h2.podSetEntriesAt p, y ∈ h.podSetEntriesAt p ∨ h.stringSets.length ≤ y.2) ∧
  (∀ s, s < h.stringSets.length → (∀ y ∈ h.podSetEntriesAt p, y.2 ≠ s) →
    h2.stringSetAt s = h.stringSetAt s)

/-- The pod set object behind `q` is allocated, and so is every set it refers to -/
def Heap.Allocated (h : Heap) (q : Nat) : Prop :=
  q < h.podSets.length ∧ ∀ x ∈ h.podSetEntriesAt q, x.2 < h.stringSets.length

/-- The pod set behind `q` is allocated and shares nothing with the pod set behind `p`:
they are two objects, and no set one of them refers to is a set the other refers to -/
def Heap.Apart (h : Heap) (p q : Nat) : Prop :=
  p ≠ q ∧ h.Allocated q ∧
    ∀ x ∈ h.podSetEntriesAt q, ∀ y ∈ h.podSetEntriesAt p, y.2 ≠ x.2

/-- The heap holds the maps of the region: the references of the region point to allocated
objects, and what is read through them is the membership and the binding NUMA set of the
region -/
def Heap.Holds (h : Heap) (r : RegionRefs) (region : QoSRegionBase σp σh) : Prop :=
  h.Allocated r.podSet ∧ r.bindingNumas < h.cpuSets.length ∧
    h.podSetAt r.podSet = region.podSet ∧ h.cpuSetAt r.bindingNumas = region.bindingNumas

/-- A heap with the pod set and the binding NUMA set of `sampleRegion` -/
def sampleHeap : Heap :=
  { stringSets := [["c1"]], podSets := [[("uid1", 0)]], cpuSets := [{0, 1}] }

/-- The references of the region whose maps `sampleHeap` holds -/
def sampleRefs : RegionRefs :=
  { bindingNumas := 0, podSet := 0 }

/-- Edits of a caller: a container of a new pod, a further container of the pod the
region has, the removal of the container the region has, and the removal of the pod -/
def sampleEdits : List PodSetEdit :=
  [.Insert "uid9" "c9", .Insert "uid1" "c2", .Remove "uid1" "c1", .Delete "uid1"]

/-- A heap on which two pod set objects share the set of the pod they hold: what a copy of
the outer map alone would leave behind -/
def sharingHeap : Heap :=
  { stringSets := [["c1"]], podSets := [[("uid1", 0)], [("uid1", 0)]], cpuSets := [] }

/-! ## `pkg/agent/sysadvisor/plugin/inference/models/borwein/utils/utils.go` -/

/-- GetInferenceResultKey. `ModelNameBorwein` is the constant
`borweinconsts.ModelNameBorwein` (package `borwein/consts`, absent), taken as a parameter;
`fmt.Sprintf("%s/%s", x, y)` is `x`, a slash, `y`. -/
def GetInferenceResultKey (ModelNameBorwein : String) (modelName : String) : String :=
  -- legacy model name compatible
  if modelName = ModelNameBorwein then modelName
  else ModelNameBorwein ++ "/" ++ modelName

/-! ## Theorems -/

theorem GetProvision_loop_eq_none (ps : List (internalProvisionPolicy σp)) (k : Nat) :
    GetProvision.loop k ps = none ↔ ∀ e ∈ ps, ¬ e.valid := by
  induction ps generalizing k with
  | nil => simp [GetProvision.loop]
  | cons e rest ih =>
    unfold GetProvision.loop
    by_cases hs : e.updateStatus = PolicyUpdateSucceeded
    · cases hg : e.policy.GetControlKnobAdjusted e.policy.state with
      | error msg =>
        simp [hs, hg, ih, internalProvisionPolicy.valid]
      | ok knob =>
        simp [hs, hg, internalProvisionPolicy.valid]
    · simp [hs, ih, internalProvisionPolicy.valid]

theorem GetProvision_loop_eq_some (ps : List (internalProvisionPolicy σp)) (k i : Nat)
    (internal : internalProvisionPolicy σp) (knob : ControlKnob)
    (hi : ps[i]? = some internal)
    (hs : internal.updateStatus = PolicyUpdateSucceeded)
    (hg : internal.policy.GetControlKnobAdjusted internal.policy.state = .ok knob)
    (hfirst : ∀ j e, j < i → ps[j]? = some e → ¬ e.valid) :
    GetProvision.loop k ps = some (k + i, knob) := by
  induction ps generalizing k i with
  | nil => simp at hi
  | cons e rest ih =>
    cases i with
    | zero =>
      simp at hi
      subst hi
      simp [GetProvision.loop, hs, hg]
    | succ i =>
      simp at hi
      have he : ¬ e.valid := hfirst 0 e (Nat.succ_pos i) (by simp)
      have hrest : GetProvision.loop (k + 1) rest = some (k + 1 + i, knob) :=
        ih (k + 1) i hi (fun j e' hj hje => hfirst (j + 1) e' (by omega) (by simpa using hje))
      unfold GetProvision.loop
      by_cases hs' : e.updateStatus = PolicyUpdateSucceeded
      · cases hg' : e.policy.GetControlKnobAdjusted e.policy.state with
        | error msg => simp [hs', hrest]; omega
        | ok knob' => exact absurd ⟨hs', knob', hg'⟩ he
      · simp [hs', hrest]; omega

theorem GetHeadroom_loop_eq_none (ps : List (internalHeadroomPolicy σh)) (k : Nat) :
    GetHeadroom.loop k ps = none ↔ ∀ e ∈ ps, ¬ e.valid := by
  induction ps generalizing k with
  | nil => simp [GetHeadroom.loop]
  | cons e rest ih =>
    unfold GetHeadroom.loop
    by_cases hs : e.updateStatus = PolicyUpdateSucceeded
    · cases hg : e.policy.GetHeadroom e.policy.state with
      | error msg =>
        simp [hs, hg, ih, internalHeadroomPolicy.valid]
      | ok headroom =>
        simp [hs, hg, internalHeadroomPolicy.valid]
    · simp [hs, ih, internalHeadroomPolicy.valid]

theorem GetHeadroom_loop_eq_some (ps : List (internalHeadroomPolicy σh)) (k i : Nat)
    (internal : internalHeadroomPolicy σh) (headroom : float64)
    (hi : ps[i]? = some internal)
    (hs : internal.updateStatus = PolicyUpdateSucceeded)
    (hg : internal.policy.GetHeadroom internal.policy.state = .ok headroom)
    (hfirst : ∀ j e, j < i → ps[j]? = some e → ¬ e.valid) :
    GetHeadroom.loop k ps = some (k + i, headroom) := by
  induction ps generalizing k i with
  | nil => simp at hi
  | cons e rest ih =>
    cases i with
    | zero =>
      simp at hi
      subst hi
      simp [GetHeadroom.loop, hs, hg]
    | succ i =>
      simp at hi
      have he : ¬ e.valid := hfirst 0 e (Nat.succ_pos i) (by simp)
      have hrest : GetHeadroom.loop (k + 1) rest = some (k + 1 + i, headroom) :=
        ih (k + 1) i hi (fun j e' hj hje => hfirst (j + 1) e' (by omega) (by simpa using hje))
      unfold GetHeadroom.loop
      by_cases hs' : e.updateStatus = PolicyUpdateSucceeded
      · cases hg' : e.policy.GetHeadroom e.policy.state with
        | error msg => simp [hs', hrest]; omega
        | ok headroom' => exact absurd ⟨hs', headroom', hg'⟩ he
      · simp [hs', hrest]; omega

theorem GetProvision_of_first (r : QoSRegionBase σp σh) (i : Nat)
    (internal : internalProvisionPolicy σp) (knob : ControlKnob)
    (hi : r.provisionPolicies[i]? = some internal)
    (hs : internal.updateStatus = PolicyUpdateSucceeded)
    (hg : internal.policy.GetControlKnobAdjusted internal.policy.state = .ok knob)
    (hfirst : ∀ j e, j < i → r.provisionPolicies[j]? = some e → ¬ e.valid) :
    r.GetProvision = ({ r with provisionPolicyInUse := some i }, .ok knob) := by
  have h := GetProvision_loop_eq_some r.provisionPolicies 0 i internal knob hi hs hg hfirst
  simp only [Nat.zero_add] at h
  simp [QoSRegionBase.GetProvision, h]

theorem GetProvision_of_none (r : QoSRegionBase σp σh)
    (h : ∀ e ∈ r.provisionPolicies, ¬ e.valid) :
    r.GetProvision = (r, .error "failed to get legal provison") := by
  have h' := (GetProvision_loop_eq_none r.provisionPolicies 0).2 h
  simp [QoSRegionBase.GetProvision, h']

theorem GetProvision_error_iff (r : QoSRegionBase σp σh) :
    (∃ msg, r.GetProvision.2 = .error msg) ↔ ∀ e ∈ r.provisionPolicies, ¬ e.valid := by
  constructor
  · rintro ⟨msg, hmsg⟩
    apply (GetProvision_loop_eq_none r.provisionPolicies 0).1
    cases hl : GetProvision.loop 0 r.provisionPolicies with
    | none => rfl
    | some p =>
      obtain ⟨idx, knob⟩ := p
      simp [QoSRegionBase.GetProvision, hl] at hmsg
  · intro h
    exact ⟨_, by rw [GetProvision_of_none r h]⟩

theorem GetHeadroom_of_first (r : QoSRegionBase σp σh) (i : Nat)
    (internal : internalHeadroomPolicy σh) (headroom : float64)
    (hi : r.headroomPolicies[i]? = some internal)
    (hs : internal.updateStatus = PolicyUpdateSucceeded)
    (hg : internal.policy.GetHeadroom internal.policy.state = .ok headroom)
    (hfirst : ∀ j e, j < i → r.headroomPolicies[j]? = some e → ¬ e.valid) :
    r.GetHeadroom = ({ r with headroomPolicyInUse := some i }, .ok headroom) := by
  have h := GetHeadroom_loop_eq_some r.headroomPolicies 0 i internal headroom hi hs hg hfirst
  simp only [Nat.zero_add] at h
  simp [QoSRegionBase.GetHeadroom, h]

theorem GetHeadroom_of_none (r : QoSRegionBase σp σh)
    (h : ∀ e ∈ r.headroomPolicies, ¬ e.valid) :
    r.GetHeadroom = (r, .error "failed to get valid headroom") := by
  have h' := (GetHeadroom_loop_eq_none r.headroomPolicies 0).2 h
  simp [QoSRegionBase.GetHeadroom, h']

theorem GetHeadroom_error_iff (r : QoSRegionBase σp σh) :
    (∃ msg, r.GetHeadroom.2 = .error msg) ↔ ∀ e ∈ r.headroomPolicies, ¬ e.valid := by
  constructor
  · rintro ⟨msg, hmsg⟩
    apply (GetHeadroom_loop_eq_none r.headroomPolicies 0).1
    cases hl : GetHeadroom.loop 0 r.headroomPolicies with
    | none => rfl
    | some p =>
      obtain ⟨idx, headroom⟩ := p
      simp [QoSRegionBase.GetHeadroom, hl] at hmsg
  · intro h
    exact ⟨_, by rw [GetHeadroom_of_none r h]⟩

/-! ### Fallback over the policy chains -/

/-- C1: `GetProvision` returns the control knob of the first entry of the provision chain,
in chain order, whose update status is succeeded and whose `GetControlKnobAdjusted` returns
no error, and records that entry as the provision policy in use (so that `GetProvisionPolicy`
reports its name); it returns an error exactly when no entry satisfies both conditions. In
particular, when the entries up to `i` fail and entry `i + 1` succeeds, the result is the
control knob of entry `i + 1`, which is marked in use. -/
theorem GetProvision_returns_first_valid (r : QoSRegionBase σp σh) :
    (∀ (i : Nat) (internal : internalProvisionPolicy σp) (knob : ControlKnob),
        r.provisionPolicies[i]? = some internal →
        internal.updateStatus = PolicyUpdateSucceeded →
        internal.policy.GetControlKnobAdjusted internal.policy.state = .ok knob →
        (∀ j e, j < i → r.provisionPolicies[j]? = some e → ¬ e.valid) →
        r.GetProvision = ({ r with provisionPolicyInUse := some i }, .ok knob) ∧
          r.GetProvision.1.GetProvisionPolicy.2 = internal.name) ∧
    ((∃ msg, r.GetProvision.2 = .error msg) ↔ ∀ e ∈ r.provisionPolicies, ¬ e.valid) ∧
    (∀ (i : Nat) (failing succeeding : internalProvisionPolicy σp) (knob : ControlKnob),
        r.provisionPolicies[i]? = some failing →
        r.provisionPolicies[i + 1]? = some succeeding →
        (∀ j e, j ≤ i → r.provisionPolicies[j]? = some e → ¬ e.valid) →
        succeeding.updateStatus = PolicyUpdateSucceeded →
        succeeding.policy.GetControlKnobAdjusted succeeding.policy.state = .ok knob →
        r.GetProvision.2 = .ok knob ∧ r.GetProvision.1.provisionPolicyInUse = some (i + 1) ∧
          r.GetProvision.1.GetProvisionPolicy.2 = succeeding.name) := by
  have key : ∀ (i : Nat) (internal : internalProvisionPolicy σp) (knob : ControlKnob),
      r.provisionPolicies[i]? = some internal →
      internal.updateStatus = PolicyUpdateSucceeded →
      internal.policy.GetControlKnobAdjusted internal.policy.state = .ok knob →
      (∀ j e, j < i → r.provisionPolicies[j]? = some e → ¬ e.valid) →
      r.GetProvision = ({ r with provisionPolicyInUse := some i }, .ok knob) ∧
        r.GetProvision.1.GetProvisionPolicy.2 = internal.name := by
    intro i internal knob hi hs hg hfirst
    have h := GetProvision_of_first r i internal knob hi hs hg hfirst
    refine ⟨h, ?_⟩
    rw [h]
    simp [QoSRegionBase.GetProvisionPolicy, provisionPolicyName, hi]
  refine ⟨key, GetProvision_error_iff r, ?_⟩
  intro i failing succeeding knob _ hsucc hfail hs hg
  have h := key (i + 1) succeeding knob hsucc hs hg
    (fun j e hj hje => hfail j e (by omega) hje)
  refine ⟨?_, ?_, h.2⟩
  · rw [h.1]
  · rw [h.1]

/-- Witness of C1 on the sample region: the first provision policy has failed, the second
one succeeded, and the second one's control knob is returned and marked in use. -/
theorem GetProvision_returns_first_valid_witness :
    sampleRegion.GetProvision.2 = .ok sampleKnob ∧
      sampleRegion.GetProvision.1.provisionPolicyInUse = some 1 ∧
      sampleRegion.GetProvision.1.GetProvisionPolicy.2 = "canonical" :=
  (GetProvision_returns_first_valid sampleRegion).2.2 0
    ⟨"rama", stubProvisionPolicy none, PolicyUpdateFailed⟩
    ⟨"canonical", stubProvisionPolicy (some sampleKnob), PolicyUpdateSucceeded⟩
    sampleKnob rfl rfl
    (by
      intro j e hj hje
      have hj0 : j = 0 := by omega
      subst hj0
      have he : e = ⟨"rama", stubProvisionPolicy none, PolicyUpdateFailed⟩ := by
        simpa [sampleRegion] using hje.symm
      subst he
      simp [internalProvisionPolicy.valid, PolicyUpdateFailed, PolicyUpdateSucceeded])
    rfl rfl

/-- C2: `GetHeadroom` returns the headroom of the first entry of the headroom chain, in
chain order, whose update status is succeeded and whose `GetHeadroom` returns no error, and
records that entry as the headroom policy in use (so that `GetHeadRoomPolicy` reports its
name); it returns an error exactly when no entry satisfies both conditions. -/
theorem GetHeadroom_returns_first_valid (r : QoSRegionBase σp σh) :
    (∀ (i : Nat) (internal : internalHeadroomPolicy σh) (headroom : float64),
        r.headroomPolicies[i]? = some internal →
        internal.updateStatus = PolicyUpdateSucceeded →
        internal.policy.GetHeadroom internal.policy.state = .ok headroom →
        (∀ j e, j < i → r.headroomPolicies[j]? = some e → ¬ e.valid) →
        r.GetHeadroom = ({ r with headroomPolicyInUse := some i }, .ok headroom) ∧
          r.GetHeadroom.1.GetHeadRoomPolicy.2 = internal.name) ∧
    ((∃ msg, r.GetHeadroom.2 = .error msg) ↔ ∀ e ∈ r.headroomPolicies, ¬ e.valid) := by
  refine ⟨?_, GetHeadroom_error_iff r⟩
  intro i internal headroom hi hs hg hfirst
  have h := GetHeadroom_of_first r i internal headroom hi hs hg hfirst
  refine ⟨h, ?_⟩
  rw [h]
  simp [QoSRegionBase.GetHeadRoomPolicy, headroomPolicyName, hi]

/-- Witness of C2 on the sample region: the first headroom policy has failed, the second
one succeeded, and the second one's headroom is returned and marked in use. -/
theorem GetHeadroom_returns_first_valid_witness :
    sampleRegion.GetHeadroom = ({ sampleRegion with headroomPolicyInUse := some 1 }, .ok 12) ∧
      sampleRegion.GetHeadroom.1.GetHeadRoomPolicy.2 = "canonical" :=
  (GetHeadroom_returns_first_valid sampleRegion).1 1
    ⟨"canonical", stubHeadroomPolicy false (some 12), PolicyUpdateSucceeded⟩ 12 rfl rfl rfl
    (by
      intro j e hj hje
      have hj0 : j = 0 := by omega
      subst hj0
      have he : e = ⟨"utilization", stubHeadroomPolicy true none, PolicyUpdateFailed⟩ := by
        simpa [sampleRegion] using hje.symm
      subst he
      simp [internalHeadroomPolicy.valid, PolicyUpdateFailed, PolicyUpdateSucceeded])

/-- C3: when no entry of the provision chain (respectively headroom chain) has status
succeeded together with a retrievable value, `GetProvision` (respectively `GetHeadroom`)
returns an error and the region after the call is the region before it: the recorded
policies in use, the names reported by `GetProvisionPolicy` and `GetHeadRoomPolicy`, and
every other field are unchanged. -/
theorem chain_exhausted_keeps_region (r : QoSRegionBase σp σh) :
    ((∀ e ∈ r.provisionPolicies, ¬ e.valid) →
      r.GetProvision = (r, .error "failed to get legal provison") ∧
        r.GetProvision.1.provisionPolicyInUse = r.provisionPolicyInUse ∧
        r.GetProvision.1.GetProvisionPolicy = r.GetProvisionPolicy ∧
        r.GetProvision.1.GetHeadRoomPolicy = r.GetHeadRoomPolicy) ∧
    ((∀ e ∈ r.headroomPolicies, ¬ e.valid) →
      r.GetHeadroom = (r, .error "failed to get valid headroom") ∧
        r.GetHeadroom.1.headroomPolicyInUse = r.headroomPolicyInUse ∧
        r.GetHeadroom.1.GetHeadRoomPolicy = r.GetHeadRoomPolicy ∧
        r.GetHeadroom.1.GetProvisionPolicy = r.GetProvisionPolicy) := by
  constructor
  · intro h
    have h' := GetProvision_of_none r h
    refine ⟨h', ?_, ?_, ?_⟩ <;> rw [h']
  · intro h
    have h' := GetHeadroom_of_none r h
    refine ⟨h', ?_, ?_, ?_⟩ <;> rw [h']

/-- Witness of C3 on a region whose provision policies have both failed and whose only
succeeded headroom policy has nothing to hand out: both calls fail and the recorded
policy in use stays the second entry. -/
theorem chain_exhausted_keeps_region_witness :
    (exhaustedRegion.GetProvision = (exhaustedRegion, .error "failed to get legal provison") ∧
      exhaustedRegion.GetProvision.1.provisionPolicyInUse = some 1) ∧
    (exhaustedRegion.GetHeadroom = (exhaustedRegion, .error "failed to get valid headroom") ∧
      exhaustedRegion.GetHeadroom.1.headroomPolicyInUse = some 1) := by
  have hp : ∀ e ∈ exhaustedRegion.provisionPolicies, ¬ e.valid := by
    intro e he
    simp [exhaustedRegion] at he
    rcases he with rfl | rfl <;>
      simp [internalProvisionPolicy.valid, PolicyUpdateFailed, PolicyUpdateSucceeded]
  have hh : ∀ e ∈ exhaustedRegion.headroomPolicies, ¬ e.valid := by
    intro e he
    simp [exhaustedRegion] at he
    rcases he with rfl | rfl <;>
      simp [internalHeadroomPolicy.valid, PolicyUpdateFailed, PolicyUpdateSucceeded,
        stubHeadroomPolicy]
  have h := chain_exhausted_keeps_region exhaustedRegion
  exact ⟨⟨(h.1 hp).1, (h.1 hp).2.1⟩, ⟨(h.2 hh).1, (h.2 hh).2.1⟩⟩

/-! ### Refreshing the headroom policies -/

theorem TryUpdateHeadroom_body_calls (podSet : PodSet) (essentials : Katalyst.ResourceEssentials)
    (idx : Nat) (internal : internalHeadroomPolicy σh) :
    (TryUpdateHeadroom.body podSet essentials idx internal).2 =
      expectedCalls podSet essentials (idx, internal) := by
  unfold TryUpdateHeadroom.body expectedCalls internalHeadroomPolicy.pushed
  cases h : (internal.policy.Update
      (internal.policy.SetEssentials (internal.policy.SetPodSet internal.policy.state podSet)
        essentials)).2 <;> simp [h]

theorem TryUpdateHeadroom_body_entry (podSet : PodSet) (essentials : Katalyst.ResourceEssentials)
    (idx : Nat) (internal : internalHeadroomPolicy σh) :
    (TryUpdateHeadroom.body podSet essentials idx internal).1.name = internal.name ∧
    (TryUpdateHeadroom.body podSet essentials idx internal).1.policy.state =
      (internal.policy.Update (internal.pushed podSet essentials)).1 ∧
    ((TryUpdateHeadroom.body podSet essentials idx internal).1.updateStatus =
        PolicyUpdateSucceeded ↔
      (internal.policy.Update (internal.pushed podSet essentials)).2 = none) ∧
    ((TryUpdateHeadroom.body podSet essentials idx internal).1.updateStatus =
        PolicyUpdateFailed ↔
      (internal.policy.Update (internal.pushed podSet essentials)).2 ≠ none) := by
  unfold TryUpdateHeadroom.body internalHeadroomPolicy.pushed
  cases h : (internal.policy.Update
      (internal.policy.SetEssentials (internal.policy.SetPodSet internal.policy.state podSet)
        essentials)).2 <;> simp [h, PolicyUpdateSucceeded, PolicyUpdateFailed]

theorem TryUpdateHeadroom_loop_length (podSet : PodSet) (essentials : Katalyst.ResourceEssentials)
    (k : Nat) (chain : List (internalHeadroomPolicy σh)) :
    (TryUpdateHeadroom.loop podSet essentials k chain).1.length = chain.length := by
  induction chain generalizing k with
  | nil => simp [TryUpdateHeadroom.loop]
  | cons e rest ih => simp [TryUpdateHeadroom.loop, ih]

theorem TryUpdateHeadroom_loop_getElem (podSet : PodSet)
    (essentials : Katalyst.ResourceEssentials) (k i : Nat)
    (chain : List (internalHeadroomPolicy σh)) (internal : internalHeadroomPolicy σh)
    (hi : chain[i]? = some internal) :
    (TryUpdateHeadroom.loop podSet essentials k chain).1[i]? =
      some (TryUpdateHeadroom.body podSet essentials (k + i) internal).1 := by
  induction chain generalizing k i with
  | nil => simp at hi
  | cons e rest ih =>
    cases i with
    | zero =>
      simp at hi
      subst hi
      simp [TryUpdateHeadroom.loop]
    | succ i =>
      simp at hi
      have h := ih (k + 1) i hi
      simp only [TryUpdateHeadroom.loop, List.getElem?_cons_succ, h]
      congr 3
      omega

theorem TryUpdateHeadroom_loop_calls (podSet : PodSet) (essentials : Katalyst.ResourceEssentials)
    (k : Nat) (chain : List (internalHeadroomPolicy σh)) :
    (TryUpdateHeadroom.loop podSet essentials k chain).2 =
      (chain.enumFrom k).flatMap (expectedCalls podSet essentials) := by
  induction chain generalizing k with
  | nil => simp [TryUpdateHeadroom.loop]
  | cons e rest ih =>
    simp [TryUpdateHeadroom.loop, ih, TryUpdateHeadroom_body_calls, List.enumFrom]

theorem expectedCalls_updateIdx (podSet : PodSet) (essentials : Katalyst.ResourceEssentials)
    (k : Nat) (chain : List (internalHeadroomPolicy σh)) :
    ((chain.enumFrom k).flatMap (expectedCalls podSet essentials)).filterMap
      PolicyCall.updateIdx = List.range' k chain.length := by
  induction chain generalizing k with
  | nil => simp
  | cons e rest ih =>
    simp only [List.enumFrom, List.flatMap_cons, List.filterMap_append, ih, List.length_cons,
      List.range'_succ]
    simp [expectedCalls, PolicyCall.updateIdx, List.filterMap_cons]

theorem expectedCalls_split (podSet : PodSet) (essentials : Katalyst.ResourceEssentials)
    (k i : Nat) (chain : List (internalHeadroomPolicy σh)) (internal : internalHeadroomPolicy σh)
    (hi : chain[i]? = some internal) :
    ∃ pre post, (chain.enumFrom k).flatMap (expectedCalls podSet essentials) =
      pre ++ expectedCalls podSet essentials (k + i, internal) ++ post := by
  induction chain generalizing k i with
  | nil => simp at hi
  | cons e rest ih =>
    cases i with
    | zero =>
      simp at hi
      subst hi
      exact ⟨[], (rest.enumFrom (k + 1)).flatMap (expectedCalls podSet essentials), by
        simp [List.enumFrom]⟩
    | succ i =>
      simp at hi
      obtain ⟨pre, post, h⟩ := ih (k + 1) i hi
      have hk : k + 1 + i = k + (i + 1) := by omega
      rw [hk] at h
      refine ⟨expectedCalls podSet essentials (k, e) ++ pre, post, ?_⟩
      simp only [List.enumFrom, List.flatMap_cons, h, List.append_assoc]

theorem TryUpdateHeadroom_entry (r : QoSRegionBase σp σh) (i : Nat)
    (internal : internalHeadroomPolicy σh) (hi : r.headroomPolicies[i]? = some internal) :
    r.TryUpdateHeadroom.1.headroomPolicies[i]? =
      some (TryUpdateHeadroom.body r.podSet r.ResourceEssentials i internal).1 := by
  have h := TryUpdateHeadroom_loop_getElem r.podSet r.ResourceEssentials 0 i
    r.headroomPolicies internal hi
  simpa [QoSRegionBase.TryUpdateHeadroom] using h

theorem TryUpdateHeadroom_calls (r : QoSRegionBase σp σh) :
    r.TryUpdateHeadroom.2 =
      r.headroomPolicies.enum.flatMap (expectedCalls r.podSet r.ResourceEssentials) := by
  simp [QoSRegionBase.TryUpdateHeadroom, TryUpdateHeadroom_loop_calls, List.enum]

/-- C4: whatever the outcomes of the policies' `Update` steps, `TryUpdateHeadroom` calls
`Update` on every entry of the headroom chain exactly once and in chain order (the `Update`
calls it makes are those of the indices `0, 1, ..., n - 1`, in this order), never stopping
at a failure; afterwards the chain has the same length and names, and the status of each
entry is succeeded if and only if its own `Update` returned no error in this call, and
failed otherwise, whatever its status was before; nothing but the headroom chain changes.
The operation has no error to report: it returns the region and nothing else. -/
theorem TryUpdateHeadroom_updates_every_policy (r : QoSRegionBase σp σh) :
    r.TryUpdateHeadroom.2.filterMap PolicyCall.updateIdx =
      List.range r.headroomPolicies.length ∧
    r.TryUpdateHeadroom.1.headroomPolicies.length = r.headroomPolicies.length ∧
    (∀ (i : Nat) (internal : internalHeadroomPolicy σh),
      r.headroomPolicies[i]? = some internal →
      PolicyCall.Update i
          (internal.policy.Update (internal.pushed r.podSet r.ResourceEssentials)).2 ∈
        r.TryUpdateHeadroom.2 ∧
      ∃ after, r.TryUpdateHeadroom.1.headroomPolicies[i]? = some after ∧
        after.name = internal.name ∧
        after.policy.state =
          (internal.policy.Update (internal.pushed r.podSet r.ResourceEssentials)).1 ∧
        (after.updateStatus = PolicyUpdateSucceeded ↔
          (internal.policy.Update (internal.pushed r.podSet r.ResourceEssentials)).2 = none) ∧
        (after.updateStatus = PolicyUpdateFailed ↔
          (internal.policy.Update (internal.pushed r.podSet r.ResourceEssentials)).2 ≠ none)) ∧
    r.TryUpdateHeadroom.1 =
      { r with headroomPolicies := r.TryUpdateHeadroom.1.headroomPolicies } := by
  refine ⟨?_, ?_, ?_, rfl⟩
  · rw [TryUpdateHeadroom_calls, List.enum, expectedCalls_updateIdx, List.range_eq_range']
  · simp [QoSRegionBase.TryUpdateHeadroom, TryUpdateHeadroom_loop_length]
  · intro i internal hi
    constructor
    · obtain ⟨pre, post, h⟩ :=
        expectedCalls_split r.podSet r.ResourceEssentials 0 i r.headroomPolicies internal hi
      rw [TryUpdateHeadroom_calls, List.enum, h]
      simp [expectedCalls]
    · exact ⟨_, TryUpdateHeadroom_entry r i internal hi,
        TryUpdateHeadroom_body_entry r.podSet r.ResourceEssentials i internal⟩

/-- Witness of C4: the first headroom policy had succeeded earlier and fails now, the
second had failed and succeeds now; both are updated, in order, with these outcomes. -/
theorem TryUpdateHeadroom_updates_every_policy_witness :
    staleRegion.TryUpdateHeadroom.2.filterMap PolicyCall.updateIdx = [0, 1] ∧
    PolicyCall.Update 0 (some "no metrics yet") ∈ staleRegion.TryUpdateHeadroom.2 ∧
    PolicyCall.Update 1 none ∈ staleRegion.TryUpdateHeadroom.2 ∧
    staleRegion.TryUpdateHeadroom.1.headroomPolicies.map (fun e => e.updateStatus) =
      [PolicyUpdateFailed, PolicyUpdateSucceeded] := by
  have h := TryUpdateHeadroom_updates_every_policy staleRegion
  refine ⟨h.1, ?_, ?_, rfl⟩
  · exact (h.2.2.1 0 ⟨"utilization", stubHeadroomPolicy true (some 7), PolicyUpdateSucceeded⟩
      rfl).1
  · exact (h.2.2.1 1 ⟨"canonical", stubHeadroomPolicy false none, PolicyUpdateFailed⟩ rfl).1

theorem step_essentials (r : QoSRegionBase σp σh) (op : Op)
    (h : ∀ e, op ≠ Op.SetEssentials e) :
    (r.step op).ResourceEssentials = r.ResourceEssentials := by
  cases op with
  | SetEssentials e => exact absurd rfl (h e)
  | AddContainer ci =>
    cases ci with
    | none => rfl
    | some ci =>
      simp only [QoSRegionBase.step, QoSRegionBase.AddContainer]
      split
      · rfl
      · split <;> rfl
  | GetProvision =>
    simp only [QoSRegionBase.step, QoSRegionBase.GetProvision]
    split <;> rfl
  | GetHeadroom =>
    simp only [QoSRegionBase.step, QoSRegionBase.GetHeadroom]
    split <;> rfl
  | TryUpdateHeadroom => rfl
  | Clear => rfl
  | SetBindingNumas n => rfl
  | GetProvisionPolicy => rfl
  | GetHeadRoomPolicy => rfl
  | GetPods => rfl
  | GetBindingNumas => rfl
  | IsEmpty => rfl

theorem run_essentials (r : QoSRegionBase σp σh) (ops : List Op)
    (h : ∀ op ∈ ops, ∀ e, op ≠ Op.SetEssentials e) :
    (r.run ops).ResourceEssentials = r.ResourceEssentials := by
  induction ops generalizing r with
  | nil => rfl
  | cons op ops ih =>
    have h1 := ih (r.step op) (fun op' hop' => h op' (List.mem_cons_of_mem _ hop'))
    have h2 := step_essentials r op (h op (List.mem_cons_self _ _))
    exact h1.trans h2

/-- C9: before the `Update` of each headroom policy, `TryUpdateHeadroom` pushes the region's
current pod set and then its current resource essentials into that policy: the calls made
are, entry by entry in chain order, `SetPodSet`, `SetEssentials`, `Update`, and `Update`
runs on the policy state that results from the two pushes. Hence after `SetEssentials e`
the next `TryUpdateHeadroom` hands `e` and the membership of that moment to every headroom
policy of the chain before that policy is updated, also when other method calls (none of
them a `SetEssentials`) come in between. -/
theorem TryUpdateHeadroom_pushes_before_update (r : QoSRegionBase σp σh)
    (essentials : Katalyst.ResourceEssentials) :
    r.TryUpdateHeadroom.2 =
      r.headroomPolicies.enum.flatMap (expectedCalls r.podSet r.ResourceEssentials) ∧
    (r.SetEssentials essentials).TryUpdateHeadroom.2 =
      r.headroomPolicies.enum.flatMap (expectedCalls r.podSet essentials) ∧
    (∀ (i : Nat) (internal : internalHeadroomPolicy σh),
      r.headroomPolicies[i]? = some internal →
      (∃ pre post, (r.SetEssentials essentials).TryUpdateHeadroom.2 =
        pre ++ [PolicyCall.SetPodSet i r.podSet, PolicyCall.SetEssentials i essentials,
          PolicyCall.Update i
            (internal.policy.Update (internal.pushed r.podSet essentials)).2] ++ post) ∧
      ∃ after, (r.SetEssentials essentials).TryUpdateHeadroom.1.headroomPolicies[i]? =
          some after ∧
        after.policy.state =
          (internal.policy.Update
            (internal.policy.SetEssentials
              (internal.policy.SetPodSet internal.policy.state r.podSet) essentials)).1) ∧
    (∀ ops : List Op, (∀ op ∈ ops, ∀ e, op ≠ Op.SetEssentials e) →
      ((r.SetEssentials essentials).run ops).TryUpdateHeadroom.2 =
        ((r.SetEssentials essentials).run ops).headroomPolicies.enum.flatMap
          (expectedCalls ((r.SetEssentials essentials).run ops).podSet essentials)) := by
  refine ⟨TryUpdateHeadroom_calls r, TryUpdateHeadroom_calls (r.SetEssentials essentials), ?_,
    fun ops hops => by
      rw [TryUpdateHeadroom_calls, run_essentials _ ops hops]
      rfl⟩
  intro i internal hi
  constructor
  · obtain ⟨pre, post, h⟩ :=
      expectedCalls_split r.podSet essentials 0 i r.headroomPolicies internal hi
    refine ⟨pre, post, ?_⟩
    rw [TryUpdateHeadroom_calls (r.SetEssentials essentials)]
    simpa [List.enum, expectedCalls, QoSRegionBase.SetEssentials] using h
  · exact ⟨_, TryUpdateHeadroom_entry (r.SetEssentials essentials) i internal hi,
      (TryUpdateHeadroom_body_entry r.podSet essentials i internal).2.1⟩

/-- Witness of C9: after new essentials with upper bound 77 are set on the sample region,
the second headroom policy is updated on a state that holds the region's pod set and the
new essentials, so the headroom it computes is 77. -/
theorem TryUpdateHeadroom_pushes_before_update_witness :
    ∃ after, (sampleRegion.SetEssentials ⟨true, 77, 4, 4⟩).TryUpdateHeadroom.1.headroomPolicies[1]? =
        some after ∧
      after.policy.state =
        { podSet := ⟨[("uid1", ["c1"])]⟩, essentials := ⟨true, 77, 4, 4⟩, broken := false,
          headroom := some 77 } :=
  ((TryUpdateHeadroom_pushes_before_update sampleRegion ⟨true, 77, 4, 4⟩).2.2.1 1
    ⟨"canonical", stubHeadroomPolicy false (some 12), PolicyUpdateSucceeded⟩ rfl).2

/-! ### The map helpers -/

theorem TopologyAwareAssignment_lookup_isSome (ta : TopologyAwareAssignment) (k : Int) :
    (ta.lookup k).isSome = true ↔ k ∈ ta.entries.map Prod.fst := by
  simp [TopologyAwareAssignment.lookup, List.find?_isSome]

theorem TopologyAwareAssignment_lookup_eq_none (ta : TopologyAwareAssignment) (k : Int) :
    ta.lookup k = none ↔ k ∉ ta.entries.map Prod.fst := by
  rw [← TopologyAwareAssignment_lookup_isSome]
  cases ta.lookup k <;> simp

theorem TopologyAwareAssignment_len_eq_card (ta : TopologyAwareAssignment) :
    ta.len = (ta.entries.map Prod.fst).toFinset.card := by
  simp [TopologyAwareAssignment.len, List.card_toFinset]

/-- `Equals` holds exactly when the two assignments map every NUMA node alike -/
theorem TopologyAwareAssignment_Equals_iff (ta t : TopologyAwareAssignment) :
    ta.Equals t = true ↔ ∀ k, ta.lookup k = t.lookup k := by
  constructor
  · intro h
    simp only [TopologyAwareAssignment.Equals, Bool.and_eq_true, beq_iff_eq, List.all_eq_true] at h
    obtain ⟨hlen, hall⟩ := h
    have hsub : (ta.entries.map Prod.fst).toFinset ⊆ (t.entries.map Prod.fst).toFinset := by
      intro k hk
      rw [List.mem_toFinset] at hk ⊢
      obtain ⟨e, he, rfl⟩ := List.mem_map.1 hk
      rw [← TopologyAwareAssignment_lookup_isSome, hall e he,
        TopologyAwareAssignment_lookup_isSome]
      exact hk
    have hkeys : (ta.entries.map Prod.fst).toFinset = (t.entries.map Prod.fst).toFinset :=
      Finset.eq_of_subset_of_card_le hsub (by
        rw [← TopologyAwareAssignment_len_eq_card, ← TopologyAwareAssignment_len_eq_card, hlen])
    intro k
    by_cases hk : k ∈ ta.entries.map Prod.fst
    · obtain ⟨e, he, rfl⟩ := List.mem_map.1 hk
      exact (hall e he).symm
    · have hk' : k ∉ t.entries.map Prod.fst := by
        intro hkt
        apply hk
        rw [← List.mem_toFinset, hkeys, List.mem_toFinset]
        exact hkt
      rw [(TopologyAwareAssignment_lookup_eq_none ta k).2 hk,
        (TopologyAwareAssignment_lookup_eq_none t k).2 hk']
  · intro h
    have hkeys : (ta.entries.map Prod.fst).toFinset = (t.entries.map Prod.fst).toFinset := by
      ext k
      rw [List.mem_toFinset, List.mem_toFinset, ← TopologyAwareAssignment_lookup_isSome,
        ← TopologyAwareAssignment_lookup_isSome, h k]
    simp only [TopologyAwareAssignment.Equals, Bool.and_eq_true, beq_iff_eq, List.all_eq_true]
    refine ⟨?_, fun e _ => (h e.1).symm⟩
    rw [TopologyAwareAssignment_len_eq_card, TopologyAwareAssignment_len_eq_card, hkeys]

theorem TopologyAwareAssignment_Equals_len (ta t : TopologyAwareAssignment)
    (h : ta.Equals t = true) : ta.len = t.len := by
  simp only [TopologyAwareAssignment.Equals, Bool.and_eq_true, beq_iff_eq] at h
  exact h.1

theorem TopologyAwareAssignment_Clone_eq (ta : TopologyAwareAssignment) : ta.Clone = ta := by
  cases ta
  simp [TopologyAwareAssignment.Clone]

theorem TopologyAwareAssignment_len_eq_zero (ta : TopologyAwareAssignment) :
    ta.len = 0 ↔ ta.entries = [] := by
  simp [TopologyAwareAssignment.len, List.length_eq_zero, List.dedup_eq_nil]

theorem PodSet_len_eq_zero (ps : PodSet) : ps.len = 0 ↔ ps.entries = [] := by
  simp [PodSet.len, List.length_eq_zero, List.dedup_eq_nil]

theorem PodSet_insertEntries_ne_nil (podUID containerName : String)
    (es : List (String × List String)) :
    PodSet.insertEntries podUID containerName es ≠ [] := by
  cases es with
  | nil => simp [PodSet.insertEntries]
  | cons e rest =>
    obtain ⟨uid, names⟩ := e
    simp only [PodSet.insertEntries]
    split <;> simp

theorem PodSet_Insert_len_pos (ps : PodSet) (podUID containerName : String) :
    0 < (ps.Insert podUID containerName).len := by
  rw [Nat.pos_iff_ne_zero, Ne, PodSet_len_eq_zero]
  exact PodSet_insertEntries_ne_nil podUID containerName ps.entries

theorem PodSet_mem_insertEntries (podUID containerName : String)
    (es : List (String × List String)) (x : String × String) :
    x ∈ (PodSet.insertEntries podUID containerName es).flatMap
        (fun e => e.2.map (fun c => (e.1, c))) ↔
      x = (podUID, containerName) ∨ x ∈ es.flatMap (fun e => e.2.map (fun c => (e.1, c))) := by
  induction es with
  | nil => simp [PodSet.insertEntries]
  | cons e rest ih =>
    obtain ⟨uid, names⟩ := e
    simp only [PodSet.insertEntries]
    by_cases hu : uid = podUID
    · subst hu
      by_cases hn : containerName ∈ names
      · simp only [if_true, hn, List.flatMap_cons, List.mem_append, List.mem_map]
        constructor
        · intro h; exact Or.inr h
        · rintro (rfl | h)
          · exact Or.inl ⟨containerName, hn, rfl⟩
          · exact h
      · simp only [if_true, hn, if_false, List.flatMap_cons, List.mem_append, List.mem_map,
          List.mem_singleton]
        constructor
        · rintro (⟨c, hc | rfl, rfl⟩ | h)
          · exact Or.inr (Or.inl ⟨c, hc, rfl⟩)
          · exact Or.inl rfl
          · exact Or.inr (Or.inr h)
        · rintro (rfl | ⟨c, hc, rfl⟩ | h)
          · exact Or.inl ⟨containerName, Or.inr rfl, rfl⟩
          · exact Or.inl ⟨c, Or.inl hc, rfl⟩
          · exact Or.inr h
    · simp only [hu, if_false, List.flatMap_cons, List.mem_append, ih]
      tauto

/-- Insertion adds exactly the given (pod uid, container name) pair -/
theorem PodSet_containers_Insert (ps : PodSet) (podUID containerName : String) :
    (ps.Insert podUID containerName).containers =
      insert (podUID, containerName) ps.containers := by
  ext x
  simp only [PodSet.containers, PodSet.Insert, List.mem_toFinset, Finset.mem_insert]
  exact PodSet_mem_insertEntries podUID containerName ps.entries x

theorem AddContainer_podSet (r : QoSRegionBase σp σh) (ci : ContainerInfo) :
    (r.AddContainer (some ci)).region.podSet = r.podSet.Insert ci.PodUID ci.ContainerName := by
  simp only [QoSRegionBase.AddContainer]
  split
  · rfl
  · split <;> rfl

/-! ### Adding containers -/

/-- C5: `AddContainer` called with a nil container returns an error and leaves the region
as it was: the pod set, the reference topology assignment and every other field are
those of the region before the call, and nothing is logged. -/
theorem AddContainer_nil_rejected (r : QoSRegionBase σp σh) :
    (r.AddContainer none).err = some "container info nil" ∧
    (r.AddContainer none).region = r ∧
    (r.AddContainer none).region.podSet = r.podSet ∧
    (r.AddContainer none).region.containerTopologyAwareAssignment =
      r.containerTopologyAwareAssignment ∧
    (r.AddContainer none).warnings = [] := by
  unfold QoSRegionBase.AddContainer
  exact ⟨rfl, rfl, rfl, rfl, rfl⟩

theorem AddContainer_err (r : QoSRegionBase σp σh) (ci : ContainerInfo) :
    (r.AddContainer (some ci)).err = none := by
  simp only [QoSRegionBase.AddContainer]
  split
  · rfl
  · split <;> rfl

/-- C6: `AddContainer` of a non-nil container never returns an error; afterwards the
container's (pod uid, container name) pair is a member, every earlier member is kept and
nothing else is added, and when the pair was not yet a member the number of containers in
the membership grows by exactly one. This holds on every region and for every topology
assignment of the new container, in particular on a region that holds two containers
sharing one assignment when a third container with a differing assignment is added. -/
theorem AddContainer_inserts_member (r : QoSRegionBase σp σh) (ci : ContainerInfo) :
    (r.AddContainer (some ci)).err = none ∧
    (ci.PodUID, ci.ContainerName) ∈ (r.AddContainer (some ci)).region.podSet.containers ∧
    r.podSet.containers ⊆ (r.AddContainer (some ci)).region.podSet.containers ∧
    (r.AddContainer (some ci)).region.podSet.containers =
      insert (ci.PodUID, ci.ContainerName) r.podSet.containers ∧
    ((ci.PodUID, ci.ContainerName) ∉ r.podSet.containers →
      (r.AddContainer (some ci)).region.podSet.count = r.podSet.count + 1) := by
  have hc : (r.AddContainer (some ci)).region.podSet.containers =
      insert (ci.PodUID, ci.ContainerName) r.podSet.containers := by
    rw [AddContainer_podSet, PodSet_containers_Insert]
  refine ⟨AddContainer_err r ci, ?_, ?_, hc, ?_⟩
  · rw [hc]; exact Finset.mem_insert_self _ _
  · rw [hc]; exact Finset.subset_insert _ _
  · intro hnew
    simp only [PodSet.count, hc]
    exact Finset.card_insert_of_not_mem hnew

/-- Witness of C6: a fresh region to which two containers sharing one assignment were
added holds two containers; adding a third one with another assignment gives no error,
and the region holds three. -/
theorem AddContainer_inserts_member_witness :
    (freshRegion.addAll [containerA, containerB]).podSet.count = 2 ∧
    ((freshRegion.addAll [containerA, containerB]).AddContainer (some containerC)).err = none ∧
    ((freshRegion.addAll [containerA, containerB]).AddContainer
      (some containerC)).region.podSet.count = 2 + 1 := by
  have hcount : (freshRegion.addAll [containerA, containerB]).podSet.count = 2 := by decide
  have h := AddContainer_inserts_member (freshRegion.addAll [containerA, containerB]) containerC
  refine ⟨hcount, h.1, ?_⟩
  rw [h.2.2.2.2 (by decide), hcount]

theorem AddContainer_of_no_reference (r : QoSRegionBase σp σh) (ci : ContainerInfo)
    (h : r.containerTopologyAwareAssignment.len = 0) :
    (r.AddContainer (some ci)).region.containerTopologyAwareAssignment =
        ci.TopologyAwareAssignments ∧
      (r.AddContainer (some ci)).warnings = [] := by
  simp [QoSRegionBase.AddContainer, h, TopologyAwareAssignment_Clone_eq]

theorem AddContainer_of_reference (r : QoSRegionBase σp σh) (ci : ContainerInfo)
    (h : 0 < r.containerTopologyAwareAssignment.len) :
    (r.AddContainer (some ci)).region.containerTopologyAwareAssignment =
        r.containerTopologyAwareAssignment ∧
      (r.AddContainer (some ci)).warnings =
        if r.containerTopologyAwareAssignment.Equals ci.TopologyAwareAssignments then []
        else ["[qosaware-cpu] sanity check failed"] := by
  have h' : ¬ r.containerTopologyAwareAssignment.len ≤ 0 := by omega
  simp only [QoSRegionBase.AddContainer, h', if_false]
  cases r.containerTopologyAwareAssignment.Equals ci.TopologyAwareAssignments <;> simp

theorem addAll_cons (r : QoSRegionBase σp σh) (c : ContainerInfo) (cs : List ContainerInfo) :
    r.addAll (c :: cs) = (r.AddContainer (some c)).region.addAll cs := rfl

theorem addAll_of_reference (r : QoSRegionBase σp σh) (cs : List ContainerInfo)
    (h : 0 < r.containerTopologyAwareAssignment.len) :
    (r.addAll cs).containerTopologyAwareAssignment = r.containerTopologyAwareAssignment := by
  induction cs generalizing r with
  | nil => rfl
  | cons c cs ih =>
    have hc := (AddContainer_of_reference r c h).1
    rw [addAll_cons, ih _ (by rw [hc]; exact h), hc]

theorem addAll_of_all_empty (r : QoSRegionBase σp σh) (cs : List ContainerInfo)
    (h : r.containerTopologyAwareAssignment.len = 0)
    (hall : ∀ c ∈ cs, c.TopologyAwareAssignments.len = 0) :
    (r.addAll cs).containerTopologyAwareAssignment.len = 0 := by
  induction cs generalizing r with
  | nil => exact h
  | cons c cs ih =>
    rw [addAll_cons]
    apply ih
    · rw [(AddContainer_of_no_reference r c h).1]
      exact hall c (List.mem_cons_self _ _)
    · intro c' hc'
      exact hall c' (List.mem_cons_of_mem _ hc')

/-- The reference assignment of a region that had none and to which containers sharing
a non-empty assignment were added is that shared assignment -/
theorem addAll_reference_shared (r0 : QoSRegionBase σp σh) (cs : List ContainerInfo)
    (shared : TopologyAwareAssignment)
    (hempty : r0.containerTopologyAwareAssignment.len = 0)
    (hcs : 2 ≤ cs.length)
    (hshare : ∀ c ∈ cs, shared.Equals c.TopologyAwareAssignments = true)
    (hne : 0 < shared.len) :
    shared.Equals (r0.addAll cs).containerTopologyAwareAssignment = true ∧
      0 < (r0.addAll cs).containerTopologyAwareAssignment.len := by
  cases cs with
  | nil => simp at hcs
  | cons c cs =>
    have hc := (AddContainer_of_no_reference r0 c hempty).1
    have hsc := hshare c (List.mem_cons_self _ _)
    have hlen : 0 < c.TopologyAwareAssignments.len := by
      rw [← TopologyAwareAssignment_Equals_len shared _ hsc]; exact hne
    rw [addAll_cons, addAll_of_reference _ cs (by rw [hc]; exact hlen), hc]
    exact ⟨hsc, hlen⟩

/-- C7, as amended: on a region that had no reference assignment (as after construction
or `Clear`) and to which at least two containers sharing one topology assignment were
added, `AddContainer` of a further container whose assignment differs from the shared
one logs the sanity-check warning whenever the shared assignment is non-empty; when the
shared assignment is empty the region still has no reference, takes the new container's
assignment as its reference and logs nothing. No error is returned either way. -/
theorem AddContainer_warns_on_mismatch (r0 : QoSRegionBase σp σh) (cs : List ContainerInfo)
    (shared : TopologyAwareAssignment) (ci : ContainerInfo)
    (hempty : r0.containerTopologyAwareAssignment.len = 0)
    (hcs : 2 ≤ cs.length)
    (hshare : ∀ c ∈ cs, shared.Equals c.TopologyAwareAssignments = true)
    (hdiff : shared.Equals ci.TopologyAwareAssignments = false) :
    (0 < shared.len →
      ((r0.addAll cs).AddContainer (some ci)).warnings =
          ["[qosaware-cpu] sanity check failed"] ∧
        ((r0.addAll cs).AddContainer (some ci)).err = none) ∧
    (shared.len = 0 →
      ((r0.addAll cs).AddContainer (some ci)).warnings = [] ∧
        ((r0.addAll cs).AddContainer (some ci)).region.containerTopologyAwareAssignment =
          ci.TopologyAwareAssignments ∧
        ((r0.addAll cs).AddContainer (some ci)).err = none) := by
  constructor
  · intro hne
    obtain ⟨heq, hlen⟩ := addAll_reference_shared r0 cs shared hempty hcs hshare hne
    have hneq : (r0.addAll cs).containerTopologyAwareAssignment.Equals
        ci.TopologyAwareAssignments = false := by
      cases hx : (r0.addAll cs).containerTopologyAwareAssignment.Equals
          ci.TopologyAwareAssignments with
      | false => rfl
      | true =>
        have h1 := (TopologyAwareAssignment_Equals_iff _ _).1 heq
        have h2 := (TopologyAwareAssignment_Equals_iff _ _).1 hx
        have h3 : shared.Equals ci.TopologyAwareAssignments = true :=
          (TopologyAwareAssignment_Equals_iff _ _).2 (fun k => (h1 k).trans (h2 k))
        rw [hdiff] at h3
        exact absurd h3 (by simp)
    refine ⟨?_, AddContainer_err _ ci⟩
    rw [(AddContainer_of_reference _ ci hlen).2, hneq]
    simp
  · intro hzero
    have hall : ∀ c ∈ cs, c.TopologyAwareAssignments.len = 0 := by
      intro c hc
      rw [← TopologyAwareAssignment_Equals_len shared _ (hshare c hc)]; exact hzero
    have href := addAll_of_all_empty r0 cs hempty hall
    exact ⟨(AddContainer_of_no_reference _ ci href).2, (AddContainer_of_no_reference _ ci href).1,
      AddContainer_err _ ci⟩

/-- Witness of C7 as amended: two containers on the cores 1 and 2 of node 0, then a
third on core 3: the warning is logged. -/
theorem AddContainer_warns_on_mismatch_witness :
    ((freshRegion.addAll [containerA, containerB]).AddContainer (some containerC)).warnings =
      ["[qosaware-cpu] sanity check failed"] :=
  ((AddContainer_warns_on_mismatch freshRegion [containerA, containerB] ⟨[(0, {1, 2})]⟩
    containerC (by decide) (by decide) (by decide) (by decide)).1 (by decide)).1

/-- Counterexample to C7 as stated: two containers in ramp-up share the empty assignment,
a third container on core 3 has a differing assignment and is not yet a member, and
`AddContainer` of it logs no warning. -/
theorem sanity_check_silent_without_reference :
    rampUpA.TopologyAwareAssignments = rampUpB.TopologyAwareAssignments ∧
    rampUpA.TopologyAwareAssignments.Equals containerC.TopologyAwareAssignments = false ∧
    (freshRegion.addAll [rampUpA, rampUpB]).podSet.count = 2 ∧
    (containerC.PodUID, containerC.ContainerName) ∉
      (freshRegion.addAll [rampUpA, rampUpB]).podSet.containers ∧
    ((freshRegion.addAll [rampUpA, rampUpB]).AddContainer (some containerC)).warnings = [] := by
  decide

/-! ### Regions reached from the constructor -/

theorem sameButChains_refl (r : QoSRegionBase σp σh) : r.sameButChains r :=
  ⟨rfl, rfl, rfl, rfl, rfl, rfl, rfl⟩

theorem sameButChains_trans {r₁ r₂ r₃ : QoSRegionBase σp σh} (h₁ : r₁.sameButChains r₂)
    (h₂ : r₂.sameButChains r₃) : r₁.sameButChains r₃ := by
  obtain ⟨a1, a2, a3, a4, a5, a6, a7⟩ := h₁
  obtain ⟨b1, b2, b3, b4, b5, b6, b7⟩ := h₂
  exact ⟨b1.trans a1, b2.trans a2, b3.trans a3, b4.trans a4, b5.trans a5, b6.trans a6,
    b7.trans a7⟩

theorem foldl_sameButChains {α : Type} (f : QoSRegionBase σp σh → α → QoSRegionBase σp σh)
    (hf : ∀ (r : QoSRegionBase σp σh) (a : α), r.sameButChains (f r a)) (l : List α) (r : QoSRegionBase σp σh) :
    r.sameButChains (l.foldl f r) := by
  induction l generalizing r with
  | nil => exact sameButChains_refl r
  | cons a l ih => exact sameButChains_trans (hf r a) (ih (f r a))

theorem initHeadroomPolicy_same (r : QoSRegionBase σp σh) (conf : CPUAdvisorConfiguration)
    (headroomInitializers : HeadroomInitializers σh) :
    r.sameButChains (r.initHeadroomPolicy conf headroomInitializers) := by
  unfold QoSRegionBase.initHeadroomPolicy
  split
  · exact sameButChains_refl r
  · apply foldl_sameButChains
    intro r' a
    unfold initHeadroomPolicy.body
    split <;> exact sameButChains_refl r'

theorem initProvisionPolicy_same (r : QoSRegionBase σp σh) (conf : CPUAdvisorConfiguration)
    (initializers : ProvisionInitializers σp) :
    r.sameButChains (r.initProvisionPolicy conf initializers) := by
  unfold QoSRegionBase.initProvisionPolicy
  split
  · exact sameButChains_refl r
  · apply foldl_sameButChains
    intro r' a
    unfold initProvisionPolicy.body
    split <;> exact sameButChains_refl r'

/-- A freshly constructed region has no members, no reference assignment and no policy
in use -/
theorem NewQoSRegionBase_fields (name ownerPoolName : String) (regionType : QoSRegionType)
    (conf : CPUAdvisorConfiguration) (provisionInitializers : ProvisionInitializers σp)
    (headroomInitializers : HeadroomInitializers σh) :
    (NewQoSRegionBase name ownerPoolName regionType conf provisionInitializers
        headroomInitializers).podSet = ⟨[]⟩ ∧
    (NewQoSRegionBase name ownerPoolName regionType conf provisionInitializers
        headroomInitializers).containerTopologyAwareAssignment = ⟨[]⟩ ∧
    (NewQoSRegionBase name ownerPoolName regionType conf provisionInitializers
        headroomInitializers).provisionPolicyInUse = none ∧
    (NewQoSRegionBase name ownerPoolName regionType conf provisionInitializers
        headroomInitializers).headroomPolicyInUse = none := by
  have key : ∀ r0 : QoSRegionBase σp σh, r0.sameButChains
      ((r0.initHeadroomPolicy conf headroomInitializers).initProvisionPolicy conf
        provisionInitializers) :=
    fun r0 => sameButChains_trans (initHeadroomPolicy_same r0 conf headroomInitializers)
      (initProvisionPolicy_same _ conf provisionInitializers)
  obtain ⟨_, _, _, h4, h5, h6, h7⟩ :=
    key ⟨name, ownerPoolName, regionType, ⟨false, 0, 0, 0⟩, ∅, ⟨[]⟩, ⟨[]⟩, [], none, [], none⟩
  exact ⟨h4, h5, h6, h7⟩

theorem step_referenceInv (r : QoSRegionBase σp σh) (op : Op) (h : r.referenceInv) :
    (r.step op).referenceInv := by
  cases op with
  | AddContainer ci =>
    cases ci with
    | none => exact h
    | some ci =>
      intro hlen
      have hpos := PodSet_Insert_len_pos r.podSet ci.PodUID ci.ContainerName
      simp only [QoSRegionBase.step, AddContainer_podSet] at hlen
      omega
  | Clear => intro _; rfl
  | SetEssentials e => exact h
  | SetBindingNumas n => exact h
  | TryUpdateHeadroom => exact h
  | GetProvision =>
    simp only [QoSRegionBase.step, QoSRegionBase.GetProvision]
    split
    · exact h
    · exact h
  | GetHeadroom =>
    simp only [QoSRegionBase.step, QoSRegionBase.GetHeadroom]
    split
    · exact h
    · exact h
  | GetProvisionPolicy => exact h
  | GetHeadRoomPolicy => exact h
  | GetPods => exact h
  | GetBindingNumas => exact h
  | IsEmpty => exact h

theorem run_referenceInv (r : QoSRegionBase σp σh) (ops : List Op) (h : r.referenceInv) :
    (r.run ops).referenceInv := by
  induction ops generalizing r with
  | nil => exact h
  | cons op ops ih => exact ih (r.step op) (step_referenceInv r op h)

theorem NewQoSRegionBase_referenceInv (name ownerPoolName : String) (regionType : QoSRegionType)
    (conf : CPUAdvisorConfiguration) (provisionInitializers : ProvisionInitializers σp)
    (headroomInitializers : HeadroomInitializers σh) :
    (NewQoSRegionBase name ownerPoolName regionType conf provisionInitializers
        headroomInitializers).referenceInv := by
  intro _
  rw [(NewQoSRegionBase_fields name ownerPoolName regionType conf provisionInitializers
    headroomInitializers).2.1]
  rfl

/-- C8, as amended: on every region reached from the constructor by method calls,
`AddContainer` of a non-nil container on a region with no members sets the reference
topology assignment to a copy of that container's assignment. On any region whose
reference assignment is non-empty, `AddContainer` leaves the reference unchanged, whatever
the new container's assignment is; on any region whose reference assignment is empty,
members or not, it sets the reference to a copy of the new container's assignment. -/
theorem AddContainer_reference_assignment (name ownerPoolName : String)
    (regionType : QoSRegionType) (conf : CPUAdvisorConfiguration)
    (provisionInitializers : ProvisionInitializers σp)
    (headroomInitializers : HeadroomInitializers σh) (ops : List Op)
    (r : QoSRegionBase σp σh) (ci : ContainerInfo) :
    (((NewQoSRegionBase name ownerPoolName regionType conf provisionInitializers
          headroomInitializers).run ops).IsEmpty = true →
      (((NewQoSRegionBase name ownerPoolName regionType conf provisionInitializers
          headroomInitializers).run ops).AddContainer
            (some ci)).region.containerTopologyAwareAssignment =
        ci.TopologyAwareAssignments.Clone) ∧
    (0 < r.containerTopologyAwareAssignment.len →
      (r.AddContainer (some ci)).region.containerTopologyAwareAssignment =
        r.containerTopologyAwareAssignment) ∧
    (r.containerTopologyAwareAssignment.len = 0 →
      (r.AddContainer (some ci)).region.containerTopologyAwareAssignment =
        ci.TopologyAwareAssignments.Clone) := by
  refine ⟨?_, fun h => (AddContainer_of_reference r ci h).1, fun h => ?_⟩
  · intro hIsEmpty
    have hinv := run_referenceInv _ ops (NewQoSRegionBase_referenceInv name ownerPoolName
      regionType conf provisionInitializers headroomInitializers)
    have hlen : ((NewQoSRegionBase name ownerPoolName regionType conf provisionInitializers
        headroomInitializers).run ops).podSet.len = 0 := by
      simpa [QoSRegionBase.IsEmpty] using hIsEmpty
    rw [TopologyAwareAssignment_Clone_eq]
    exact (AddContainer_of_no_reference _ ci (hinv hlen)).1
  · rw [TopologyAwareAssignment_Clone_eq]
    exact (AddContainer_of_no_reference r ci h).1

/-- Witness of C8 as amended: a region that was filled and cleared adopts the assignment
of the next container; a region whose reference is the cores 1 and 2 of node 0 keeps it
when a container on core 3 is added. -/
theorem AddContainer_reference_assignment_witness :
    ((freshRegion.run [Op.AddContainer (some containerA), Op.Clear]).AddContainer
        (some containerC)).region.containerTopologyAwareAssignment = ⟨[(0, {3})]⟩ ∧
    ((freshRegion.addAll [containerA]).AddContainer
        (some containerC)).region.containerTopologyAwareAssignment = ⟨[(0, {1, 2})]⟩ := by
  have h := AddContainer_reference_assignment "share-0" "share" QoSRegionTypeShare sampleConf
    sampleProvisionInitializers sampleHeadroomInitializers
    [Op.AddContainer (some containerA), Op.Clear] (freshRegion.addAll [containerA]) containerC
  exact ⟨h.1 (by decide), h.2.1 (by decide)⟩

/-- Counterexample to C8 as stated: a region holds one member, added in ramp-up with the
empty assignment; `AddContainer` of a container on core 3 changes the reference
assignment from the empty one to that container's. -/
theorem reference_adopted_despite_member :
    (freshRegion.addAll [rampUpA]).IsEmpty = false ∧
    (freshRegion.addAll [rampUpA]).podSet.count = 1 ∧
    (freshRegion.addAll [rampUpA]).containerTopologyAwareAssignment = ⟨[]⟩ ∧
    ((freshRegion.addAll [rampUpA]).AddContainer
        (some containerC)).region.containerTopologyAwareAssignment = ⟨[(0, {3})]⟩ ∧
    ((freshRegion.addAll [rampUpA]).AddContainer
        (some containerC)).region.containerTopologyAwareAssignment ≠
      (freshRegion.addAll [rampUpA]).containerTopologyAwareAssignment := by
  decide

/-! ### The policy names reported -/

theorem GetProvision_loop_find (ps : List (internalProvisionPolicy σp)) (k : Nat) :
    match GetProvision.loop k ps with
    | none => True
    | some (idx, _) => ∃ i e, idx = k + i ∧ ps[i]? = some e ∧
        ps.find? internalProvisionPolicy.validB = some e := by
  induction ps generalizing k with
  | nil => simp [GetProvision.loop]
  | cons e rest ih =>
    unfold GetProvision.loop
    by_cases hs : e.updateStatus = PolicyUpdateSucceeded
    · cases hg : e.policy.GetControlKnobAdjusted e.policy.state with
      | error msg =>
        have hv : e.validB = false := by simp [internalProvisionPolicy.validB, hg]
        simp only [hs, ne_eq, not_true_eq_false, if_false]
        have h := ih (k + 1)
        cases hl : GetProvision.loop (k + 1) rest with
        | none => trivial
        | some p =>
          obtain ⟨idx, knob⟩ := p
          rw [hl] at h
          obtain ⟨i, e', hidx, hi, hf⟩ := h
          exact ⟨i + 1, e', by omega, by simpa using hi, by simp [List.find?, hv, hf]⟩
      | ok knob =>
        have hv : e.validB = true := by simp [internalProvisionPolicy.validB, hg, hs]
        simp only [hs, ne_eq, not_true_eq_false, if_false]
        exact ⟨0, e, rfl, by simp, by simp [List.find?, hv]⟩
    · have hv : e.validB = false := by simp [internalProvisionPolicy.validB, hs]
      simp only [ne_eq, hs, not_false_eq_true, if_true]
      have h := ih (k + 1)
      cases hl : GetProvision.loop (k + 1) rest with
      | none => trivial
      | some p =>
        obtain ⟨idx, knob⟩ := p
        rw [hl] at h
        obtain ⟨i, e', hidx, hi, hf⟩ := h
        exact ⟨i + 1, e', by omega, by simpa using hi, by simp [List.find?, hv, hf]⟩

theorem GetHeadroom_loop_find (ps : List (internalHeadroomPolicy σh)) (k : Nat) :
    match GetHeadroom.loop k ps with
    | none => True
    | some (idx, _) => ∃ i e, idx = k + i ∧ ps[i]? = some e ∧
        ps.find? internalHeadroomPolicy.validB = some e := by
  induction ps generalizing k with
  | nil => simp [GetHeadroom.loop]
  | cons e rest ih =>
    unfold GetHeadroom.loop
    by_cases hs : e.updateStatus = PolicyUpdateSucceeded
    · cases hg : e.policy.GetHeadroom e.policy.state with
      | error msg =>
        have hv : e.validB = false := by simp [internalHeadroomPolicy.validB, hg]
        simp only [hs, ne_eq, not_true_eq_false, if_false]
        have h := ih (k + 1)
        cases hl : GetHeadroom.loop (k + 1) rest with
        | none => trivial
        | some p =>
          obtain ⟨idx, headroom⟩ := p
          rw [hl] at h
          obtain ⟨i, e', hidx, hi, hf⟩ := h
          exact ⟨i + 1, e', by omega, by simpa using hi, by simp [List.find?, hv, hf]⟩
      | ok headroom =>
        have hv : e.validB = true := by simp [internalHeadroomPolicy.validB, hg, hs]
        simp only [hs, ne_eq, not_true_eq_false, if_false]
        exact ⟨0, e, rfl, by simp, by simp [List.find?, hv]⟩
    · have hv : e.validB = false := by simp [internalHeadroomPolicy.validB, hs]
      simp only [ne_eq, hs, not_false_eq_true, if_true]
      have h := ih (k + 1)
      cases hl : GetHeadroom.loop (k + 1) rest with
      | none => trivial
      | some p =>
        obtain ⟨idx, headroom⟩ := p
        rw [hl] at h
        obtain ⟨i, e', hidx, hi, hf⟩ := h
        exact ⟨i + 1, e', by omega, by simpa using hi, by simp [List.find?, hv, hf]⟩

/-- What `GetProvisionPolicy` returns, read off the names of the chain -/
theorem GetProvisionPolicy_eq (r : QoSRegionBase σp σh) :
    r.GetProvisionPolicy =
      (((r.provisionPolicies.map (fun e => e.name)).head?).getD CPUProvisionPolicyNone,
        match r.provisionPolicyInUse with
        | some idx =>
          ((r.provisionPolicies.map (fun e => e.name))[idx]?).getD CPUProvisionPolicyNone
        | none => CPUProvisionPolicyNone) := by
  refine Prod.ext ?_ ?_
  · simp only [QoSRegionBase.GetProvisionPolicy]
    cases r.provisionPolicies <;> simp
  · simp only [QoSRegionBase.GetProvisionPolicy]
    cases r.provisionPolicyInUse with
    | none => rfl
    | some idx =>
      simp only [provisionPolicyName, List.getElem?_map]
      cases r.provisionPolicies[idx]? <;> simp

/-- What `GetHeadRoomPolicy` returns, read off the names of the chain -/
theorem GetHeadRoomPolicy_eq (r : QoSRegionBase σp σh) :
    r.GetHeadRoomPolicy =
      (((r.headroomPolicies.map (fun e => e.name)).head?).getD CPUHeadroomPolicyNone,
        match r.headroomPolicyInUse with
        | some idx =>
          ((r.headroomPolicies.map (fun e => e.name))[idx]?).getD CPUHeadroomPolicyNone
        | none => CPUHeadroomPolicyNone) := by
  refine Prod.ext ?_ ?_
  · simp only [QoSRegionBase.GetHeadRoomPolicy]
    cases r.headroomPolicies <;> simp
  · simp only [QoSRegionBase.GetHeadRoomPolicy]
    cases r.headroomPolicyInUse with
    | none => rfl
    | some idx =>
      simp only [headroomPolicyName, List.getElem?_map]
      cases r.headroomPolicies[idx]? <;> simp

theorem TryUpdateHeadroom_loop_names (podSet : PodSet) (essentials : Katalyst.ResourceEssentials)
    (k : Nat) (chain : List (internalHeadroomPolicy σh)) :
    (TryUpdateHeadroom.loop podSet essentials k chain).1.map (fun e => e.name) =
      chain.map (fun e => e.name) := by
  induction chain generalizing k with
  | nil => simp [TryUpdateHeadroom.loop]
  | cons e rest ih =>
    simp [TryUpdateHeadroom.loop, ih, (TryUpdateHeadroom_body_entry podSet essentials k e).1]

/-- The fields of the region a method call other than `TryUpdateHeadroom`, `GetProvision`
and `GetHeadroom` leaves alone: both chains and both policies in use -/
theorem AddContainer_chains (r : QoSRegionBase σp σh) (ci : Option ContainerInfo) :
    (r.AddContainer ci).region.provisionPolicies = r.provisionPolicies ∧
    (r.AddContainer ci).region.provisionPolicyInUse = r.provisionPolicyInUse ∧
    (r.AddContainer ci).region.headroomPolicies = r.headroomPolicies ∧
    (r.AddContainer ci).region.headroomPolicyInUse = r.headroomPolicyInUse := by
  cases ci with
  | none => exact ⟨rfl, rfl, rfl, rfl⟩
  | some ci =>
    simp only [QoSRegionBase.AddContainer]
    split
    · exact ⟨rfl, rfl, rfl, rfl⟩
    · split <;> exact ⟨rfl, rfl, rfl, rfl⟩

/-- The names of both chains are the same after every method call -/
theorem step_chain_names (r : QoSRegionBase σp σh) (op : Op) :
    (r.step op).provisionPolicies.map (fun e => e.name) =
        r.provisionPolicies.map (fun e => e.name) ∧
      (r.step op).headroomPolicies.map (fun e => e.name) =
        r.headroomPolicies.map (fun e => e.name) := by
  cases op with
  | AddContainer ci =>
    obtain ⟨h1, _, h3, _⟩ := AddContainer_chains r ci
    simp only [QoSRegionBase.step, h1, h3, and_self]
  | TryUpdateHeadroom =>
    exact ⟨rfl, TryUpdateHeadroom_loop_names r.podSet r.ResourceEssentials 0 r.headroomPolicies⟩
  | GetProvision =>
    simp only [QoSRegionBase.step, QoSRegionBase.GetProvision]
    split <;> exact ⟨rfl, rfl⟩
  | GetHeadroom =>
    simp only [QoSRegionBase.step, QoSRegionBase.GetHeadroom]
    split <;> exact ⟨rfl, rfl⟩
  | Clear => exact ⟨rfl, rfl⟩
  | SetEssentials e => exact ⟨rfl, rfl⟩
  | SetBindingNumas n => exact ⟨rfl, rfl⟩
  | GetProvisionPolicy => exact ⟨rfl, rfl⟩
  | GetHeadRoomPolicy => exact ⟨rfl, rfl⟩
  | GetPods => exact ⟨rfl, rfl⟩
  | GetBindingNumas => exact ⟨rfl, rfl⟩
  | IsEmpty => exact ⟨rfl, rfl⟩

theorem run_chain_names (r : QoSRegionBase σp σh) (ops : List Op) :
    (r.run ops).provisionPolicies.map (fun e => e.name) =
        r.provisionPolicies.map (fun e => e.name) ∧
      (r.run ops).headroomPolicies.map (fun e => e.name) =
        r.headroomPolicies.map (fun e => e.name) := by
  induction ops generalizing r with
  | nil => exact ⟨rfl, rfl⟩
  | cons op ops ih =>
    obtain ⟨h1, h2⟩ := ih (r.step op)
    obtain ⟨h3, h4⟩ := step_chain_names r op
    exact ⟨h1.trans h3, h2.trans h4⟩

theorem step_provisionInUse (r : QoSRegionBase σp σh) (op : Op) :
    (r.step op).GetProvisionPolicy.2 = provisionInUseStep r r.GetProvisionPolicy.2 op := by
  cases op with
  | GetProvision =>
    have hfind := GetProvision_loop_find r.provisionPolicies 0
    cases hl : GetProvision.loop 0 r.provisionPolicies with
    | none =>
      simp [QoSRegionBase.step, provisionInUseStep, QoSRegionBase.GetProvision, hl]
    | some p =>
      obtain ⟨idx, knob⟩ := p
      rw [hl] at hfind
      obtain ⟨i, e, hidx, hi, hf⟩ := hfind
      have hidx' : idx = i := by omega
      subst hidx'
      simp [QoSRegionBase.step, provisionInUseStep, QoSRegionBase.GetProvision, hl,
        QoSRegionBase.GetProvisionPolicy, provisionPolicyName, hi,
        QoSRegionBase.firstValidProvisionName, hf]
  | AddContainer ci =>
    obtain ⟨h1, h2, _, _⟩ := AddContainer_chains r ci
    simp only [QoSRegionBase.step, provisionInUseStep, QoSRegionBase.GetProvisionPolicy, h1, h2]
  | GetHeadroom =>
    simp only [QoSRegionBase.step, provisionInUseStep, QoSRegionBase.GetHeadroom]
    split <;> rfl
  | TryUpdateHeadroom => rfl
  | Clear => rfl
  | SetEssentials e => rfl
  | SetBindingNumas n => rfl
  | GetProvisionPolicy => rfl
  | GetHeadRoomPolicy => rfl
  | GetPods => rfl
  | GetBindingNumas => rfl
  | IsEmpty => rfl

theorem step_headroomInUse (r : QoSRegionBase σp σh) (op : Op) :
    (r.step op).GetHeadRoomPolicy.2 = headroomInUseStep r r.GetHeadRoomPolicy.2 op := by
  cases op with
  | GetHeadroom =>
    have hfind := GetHeadroom_loop_find r.headroomPolicies 0
    cases hl : GetHeadroom.loop 0 r.headroomPolicies with
    | none =>
      simp [QoSRegionBase.step, headroomInUseStep, QoSRegionBase.GetHeadroom, hl]
    | some p =>
      obtain ⟨idx, headroom⟩ := p
      rw [hl] at hfind
      obtain ⟨i, e, hidx, hi, hf⟩ := hfind
      have hidx' : idx = i := by omega
      subst hidx'
      simp [QoSRegionBase.step, headroomInUseStep, QoSRegionBase.GetHeadroom, hl,
        QoSRegionBase.GetHeadRoomPolicy, headroomPolicyName, hi,
        QoSRegionBase.firstValidHeadroomName, hf]
  | AddContainer ci =>
    obtain ⟨_, _, h3, h4⟩ := AddContainer_chains r ci
    simp only [QoSRegionBase.step, headroomInUseStep, QoSRegionBase.GetHeadRoomPolicy, h3, h4]
  | GetProvision =>
    simp only [QoSRegionBase.step, headroomInUseStep, QoSRegionBase.GetProvision]
    split <;> rfl
  | TryUpdateHeadroom =>
    have hn := (step_chain_names r Op.TryUpdateHeadroom).2
    rw [GetHeadRoomPolicy_eq, GetHeadRoomPolicy_eq, hn]
    rfl
  | Clear => rfl
  | SetEssentials e => rfl
  | SetBindingNumas n => rfl
  | GetProvisionPolicy => rfl
  | GetHeadRoomPolicy => rfl
  | GetPods => rfl
  | GetBindingNumas => rfl
  | IsEmpty => rfl

theorem run_provisionInUse (r : QoSRegionBase σp σh) (ops : List Op) :
    (r.run ops).GetProvisionPolicy.2 = provisionInUseAfter r r.GetProvisionPolicy.2 ops := by
  induction ops generalizing r with
  | nil => rfl
  | cons op ops ih =>
    have h := ih (r.step op)
    rw [step_provisionInUse r op] at h
    exact h

theorem run_headroomInUse (r : QoSRegionBase σp σh) (ops : List Op) :
    (r.run ops).GetHeadRoomPolicy.2 = headroomInUseAfter r r.GetHeadRoomPolicy.2 ops := by
  induction ops generalizing r with
  | nil => rfl
  | cons op ops ih =>
    have h := ih (r.step op)
    rw [step_headroomInUse r op] at h
    exact h

/-- C10: on the region reached from the constructor by any sequence of method calls,
`GetProvisionPolicy` and `GetHeadRoomPolicy` return the pair (top-priority name, in-use
name): the top-priority name is the name of the first entry of the corresponding chain
(the chain the region was constructed with), or "none" when the chain is empty; the in-use
name is the name of the policy recorded by the last `GetProvision` / `GetHeadroom` of the
sequence that succeeded, or "none" when none has succeeded since construction. Neither
getter changes the region. -/
theorem policy_getters_report_top_and_in_use (name ownerPoolName : String)
    (regionType : QoSRegionType) (conf : CPUAdvisorConfiguration)
    (provisionInitializers : ProvisionInitializers σp)
    (headroomInitializers : HeadroomInitializers σh) (ops : List Op) :
    ((NewQoSRegionBase name ownerPoolName regionType conf provisionInitializers
        headroomInitializers).run ops).GetProvisionPolicy =
      ((((NewQoSRegionBase name ownerPoolName regionType conf provisionInitializers
            headroomInitializers).provisionPolicies.map (fun e => e.name)).head?).getD
          CPUProvisionPolicyNone,
        provisionInUseAfter (NewQoSRegionBase name ownerPoolName regionType conf
          provisionInitializers headroomInitializers) CPUProvisionPolicyNone ops) ∧
    ((NewQoSRegionBase name ownerPoolName regionType conf provisionInitializers
        headroomInitializers).run ops).GetHeadRoomPolicy =
      ((((NewQoSRegionBase name ownerPoolName regionType conf provisionInitializers
            headroomInitializers).headroomPolicies.map (fun e => e.name)).head?).getD
          CPUHeadroomPolicyNone,
        headroomInUseAfter (NewQoSRegionBase name ownerPoolName regionType conf
          provisionInitializers headroomInitializers) CPUHeadroomPolicyNone ops) ∧
    (((NewQoSRegionBase name ownerPoolName regionType conf provisionInitializers
        headroomInitializers).run ops).provisionPolicies = [] →
      (((NewQoSRegionBase name ownerPoolName regionType conf provisionInitializers
        headroomInitializers).run ops).GetProvisionPolicy).1 = "none") ∧
    (((NewQoSRegionBase name ownerPoolName regionType conf provisionInitializers
        headroomInitializers).run ops).headroomPolicies = [] →
      (((NewQoSRegionBase name ownerPoolName regionType conf provisionInitializers
        headroomInitializers).run ops).GetHeadRoomPolicy).1 = "none") ∧
    ((NewQoSRegionBase name ownerPoolName regionType conf provisionInitializers
        headroomInitializers).run ops).step Op.GetProvisionPolicy =
      (NewQoSRegionBase name ownerPoolName regionType conf provisionInitializers
        headroomInitializers).run ops ∧
    ((NewQoSRegionBase name ownerPoolName regionType conf provisionInitializers
        headroomInitializers).run ops).step Op.GetHeadRoomPolicy =
      (NewQoSRegionBase name ownerPoolName regionType conf provisionInitializers
        headroomInitializers).run ops := by
  obtain ⟨_, _, hp, hh⟩ := NewQoSRegionBase_fields name ownerPoolName regionType conf
    provisionInitializers headroomInitializers
  have hp0 : (NewQoSRegionBase name ownerPoolName regionType conf provisionInitializers
      headroomInitializers).GetProvisionPolicy.2 = CPUProvisionPolicyNone := by
    simp [QoSRegionBase.GetProvisionPolicy, hp]
  have hh0 : (NewQoSRegionBase name ownerPoolName regionType conf provisionInitializers
      headroomInitializers).GetHeadRoomPolicy.2 = CPUHeadroomPolicyNone := by
    simp [QoSRegionBase.GetHeadRoomPolicy, hh]
  obtain ⟨hn1, hn2⟩ := run_chain_names (NewQoSRegionBase name ownerPoolName regionType conf
    provisionInitializers headroomInitializers) ops
  refine ⟨?_, ?_, ?_, ?_, rfl, rfl⟩
  · refine Prod.ext ?_ ?_
    · rw [GetProvisionPolicy_eq, hn1]
    · rw [run_provisionInUse, hp0]
  · refine Prod.ext ?_ ?_
    · rw [GetHeadRoomPolicy_eq, hn2]
    · rw [run_headroomInUse, hh0]
  · intro hnil
    simp [QoSRegionBase.GetProvisionPolicy, hnil, CPUProvisionPolicyNone]
  · intro hnil
    simp [QoSRegionBase.GetHeadRoomPolicy, hnil, CPUHeadroomPolicyNone]

/-- Witness of C10 on the fresh share region, whose registries know one of the two
configured provision policies and both headroom policies: before any query both in-use
names are "none"; after a refresh and a headroom query the headroom policy in use is the
second one, the first being broken, and `GetProvision` having failed the provision policy
in use is still "none". -/
theorem policy_getters_report_top_and_in_use_witness :
    freshRegion.GetProvisionPolicy = ("canonical", "none") ∧
    freshRegion.GetHeadRoomPolicy = ("utilization", "none") ∧
    (freshRegion.run [Op.TryUpdateHeadroom, Op.GetHeadroom, Op.GetProvision]).GetProvisionPolicy =
      ("canonical", "none") ∧
    (freshRegion.run [Op.TryUpdateHeadroom, Op.GetHeadroom, Op.GetProvision]).GetHeadRoomPolicy =
      ("utilization", "canonical") := by
  have h0 := policy_getters_report_top_and_in_use "share-0" "share" QoSRegionTypeShare sampleConf
    sampleProvisionInitializers sampleHeadroomInitializers []
  have h1 := policy_getters_report_top_and_in_use "share-0" "share" QoSRegionTypeShare sampleConf
    sampleProvisionInitializers sampleHeadroomInitializers
    [Op.TryUpdateHeadroom, Op.GetHeadroom, Op.GetProvision]
  refine ⟨h0.1.trans ?_, h0.2.1.trans ?_, h1.1.trans ?_, h1.2.1.trans ?_⟩ <;> decide

/-! ### Clearing a region -/

/-- C12: after `Clear`, whatever the region was, its membership is empty and its
reference topology assignment is empty, so `IsEmpty` returns true, and the next
`AddContainer` of a non-nil container takes that container's assignment as the reference
(without logging a warning or returning an error). -/
theorem Clear_resets_membership_and_reference (r : QoSRegionBase σp σh) (ci : ContainerInfo) :
    r.Clear.podSet = ⟨[]⟩ ∧
    r.Clear.podSet.containers = ∅ ∧
    r.Clear.podSet.len = 0 ∧
    r.Clear.containerTopologyAwareAssignment = ⟨[]⟩ ∧
    r.Clear.containerTopologyAwareAssignment.len = 0 ∧
    r.Clear.IsEmpty = true ∧
    (r.Clear.AddContainer (some ci)).region.containerTopologyAwareAssignment =
      ci.TopologyAwareAssignments.Clone ∧
    (r.Clear.AddContainer (some ci)).warnings = [] ∧
    (r.Clear.AddContainer (some ci)).err = none := by
  have hlen : r.Clear.containerTopologyAwareAssignment.len = 0 := rfl
  refine ⟨rfl, rfl, rfl, rfl, hlen, rfl, ?_, ?_, AddContainer_err _ ci⟩
  · rw [TopologyAwareAssignment_Clone_eq]
    exact (AddContainer_of_no_reference r.Clear ci hlen).1
  · exact (AddContainer_of_no_reference r.Clear ci hlen).2

/-! ### The chains a region is constructed with -/

theorem initProvisionPolicy_body_chain (initializers : ProvisionInitializers σp)
    (l : List CPUProvisionPolicyName) (r : QoSRegionBase σp σh) :
    (l.foldl (initProvisionPolicy.body initializers) r).provisionPolicies.map (fun e => e.name) =
        r.provisionPolicies.map (fun e => e.name) ++
          l.filter (fun n => (initializers n).isSome) ∧
      (l.foldl (initProvisionPolicy.body initializers) r).headroomPolicies =
        r.headroomPolicies ∧
      ((∀ e ∈ r.provisionPolicies, e.updateStatus = PolicyUpdateFailed) →
        ∀ e ∈ (l.foldl (initProvisionPolicy.body initializers) r).provisionPolicies,
          e.updateStatus = PolicyUpdateFailed) := by
  induction l generalizing r with
  | nil => simp
  | cons n l ih =>
    obtain ⟨h1, h2, h3⟩ := ih (initProvisionPolicy.body initializers r n)
    simp only [List.foldl_cons]
    cases hn : initializers n with
    | none =>
      have hb : initProvisionPolicy.body initializers r n = r := by
        simp [initProvisionPolicy.body, hn]
      rw [hb] at h1 h2 h3 ⊢
      refine ⟨?_, h2, h3⟩
      rw [h1]
      simp [List.filter_cons, hn]
    | some init =>
      have hb1 : (initProvisionPolicy.body initializers r n).provisionPolicies.map
          (fun e => e.name) = r.provisionPolicies.map (fun e => e.name) ++ [n] := by
        simp [initProvisionPolicy.body, hn]
      have hb2 : (initProvisionPolicy.body initializers r n).headroomPolicies =
          r.headroomPolicies := by
        simp [initProvisionPolicy.body, hn]
      have hb3 : (∀ e ∈ r.provisionPolicies, e.updateStatus = PolicyUpdateFailed) →
          ∀ e ∈ (initProvisionPolicy.body initializers r n).provisionPolicies,
            e.updateStatus = PolicyUpdateFailed := by
        intro hall e he
        simp only [initProvisionPolicy.body, hn, List.mem_append, List.mem_singleton] at he
        rcases he with he | rfl
        · exact hall e he
        · rfl
      refine ⟨?_, h2.trans hb2, fun hall => h3 (hb3 hall)⟩
      rw [h1, hb1]
      simp [List.filter_cons, hn]

theorem initHeadroomPolicy_body_chain (headroomInitializers : HeadroomInitializers σh)
    (l : List CPUHeadroomPolicyName) (r : QoSRegionBase σp σh) :
    (l.foldl (initHeadroomPolicy.body headroomInitializers) r).headroomPolicies.map
          (fun e => e.name) =
        r.headroomPolicies.map (fun e => e.name) ++
          l.filter (fun n => (headroomInitializers n).isSome) ∧
      (l.foldl (initHeadroomPolicy.body headroomInitializers) r).provisionPolicies =
        r.provisionPolicies ∧
      ((∀ e ∈ r.headroomPolicies, e.updateStatus = PolicyUpdateFailed) →
        ∀ e ∈ (l.foldl (initHeadroomPolicy.body headroomInitializers) r).headroomPolicies,
          e.updateStatus = PolicyUpdateFailed) := by
  induction l generalizing r with
  | nil => simp
  | cons n l ih =>
    obtain ⟨h1, h2, h3⟩ := ih (initHeadroomPolicy.body headroomInitializers r n)
    simp only [List.foldl_cons]
    cases hn : headroomInitializers n with
    | none =>
      have hb : initHeadroomPolicy.body headroomInitializers r n = r := by
        simp [initHeadroomPolicy.body, hn]
      rw [hb] at h1 h2 h3 ⊢
      refine ⟨?_, h2, h3⟩
      rw [h1]
      simp [List.filter_cons, hn]
    | some init =>
      have hb1 : (initHeadroomPolicy.body headroomInitializers r n).headroomPolicies.map
          (fun e => e.name) = r.headroomPolicies.map (fun e => e.name) ++ [n] := by
        simp [initHeadroomPolicy.body, hn]
      have hb2 : (initHeadroomPolicy.body headroomInitializers r n).provisionPolicies =
          r.provisionPolicies := by
        simp [initHeadroomPolicy.body, hn]
      have hb3 : (∀ e ∈ r.headroomPolicies, e.updateStatus = PolicyUpdateFailed) →
          ∀ e ∈ (initHeadroomPolicy.body headroomInitializers r n).headroomPolicies,
            e.updateStatus = PolicyUpdateFailed := by
        intro hall e he
        simp only [initHeadroomPolicy.body, hn, List.mem_append, List.mem_singleton] at he
        rcases he with he | rfl
        · exact hall e he
        · rfl
      refine ⟨?_, h2.trans hb2, fun hall => h3 (hb3 hall)⟩
      rw [h1, hb1]
      simp [List.filter_cons, hn]

theorem initProvisionPolicy_chain (r : QoSRegionBase σp σh) (conf : CPUAdvisorConfiguration)
    (initializers : ProvisionInitializers σp) :
    (r.initProvisionPolicy conf initializers).provisionPolicies.map (fun e => e.name) =
        r.provisionPolicies.map (fun e => e.name) ++
          expectedChain (conf.ProvisionPolicies r.regionType)
            (fun n => (initializers n).isSome) ∧
      (r.initProvisionPolicy conf initializers).headroomPolicies = r.headroomPolicies ∧
      ((∀ e ∈ r.provisionPolicies, e.updateStatus = PolicyUpdateFailed) →
        ∀ e ∈ (r.initProvisionPolicy conf initializers).provisionPolicies,
          e.updateStatus = PolicyUpdateFailed) := by
  unfold QoSRegionBase.initProvisionPolicy expectedChain
  cases conf.ProvisionPolicies r.regionType with
  | none => simp
  | some l => exact initProvisionPolicy_body_chain initializers l r

theorem initHeadroomPolicy_chain (r : QoSRegionBase σp σh) (conf : CPUAdvisorConfiguration)
    (headroomInitializers : HeadroomInitializers σh) :
    (r.initHeadroomPolicy conf headroomInitializers).headroomPolicies.map (fun e => e.name) =
        r.headroomPolicies.map (fun e => e.name) ++
          expectedChain (conf.HeadroomPolicies r.regionType)
            (fun n => (headroomInitializers n).isSome) ∧
      (r.initHeadroomPolicy conf headroomInitializers).provisionPolicies =
        r.provisionPolicies ∧
      ((∀ e ∈ r.headroomPolicies, e.updateStatus = PolicyUpdateFailed) →
        ∀ e ∈ (r.initHeadroomPolicy conf headroomInitializers).headroomPolicies,
          e.updateStatus = PolicyUpdateFailed) := by
  unfold QoSRegionBase.initHeadroomPolicy expectedChain
  cases conf.HeadroomPolicies r.regionType with
  | none => simp
  | some l => exact initHeadroomPolicy_body_chain headroomInitializers l r

/-- The chains of a freshly constructed region -/
theorem NewQoSRegionBase_chains (name ownerPoolName : String) (regionType : QoSRegionType)
    (conf : CPUAdvisorConfiguration) (provisionInitializers : ProvisionInitializers σp)
    (headroomInitializers : HeadroomInitializers σh) :
    (NewQoSRegionBase name ownerPoolName regionType conf provisionInitializers
        headroomInitializers).provisionPolicies.map (fun e => e.name) =
      expectedChain (conf.ProvisionPolicies regionType)
        (fun n => (provisionInitializers n).isSome) ∧
    (NewQoSRegionBase name ownerPoolName regionType conf provisionInitializers
        headroomInitializers).headroomPolicies.map (fun e => e.name) =
      expectedChain (conf.HeadroomPolicies regionType)
        (fun n => (headroomInitializers n).isSome) ∧
    (∀ e ∈ (NewQoSRegionBase name ownerPoolName regionType conf provisionInitializers
        headroomInitializers).provisionPolicies, e.updateStatus = PolicyUpdateFailed) ∧
    (∀ e ∈ (NewQoSRegionBase name ownerPoolName regionType conf provisionInitializers
        headroomInitializers).headroomPolicies, e.updateStatus = PolicyUpdateFailed) := by
  have key : ∀ r0 : QoSRegionBase σp σh, r0.provisionPolicies = [] → r0.headroomPolicies = [] →
      ((r0.initHeadroomPolicy conf headroomInitializers).initProvisionPolicy conf
          provisionInitializers).provisionPolicies.map (fun e => e.name) =
        expectedChain (conf.ProvisionPolicies r0.regionType)
          (fun n => (provisionInitializers n).isSome) ∧
      ((r0.initHeadroomPolicy conf headroomInitializers).initProvisionPolicy conf
          provisionInitializers).headroomPolicies.map (fun e => e.name) =
        expectedChain (conf.HeadroomPolicies r0.regionType)
          (fun n => (headroomInitializers n).isSome) ∧
      (∀ e ∈ ((r0.initHeadroomPolicy conf headroomInitializers).initProvisionPolicy conf
          provisionInitializers).provisionPolicies, e.updateStatus = PolicyUpdateFailed) ∧
      (∀ e ∈ ((r0.initHeadroomPolicy conf headroomInitializers).initProvisionPolicy conf
          provisionInitializers).headroomPolicies, e.updateStatus = PolicyUpdateFailed) := by
    intro r0 hp hh
    obtain ⟨a1, a2, a3⟩ := initHeadroomPolicy_chain r0 conf headroomInitializers
    obtain ⟨b1, b2, b3⟩ := initProvisionPolicy_chain
      (r0.initHeadroomPolicy conf headroomInitializers) conf provisionInitializers
    have hty : (r0.initHeadroomPolicy conf headroomInitializers).regionType = r0.regionType :=
      (initHeadroomPolicy_same r0 conf headroomInitializers).2.1
    refine ⟨?_, ?_, ?_, ?_⟩
    · rw [b1, a2, hp, hty]; simp
    · rw [b2, a1, hh]; simp
    · apply b3
      rw [a2, hp]
      intro e he
      simp at he
    · rw [b2]
      apply a3
      rw [hh]
      intro e he
      simp at he
  exact key ⟨name, ownerPoolName, regionType, ⟨false, 0, 0, 0⟩, ∅, ⟨[]⟩, ⟨[]⟩, [], none, [], none⟩
    rfl rfl

theorem step_provisionPolicies (r : QoSRegionBase σp σh) (op : Op) :
    (r.step op).provisionPolicies = r.provisionPolicies := by
  cases op with
  | AddContainer ci => exact (AddContainer_chains r ci).1
  | GetProvision =>
    simp only [QoSRegionBase.step, QoSRegionBase.GetProvision]
    split <;> rfl
  | GetHeadroom =>
    simp only [QoSRegionBase.step, QoSRegionBase.GetHeadroom]
    split <;> rfl
  | TryUpdateHeadroom => rfl
  | Clear => rfl
  | SetEssentials e => rfl
  | SetBindingNumas n => rfl
  | GetProvisionPolicy => rfl
  | GetHeadRoomPolicy => rfl
  | GetPods => rfl
  | GetBindingNumas => rfl
  | IsEmpty => rfl

theorem provisionIdle_no_valid (r : QoSRegionBase σp σh) (h : r.provisionIdle) :
    ∀ e ∈ r.provisionPolicies, ¬ e.valid := by
  intro e he hv
  have hs := h.1 e he
  rw [hv.1] at hs
  exact absurd hs (by decide)

theorem step_provisionIdle (r : QoSRegionBase σp σh) (op : Op) (h : r.provisionIdle) :
    (r.step op).provisionIdle := by
  refine ⟨?_, ?_⟩
  · rw [step_provisionPolicies]
    exact h.1
  · cases op with
    | GetProvision =>
      simp only [QoSRegionBase.step, GetProvision_of_none r (provisionIdle_no_valid r h)]
      exact h.2
    | AddContainer ci =>
      exact (AddContainer_chains r ci).2.1.trans h.2
    | GetHeadroom =>
      simp only [QoSRegionBase.step, QoSRegionBase.GetHeadroom]
      split <;> exact h.2
    | TryUpdateHeadroom => exact h.2
    | Clear => exact h.2
    | SetEssentials e => exact h.2
    | SetBindingNumas n => exact h.2
    | GetProvisionPolicy => exact h.2
    | GetHeadRoomPolicy => exact h.2
    | GetPods => exact h.2
    | GetBindingNumas => exact h.2
    | IsEmpty => exact h.2

theorem run_provisionIdle (r : QoSRegionBase σp σh) (ops : List Op) (h : r.provisionIdle) :
    (r.run ops).provisionIdle := by
  induction ops generalizing r with
  | nil => exact h
  | cons op ops ih => exact ih (r.step op) (step_provisionIdle r op h)

theorem NewQoSRegionBase_provisionIdle (name ownerPoolName : String)
    (regionType : QoSRegionType) (conf : CPUAdvisorConfiguration)
    (provisionInitializers : ProvisionInitializers σp)
    (headroomInitializers : HeadroomInitializers σh) :
    (NewQoSRegionBase name ownerPoolName regionType conf provisionInitializers
        headroomInitializers).provisionIdle :=
  ⟨(NewQoSRegionBase_chains name ownerPoolName regionType conf provisionInitializers
      headroomInitializers).2.2.1,
    (NewQoSRegionBase_fields name ownerPoolName regionType conf provisionInitializers
      headroomInitializers).2.2.1⟩

theorem chain_of_names_nil {α : Type} (f : α → String) (l : List α) (h : l.map f = []) :
    l = [] := by
  cases l with
  | nil => rfl
  | cons a l => simp at h

/-- C14: the chains a region is constructed with carry exactly the policy names configured
for its region type, in configured order, the names without a registered initializer left
out (construction is a total function: an unknown name cannot make it fail), and every
entry of a fresh chain has status failed. When no list is configured for the region type
the chain is empty, and then, after any sequence of method calls, `GetProvision`
(respectively `GetHeadroom`) fails and both names reported by `GetProvisionPolicy`
(respectively `GetHeadRoomPolicy`) are "none". -/
theorem constructed_chains_follow_configuration (name ownerPoolName : String)
    (regionType : QoSRegionType) (conf : CPUAdvisorConfiguration)
    (provisionInitializers : ProvisionInitializers σp)
    (headroomInitializers : HeadroomInitializers σh) :
    (NewQoSRegionBase name ownerPoolName regionType conf provisionInitializers
        headroomInitializers).provisionPolicies.map (fun e => e.name) =
      expectedChain (conf.ProvisionPolicies regionType)
        (fun n => (provisionInitializers n).isSome) ∧
    (NewQoSRegionBase name ownerPoolName regionType conf provisionInitializers
        headroomInitializers).headroomPolicies.map (fun e => e.name) =
      expectedChain (conf.HeadroomPolicies regionType)
        (fun n => (headroomInitializers n).isSome) ∧
    (∀ e ∈ (NewQoSRegionBase name ownerPoolName regionType conf provisionInitializers
        headroomInitializers).provisionPolicies, e.updateStatus = PolicyUpdateFailed) ∧
    (∀ e ∈ (NewQoSRegionBase name ownerPoolName regionType conf provisionInitializers
        headroomInitializers).headroomPolicies, e.updateStatus = PolicyUpdateFailed) ∧
    (conf.ProvisionPolicies regionType = none →
      (NewQoSRegionBase name ownerPoolName regionType conf provisionInitializers
        headroomInitializers).provisionPolicies = [] ∧
      ∀ ops : List Op,
        (∃ msg, ((NewQoSRegionBase name ownerPoolName regionType conf provisionInitializers
          headroomInitializers).run ops).GetProvision.2 = .error msg) ∧
        ((NewQoSRegionBase name ownerPoolName regionType conf provisionInitializers
          headroomInitializers).run ops).GetProvisionPolicy = ("none", "none")) ∧
    (conf.HeadroomPolicies regionType = none →
      (NewQoSRegionBase name ownerPoolName regionType conf provisionInitializers
        headroomInitializers).headroomPolicies = [] ∧
      ∀ ops : List Op,
        (∃ msg, ((NewQoSRegionBase name ownerPoolName regionType conf provisionInitializers
          headroomInitializers).run ops).GetHeadroom.2 = .error msg) ∧
        ((NewQoSRegionBase name ownerPoolName regionType conf provisionInitializers
          headroomInitializers).run ops).GetHeadRoomPolicy = ("none", "none")) := by
  obtain ⟨h1, h2, h3, h4⟩ := NewQoSRegionBase_chains name ownerPoolName regionType conf
    provisionInitializers headroomInitializers
  refine ⟨h1, h2, h3, h4, ?_, ?_⟩
  · intro hnone
    have hnames : (NewQoSRegionBase name ownerPoolName regionType conf provisionInitializers
        headroomInitializers).provisionPolicies.map (fun e => e.name) = [] := by
      rw [h1, hnone]; rfl
    refine ⟨chain_of_names_nil _ _ hnames, fun ops => ?_⟩
    have hrun : ((NewQoSRegionBase name ownerPoolName regionType conf provisionInitializers
        headroomInitializers).run ops).provisionPolicies = [] :=
      chain_of_names_nil _ _ ((run_chain_names _ ops).1.trans hnames)
    constructor
    · rw [GetProvision_error_iff, hrun]
      intro e he
      simp at he
    · rw [GetProvisionPolicy_eq, hrun]
      cases ((NewQoSRegionBase name ownerPoolName regionType conf provisionInitializers
        headroomInitializers).run ops).provisionPolicyInUse <;>
        simp [CPUProvisionPolicyNone]
  · intro hnone
    have hnames : (NewQoSRegionBase name ownerPoolName regionType conf provisionInitializers
        headroomInitializers).headroomPolicies.map (fun e => e.name) = [] := by
      rw [h2, hnone]; rfl
    refine ⟨chain_of_names_nil _ _ hnames, fun ops => ?_⟩
    have hrun : ((NewQoSRegionBase name ownerPoolName regionType conf provisionInitializers
        headroomInitializers).run ops).headroomPolicies = [] :=
      chain_of_names_nil _ _ ((run_chain_names _ ops).2.trans hnames)
    constructor
    · rw [GetHeadroom_error_iff, hrun]
      intro e he
      simp at he
    · rw [GetHeadRoomPolicy_eq, hrun]
      cases ((NewQoSRegionBase name ownerPoolName regionType conf provisionInitializers
        headroomInitializers).run ops).headroomPolicyInUse <;>
        simp [CPUHeadroomPolicyNone]

/-- Witness of C14: the sample configuration names "rama" and "canonical" for share
regions, the registry knows "canonical" only, so the provision chain of a share region
is "canonical" alone; it names nothing for empty regions, so an empty region has no
provision policy, `GetProvision` fails on it and both reported names are "none". -/
theorem constructed_chains_follow_configuration_witness :
    freshRegion.provisionPolicies.map (fun e => e.name) = ["canonical"] ∧
    freshRegion.headroomPolicies.map (fun e => e.name) = ["utilization", "canonical"] ∧
    (emptyTypeRegion.provisionPolicies = [] ∧
      (∃ msg, (emptyTypeRegion.run [Op.TryUpdateHeadroom]).GetProvision.2 = .error msg) ∧
      (emptyTypeRegion.run [Op.TryUpdateHeadroom]).GetProvisionPolicy = ("none", "none")) := by
  have h := constructed_chains_follow_configuration "share-0" "share" QoSRegionTypeShare
    sampleConf sampleProvisionInitializers sampleHeadroomInitializers
  have h' := constructed_chains_follow_configuration "empty-0" "" QoSRegionTypeEmpty
    sampleConf sampleProvisionInitializers sampleHeadroomInitializers
  have he := h'.2.2.2.2.1 (by decide)
  exact ⟨h.1.trans (by decide), h.2.1.trans (by decide), he.1, (he.2 [Op.TryUpdateHeadroom]).1,
    (he.2 [Op.TryUpdateHeadroom]).2⟩

/-- C20: on every region reached from the constructor by method calls of the base region,
every provision policy has status failed; hence `GetProvision` returns an error and leaves
the region as it is, and `GetProvisionPolicy` reports "none" as the policy in use. No
method of the base region changes the provision chain, so none ever marks a provision
policy succeeded. -/
theorem provision_policies_never_succeed (name ownerPoolName : String)
    (regionType : QoSRegionType) (conf : CPUAdvisorConfiguration)
    (provisionInitializers : ProvisionInitializers σp)
    (headroomInitializers : HeadroomInitializers σh) (ops : List Op) :
    (∀ e ∈ ((NewQoSRegionBase name ownerPoolName regionType conf provisionInitializers
        headroomInitializers).run ops).provisionPolicies,
      e.updateStatus = PolicyUpdateFailed) ∧
    ((NewQoSRegionBase name ownerPoolName regionType conf provisionInitializers
        headroomInitializers).run ops).GetProvision =
      ((NewQoSRegionBase name ownerPoolName regionType conf provisionInitializers
        headroomInitializers).run ops, .error "failed to get legal provison") ∧
    ((NewQoSRegionBase name ownerPoolName regionType conf provisionInitializers
        headroomInitializers).run ops).GetProvisionPolicy.2 = "none" ∧
    (∀ op : Op,
      (((NewQoSRegionBase name ownerPoolName regionType conf provisionInitializers
        headroomInitializers).run ops).step op).provisionPolicies =
      ((NewQoSRegionBase name ownerPoolName regionType conf provisionInitializers
        headroomInitializers).run ops).provisionPolicies) := by
  have hidle := run_provisionIdle _ ops (NewQoSRegionBase_provisionIdle name ownerPoolName
    regionType conf provisionInitializers headroomInitializers)
  refine ⟨hidle.1, GetProvision_of_none _ (provisionIdle_no_valid _ hidle), ?_,
    fun op => step_provisionPolicies _ op⟩
  simp [QoSRegionBase.GetProvisionPolicy, hidle.2, CPUProvisionPolicyNone]

/-! ### Restoring the region of a container -/

theorem ToSliceInt_single (s : CPUSet) (numaID : Int) :
    ((CPUSet.ToSliceInt s).length = 1 ∧ (CPUSet.ToSliceInt s)[0]? = some numaID) ↔
      s = {numaID} := by
  unfold CPUSet.ToSliceInt
  constructor
  · rintro ⟨hlen, hhead⟩
    have hsort : s.sort (fun a b => a ≤ b) = [numaID] := by
      cases hl : s.sort (fun a b => a ≤ b) with
      | nil => rw [hl] at hlen; simp at hlen
      | cons a l =>
        rw [hl] at hlen hhead
        cases l with
        | nil => simp at hhead; rw [hhead]
        | cons b l => simp at hlen
    have h := Finset.sort_toFinset (fun a b : Int => a ≤ b) s
    rw [hsort] at h
    rw [← h]
    simp
  · intro hs
    subst hs
    simp

theorem dedup_single (l : List String) (a : String) (hmem : a ∈ l)
    (hall : ∀ x ∈ l, x = a) : l.dedup = [a] := by
  have hnodup := List.nodup_dedup l
  have hall' : ∀ x ∈ l.dedup, x = a := fun x hx => hall x (List.mem_dedup.1 hx)
  have hmem' : a ∈ l.dedup := List.mem_dedup.2 hmem
  cases hd : l.dedup with
  | nil => rw [hd] at hmem'; simp at hmem'
  | cons x rest =>
    rw [hd] at hnodup hall'
    have hx : x = a := hall' x (List.mem_cons_self _ _)
    cases rest with
    | nil => rw [hx]
    | cons y rest' =>
      have hy : y = a := hall' y (by simp)
      rw [hx, hy] at hnodup
      simp at hnodup

theorem stringSet_single (l : List String) (h : stringSetLen l = 1) :
    ∃ a, a ∈ l ∧ (∀ x ∈ l, x = a) ∧ stringSetList l = [a] := by
  unfold stringSetLen at h
  unfold stringSetList
  cases hd : l.dedup with
  | nil => rw [hd] at h; simp at h
  | cons a rest =>
    rw [hd] at h
    cases rest with
    | cons b rest' => simp at h
    | nil =>
      refine ⟨a, ?_, ?_, by simp⟩
      · apply List.mem_dedup.1
        rw [hd]
        simp
      · intro x hx
        have hx' := List.mem_dedup.2 hx
        rw [hd] at hx'
        simpa using hx'

theorem getRegionNameFromMetaCache_loop_spec (numaID : Int) (metaReader : MetaReader)
    (names : List String) :
    getRegionNameFromMetaCache.loop numaID metaReader names = "" ∨
      (getRegionNameFromMetaCache.loop numaID metaReader names ∈ names ∧
        ∃ info, metaReader.GetRegionInfo
            (getRegionNameFromMetaCache.loop numaID metaReader names) = some info ∧
          info.RegionType = QoSRegionTypeDedicatedNumaExclusive ∧
          info.BindingNumas = {numaID}) := by
  induction names with
  | nil => exact Or.inl rfl
  | cons regionName rest ih =>
    have hrest : getRegionNameFromMetaCache.loop numaID metaReader rest = "" ∨
        (getRegionNameFromMetaCache.loop numaID metaReader rest ∈ regionName :: rest ∧
          ∃ info, metaReader.GetRegionInfo
              (getRegionNameFromMetaCache.loop numaID metaReader rest) = some info ∧
            info.RegionType = QoSRegionTypeDedicatedNumaExclusive ∧
            info.BindingNumas = {numaID}) := by
      rcases ih with h | ⟨hmem, hinfo⟩
      · exact Or.inl h
      · exact Or.inr ⟨List.mem_cons_of_mem _ hmem, hinfo⟩
    unfold getRegionNameFromMetaCache.loop
    cases hget : metaReader.GetRegionInfo regionName with
    | none => simpa using hrest
    | some regionInfo =>
      by_cases hty : regionInfo.RegionType = QoSRegionTypeDedicatedNumaExclusive
      · by_cases hnuma : (CPUSet.ToSliceInt regionInfo.BindingNumas).length = 1 ∧
            (CPUSet.ToSliceInt regionInfo.BindingNumas)[0]? = some numaID
        · simp only [hty, if_true, hnuma, and_self]
          exact Or.inr ⟨List.mem_cons_self _ _, regionInfo, hget, hty,
            (ToSliceInt_single _ _).1 hnuma⟩
        · simp only [hty, if_true, hnuma, if_false]
          exact hrest
      · simp only [hty, if_false]
        exact hrest

/-- C19: every non-empty name returned by `getRegionNameFromMetaCache` is a member of the
container's `RegionNames` for which the record store holds a region-summary record, and:
for a shared-cores container `RegionNames` has exactly one member and that record has type
share; for any other container, the container is NUMA binding, the record has type
dedicated-numa-exclusive and its binding NUMA set is exactly the node `numaID`. For a
container that is neither shared-cores nor NUMA binding the result is the empty string.
This holds for every order in which the members of `RegionNames` are visited. -/
theorem getRegionNameFromMetaCache_sound (IsNumaBinding : ContainerInfo → Bool)
    (ci : ContainerInfo) (numaID : Int) (metaReader : MetaReader) :
    (getRegionNameFromMetaCache IsNumaBinding ci numaID metaReader ≠ "" →
      getRegionNameFromMetaCache IsNumaBinding ci numaID metaReader ∈ ci.RegionNames ∧
      ∃ info, metaReader.GetRegionInfo
          (getRegionNameFromMetaCache IsNumaBinding ci numaID metaReader) = some info ∧
        (ci.QoSLevel = PodAnnotationQoSLevelSharedCores →
          stringSetLen ci.RegionNames = 1 ∧
          (∀ x ∈ ci.RegionNames,
            x = getRegionNameFromMetaCache IsNumaBinding ci numaID metaReader) ∧
          info.RegionType = QoSRegionTypeShare) ∧
        (ci.QoSLevel ≠ PodAnnotationQoSLevelSharedCores →
          IsNumaBinding ci = true ∧
          info.RegionType = QoSRegionTypeDedicatedNumaExclusive ∧
          info.BindingNumas = {numaID})) ∧
    (ci.QoSLevel ≠ PodAnnotationQoSLevelSharedCores → IsNumaBinding ci = false →
      getRegionNameFromMetaCache IsNumaBinding ci numaID metaReader = "") := by
  constructor
  · intro hne
    by_cases hq : ci.QoSLevel = PodAnnotationQoSLevelSharedCores
    · by_cases hlen : stringSetLen ci.RegionNames = 1
      · obtain ⟨a, hmem, hall, hlist⟩ := stringSet_single ci.RegionNames hlen
        cases hget : metaReader.GetRegionInfo a with
        | none =>
          exfalso
          apply hne
          simp [getRegionNameFromMetaCache, hq, hlen, hlist, hget]
        | some info =>
          by_cases hty : info.RegionType = QoSRegionTypeShare
          · have hres : getRegionNameFromMetaCache IsNumaBinding ci numaID metaReader = a := by
              simp [getRegionNameFromMetaCache, hq, hlen, hlist, hget, hty]
            rw [hres]
            exact ⟨hmem, info, hget, fun _ => ⟨hlen, hall, hty⟩, fun hq' => absurd hq hq'⟩
          · exfalso
            apply hne
            simp [getRegionNameFromMetaCache, hq, hlen, hlist, hget, hty]
      · exfalso
        apply hne
        simp [getRegionNameFromMetaCache, hq, hlen]
    · by_cases hb : IsNumaBinding ci = true
      · have hres : getRegionNameFromMetaCache IsNumaBinding ci numaID metaReader =
            getRegionNameFromMetaCache.loop numaID metaReader ci.RegionNames := by
          simp [getRegionNameFromMetaCache, hq, hb]
        rw [hres] at hne ⊢
        rcases getRegionNameFromMetaCache_loop_spec numaID metaReader ci.RegionNames with
          h | ⟨hmem, info, hget, hty, hnuma⟩
        · exact absurd h hne
        · exact ⟨hmem, info, hget, fun hq' => absurd hq' hq, fun _ => ⟨hb, hty, hnuma⟩⟩
      · exfalso
        apply hne
        simp [getRegionNameFromMetaCache, hq, hb]
  · intro hq hb
    simp [getRegionNameFromMetaCache, hq, hb]

/-- Witness of C19: a dedicated-cores, NUMA binding container that records the region
"dedicated-numa0" gets this name back for NUMA node 0; the name is a member of its
`RegionNames`. -/
theorem getRegionNameFromMetaCache_sound_witness :
    getRegionNameFromMetaCache (fun _ => true) restartedDedicated 0 sampleMetaReader =
      "dedicated-numa0" ∧
    getRegionNameFromMetaCache (fun _ => true) restartedDedicated 0 sampleMetaReader ∈
      restartedDedicated.RegionNames ∧
    getRegionNameFromMetaCache (fun _ => false) restartedDedicated 0 sampleMetaReader = "" := by
  have h := getRegionNameFromMetaCache_sound (fun _ => true) restartedDedicated 0
    sampleMetaReader
  have h' := getRegionNameFromMetaCache_sound (fun _ => false) restartedDedicated 0
    sampleMetaReader
  have hres : getRegionNameFromMetaCache (fun _ => true) restartedDedicated 0
      sampleMetaReader = "dedicated-numa0" := by
    simp [getRegionNameFromMetaCache, getRegionNameFromMetaCache.loop, restartedDedicated,
      sampleMetaReader, sampleRegionInfo, PodAnnotationQoSLevelSharedCores,
      QoSRegionTypeDedicatedNumaExclusive, CPUSet.ToSliceInt]
  exact ⟨hres, (h.1 (by rw [hres]; decide)).1, h'.2 (by decide) rfl⟩

/-- C13, as amended: for a shared-cores container whose `RegionNames` consists of exactly
one region name, for which the record store holds a region-summary record of type share,
`getRegionNameFromMetaCache` returns that region's name, which is not the empty string
unless the recorded region name itself is. -/
theorem getRegionNameFromMetaCache_shared (IsNumaBinding : ContainerInfo → Bool)
    (ci : ContainerInfo) (numaID : Int) (metaReader : MetaReader) (regionName : String)
    (info : RegionInfo)
    (hq : ci.QoSLevel = PodAnnotationQoSLevelSharedCores)
    (hmem : regionName ∈ ci.RegionNames)
    (hall : ∀ x ∈ ci.RegionNames, x = regionName)
    (hget : metaReader.GetRegionInfo regionName = some info)
    (hty : info.RegionType = QoSRegionTypeShare) :
    getRegionNameFromMetaCache IsNumaBinding ci numaID metaReader = regionName ∧
      (regionName ≠ "" →
        getRegionNameFromMetaCache IsNumaBinding ci numaID metaReader ≠ "") := by
  have hd := dedup_single ci.RegionNames regionName hmem hall
  have hres : getRegionNameFromMetaCache IsNumaBinding ci numaID metaReader = regionName := by
    simp [getRegionNameFromMetaCache, hq, stringSetLen, stringSetList, hd, hget, hty]
  exact ⟨hres, fun hne => by rw [hres]; exact hne⟩

/-- Witness of C13 as amended: the shared-cores container that records the one region
"share-a", held by the record store with type share, gets "share-a" back. -/
theorem getRegionNameFromMetaCache_shared_witness :
    getRegionNameFromMetaCache (fun _ => false) restartedShared (-1) sampleMetaReader =
      "share-a" :=
  (getRegionNameFromMetaCache_shared (fun _ => false) restartedShared (-1) sampleMetaReader
    "share-a" (sampleRegionInfo QoSRegionTypeShare {0, 1}) rfl (by decide) (by decide) rfl
    rfl).1

/-- Counterexample to C13 as stated: a shared-cores container whose `RegionNames` holds
"share-a" and "share-b", both held by the record store with type share, gets the empty
string back; and a shared-cores container whose one recorded region name is the empty
string, held by the record store with type share, gets that name, the empty string. -/
theorem getRegionNameFromMetaCache_two_regions :
    restartedSharedTwoRegions.QoSLevel = PodAnnotationQoSLevelSharedCores ∧
    "share-a" ∈ restartedSharedTwoRegions.RegionNames ∧
    (sampleMetaReader.GetRegionInfo "share-a").map (fun info => info.RegionType) =
      some QoSRegionTypeShare ∧
    getRegionNameFromMetaCache (fun _ => false) restartedSharedTwoRegions (-1)
      sampleMetaReader = "" ∧
    getRegionNameFromMetaCache (fun _ => false)
      { restartedShared with RegionNames := [""] } (-1) sampleMetaReader = "" := by
  decide

/-! ### The external manager -/

theorem ExternalManager_step_started {ν ρ : Type} (m : ExternalManager ν ρ) (op : ManagerOp ν)
    (h : m.start = true) : m.step op = m := by
  cases op with
  | Run => simp [ExternalManager.step, ExternalManager.Run, h]
  | SetNetworkManager n =>
    simp [ExternalManager.step, ExternalManager.SetNetworkManager,
      ExternalManager.setComponentImplementation, h]

theorem ExternalManager_runOps_started {ν ρ : Type} (m : ExternalManager ν ρ)
    (ops : List (ManagerOp ν)) (h : m.start = true) : m.runOps ops = m := by
  induction ops with
  | nil => rfl
  | cons op ops ih =>
    have hstep : m.runOps (op :: ops) = (m.step op).runOps ops := rfl
    rw [hstep, ExternalManager_step_started m op h]
    exact ih

theorem ExternalManager_Run_start {ν ρ : Type} (m : ExternalManager ν ρ) :
    m.Run.start = true := by
  unfold ExternalManager.Run
  cases h : m.start <;> simp [h]

/-- C18: as long as the manager has not been started, `SetNetworkManager` replaces the
network manager by the given implementation and changes nothing else. Once `Run` has
started the manager, every later method call leaves the manager as it is: a
`SetNetworkManager` changes neither the network manager nor any other field (and logs the
warning), the started flag stays true, and a further `Run` returns without starting the
cgroup-ID manager again. The manager `InitExternalManager` builds is not started. -/
theorem SetNetworkManager_only_before_start {ν ρ : Type} (m : ExternalManager ν ρ) (n : ν)
    (ops : List (ManagerOp ν)) (defaultNetworkManager : ν) (defaultRDTManager : ρ) :
    (InitExternalManager defaultNetworkManager defaultRDTManager none).2.start = false ∧
    (m.start = false →
      (m.SetNetworkManager n).1 = { m with NetworkManager := n } ∧
      (m.SetNetworkManager n).1.NetworkManager = n ∧
      m.Run.CgroupIDManager.runs = m.CgroupIDManager.runs + 1) ∧
    (m.start = true →
      (m.SetNetworkManager n).1 = m ∧ (m.SetNetworkManager n).2 ≠ [] ∧ m.Run = m) ∧
    m.Run.start = true ∧
    m.Run.runOps ops = m.Run ∧
    (m.Run.runOps ops).start = true ∧
    (m.Run.runOps ops).NetworkManager = m.Run.NetworkManager ∧
    ((m.Run.runOps ops).SetNetworkManager n).1.NetworkManager = m.Run.NetworkManager ∧
    (m.Run.runOps ops).Run.CgroupIDManager = m.Run.CgroupIDManager := by
  have hstart := ExternalManager_Run_start m
  have hrun := ExternalManager_runOps_started m.Run ops hstart
  refine ⟨rfl, ?_, ?_, hstart, hrun, ?_, ?_, ?_, ?_⟩
  · intro h
    simp [ExternalManager.SetNetworkManager, ExternalManager.setComponentImplementation,
      ExternalManager.Run, h]
  · intro h
    simp [ExternalManager.SetNetworkManager, ExternalManager.setComponentImplementation,
      ExternalManager.Run, h]
  · rw [hrun]; exact hstart
  · rw [hrun]
  · rw [hrun]
    simp [ExternalManager.SetNetworkManager, ExternalManager.setComponentImplementation, hstart]
  · rw [hrun]
    exact congrArg (fun x => x.CgroupIDManager)
      (ExternalManager_step_started m.Run ManagerOp.Run hstart)

/-- Witness of C18: a custom network manager set before `Run` is taken; one set after
`Run` is not, and a second `Run` leaves the cgroup-ID manager started once. -/
theorem SetNetworkManager_only_before_start_witness :
    (sampleManager.SetNetworkManager "custom").1.NetworkManager = "custom" ∧
    (sampleManager.runOps [ManagerOp.SetNetworkManager "custom", ManagerOp.Run,
      ManagerOp.SetNetworkManager "late", ManagerOp.Run]).NetworkManager = "custom" ∧
    (sampleManager.runOps [ManagerOp.SetNetworkManager "custom", ManagerOp.Run,
      ManagerOp.SetNetworkManager "late", ManagerOp.Run]).CgroupIDManager.runs = 1 := by
  have h := SetNetworkManager_only_before_start sampleManager "custom"
    [ManagerOp.SetNetworkManager "late", ManagerOp.Run] "default-network" "default-rdt"
  have h' := SetNetworkManager_only_before_start (sampleManager.SetNetworkManager "custom").1
    "late" [ManagerOp.SetNetworkManager "late", ManagerOp.Run] "default-network" "default-rdt"
  have hfix : (sampleManager.SetNetworkManager "custom").1.Run.runOps
      [ManagerOp.SetNetworkManager "late", ManagerOp.Run] =
        (sampleManager.SetNetworkManager "custom").1.Run := h'.2.2.2.2.1
  have hall : sampleManager.runOps [ManagerOp.SetNetworkManager "custom", ManagerOp.Run,
      ManagerOp.SetNetworkManager "late", ManagerOp.Run] =
        (sampleManager.SetNetworkManager "custom").1.Run := hfix
  refine ⟨(h.2.1 rfl).2.1, ?_, ?_⟩
  · rw [hall]; decide
  · rw [hall]; decide

/-! ### The maps handed out by the accessors -/

theorem PodSet_Clone_eq (ps : PodSet) : ps.Clone = ps := by
  cases ps
  simp [PodSet.Clone]

theorem CPUSet_Clone_eq (s : CPUSet) : CPUSet.Clone s = s := by
  simp [CPUSet.Clone]

theorem getD_append_single {α : Type} (l : List α) (a d : α) :
    (l ++ [a]).getD l.length d = a := by
  simp [List.getD_eq_getElem?_getD]

theorem getD_append_of_lt {α : Type} (l l' : List α) (d : α) (i : Nat) (h : i < l.length) :
    (l ++ l').getD i d = l.getD i d := by
  simp [List.getD_eq_getElem?_getD, List.getElem?_append_left h]

theorem getD_set_of_ne {α : Type} (l : List α) (a d : α) (i j : Nat) (h : i ≠ j) :
    (l.set i a).getD j d = l.getD j d := by
  simp [List.getD_eq_getElem?_getD, List.getElem?_set_ne h]

theorem mem_getD_set_self {α : Type} (l : List (List α)) (v : List α) (i : Nat) (x : α)
    (hx : x ∈ (l.set i v).getD i []) : x ∈ v := by
  by_cases hi : i < l.length
  · simpa [List.getD_eq_getElem?_getD, List.getElem?_set_self, hi] using hx
  · have hnone : (l.set i v)[i]? = none := by
      apply List.getElem?_eq_none
      simp only [List.length_set]
      omega
    simp [List.getD_eq_getElem?_getD, hnone] at hx

theorem Frame_refl (h : Heap) (p : Nat) : h.Frame h p :=
  ⟨rfl, rfl, le_refl _, fun _ _ => rfl, fun _ hy => Or.inl hy, fun _ _ _ => rfl⟩

theorem Frame_set_stringSet (h : Heap) (p : Nat) (e0 : String × Nat)
    (hmem : e0 ∈ h.podSetEntriesAt p) (names : List String) :
    h.Frame { h with stringSets := h.stringSets.set e0.2 names } p := by
  refine ⟨rfl, rfl, by simp, fun q _ => rfl, fun y hy => Or.inl hy, ?_⟩
  intro s _ hne
  exact getD_set_of_ne _ _ _ _ _ (hne e0 hmem)

theorem Frame_new_entry (h : Heap) (p : Nat) (podUID : String) (names : List String) :
    h.Frame { h with
      stringSets := h.stringSets ++ [names]
      podSets := h.podSets.set p (h.podSetEntriesAt p ++ [(podUID, h.stringSets.length)]) }
      p := by
  refine ⟨rfl, by simp, by simp, ?_, ?_, ?_⟩
  · intro q hq
    exact getD_set_of_ne _ _ _ _ _ hq
  · intro y hy
    have hy1 := mem_getD_set_self _ _ _ _ hy
    rcases List.mem_append.1 hy1 with hy2 | hy2
    · exact Or.inl hy2
    · right
      have : y = (podUID, h.stringSets.length) := by simpa using hy2
      rw [this]
  · intro s hs _
    exact getD_append_of_lt _ _ _ _ hs

theorem Frame_filter_entries (h : Heap) (p : Nat) (keep : String × Nat → Bool) :
    h.Frame { h with podSets := h.podSets.set p ((h.podSetEntriesAt p).filter keep) } p := by
  refine ⟨rfl, by simp, le_refl _, ?_, ?_, fun s _ _ => rfl⟩
  · intro q hq
    exact getD_set_of_ne _ _ _ _ _ hq
  · intro y hy
    have hy1 := mem_getD_set_self _ _ _ _ hy
    exact Or.inl (List.mem_filter.1 hy1).1

/-- What one edit through the reference `p` can reach: the pod set object behind `p`, the
sets that object refers to, and sets allocated by the edit. -/
theorem editPodSet_frame (h : Heap) (p : Nat) (e : PodSetEdit) :
    h.Frame (h.editPodSet p e) p := by
  cases e with
  | Insert podUID containerName =>
    simp only [Heap.editPodSet]
    split
    · next e0 hf =>
      exact Frame_set_stringSet h p e0 (List.mem_of_find?_eq_some hf) _
    · exact Frame_new_entry h p podUID [containerName]
  | Remove podUID containerName =>
    simp only [Heap.editPodSet]
    split
    · next e0 hf =>
      exact Frame_set_stringSet h p e0 (List.mem_of_find?_eq_some hf) _
    · exact Frame_refl h p
  | Delete podUID =>
    exact Frame_filter_entries h p _

/-- A pod set is read from the entries of its object and the sets they refer to. -/
theorem podSetAt_congr (h h' : Heap) (q : Nat)
    (hent : h'.podSetEntriesAt q = h.podSetEntriesAt q)
    (hsets : ∀ x ∈ h.podSetEntriesAt q, h'.stringSetAt x.2 = h.stringSetAt x.2) :
    h'.podSetAt q = h.podSetAt q := by
  simp only [Heap.podSetAt, hent]
  congr 1
  apply List.map_congr_left
  intro x hx
  rw [hsets x hx]

/-- An edit through `p` leaves a pod set apart from the one behind `p` as it is. -/
theorem Apart_editPodSet (h : Heap) (p q : Nat) (e : PodSetEdit) (ha : h.Apart p q) :
    (h.editPodSet p e).Apart p q ∧
    (h.editPodSet p e).podSetEntriesAt q = h.podSetEntriesAt q ∧
    (h.editPodSet p e).podSetAt q = h.podSetAt q := by
  obtain ⟨hne, ⟨hq, hall⟩, hdis⟩ := ha
  obtain ⟨_, hlen, hle, hother, hself, hsets⟩ := editPodSet_frame h p e
  have hent := hother q hne
  refine ⟨⟨hne, ⟨by rw [hlen]; exact hq, ?_⟩, ?_⟩, hent, ?_⟩
  · intro x hx
    rw [hent] at hx
    exact lt_of_lt_of_le (hall x hx) hle
  · intro x hx y hy
    rw [hent] at hx
    rcases hself y hy with hy1 | hy2
    · exact hdis x hx y hy1
    · have := hall x hx
      omega
  · apply podSetAt_congr _ _ _ hent
    intro x hx
    exact hsets x.2 (hall x hx) (fun y hy => hdis x hx y hy)

theorem Apart_editsPodSet (edits : List PodSetEdit) (h : Heap) (p q : Nat) (ha : h.Apart p q) :
    (h.editsPodSet p edits).Apart p q ∧
    (h.editsPodSet p edits).podSetEntriesAt q = h.podSetEntriesAt q ∧
    (h.editsPodSet p edits).podSetAt q = h.podSetAt q := by
  induction edits generalizing h with
  | nil => exact ⟨ha, rfl, rfl⟩
  | cons e rest ih =>
    have hstep : h.editsPodSet p (e :: rest) = (h.editPodSet p e).editsPodSet p rest := rfl
    obtain ⟨ha1, he1, hv1⟩ := Apart_editPodSet h p q e ha
    obtain ⟨ha2, he2, hv2⟩ := ih (h.editPodSet p e) ha1
    rw [hstep]
    exact ⟨ha2, he2.trans he1, hv2.trans hv1⟩

theorem editsPodSet_cpuSets (edits : List PodSetEdit) (h : Heap) (p : Nat) :
    (h.editsPodSet p edits).cpuSets = h.cpuSets := by
  induction edits generalizing h with
  | nil => rfl
  | cons e rest ih =>
    have hstep : h.editsPodSet p (e :: rest) = (h.editPodSet p e).editsPodSet p rest := rfl
    rw [hstep, ih, (editPodSet_frame h p e).1]

theorem allocPodSet_loop_length (es : List (String × List String)) (next : Nat) :
    (allocPodSet.loop next es).1.length = es.length := by
  induction es generalizing next with
  | nil => rfl
  | cons e rest ih => simp [allocPodSet.loop, ih]

theorem allocPodSet_loop_refs (es : List (String × List String)) (next : Nat) :
    ∀ y ∈ (allocPodSet.loop next es).2, next ≤ y.2 ∧ y.2 < next + es.length := by
  induction es generalizing next with
  | nil =>
    intro y hy
    simp [allocPodSet.loop] at hy
  | cons e rest ih =>
    intro y hy
    simp only [allocPodSet.loop, List.mem_cons] at hy
    rcases hy with hy | hy
    · rw [hy]
      simp
    · have := ih (next + 1) y hy
      simp only [List.length_cons]
      omega

theorem allocPodSet_loop_view (es : List (String × List String)) (next : Nat)
    (pre : List (List String)) (hpre : pre.length = next) :
    (allocPodSet.loop next es).2.map
        (fun y => (y.1, (pre ++ (allocPodSet.loop next es).1).getD y.2 [])) = es := by
  induction es generalizing next pre with
  | nil => rfl
  | cons e rest ih =>
    simp only [allocPodSet.loop, List.map_cons]
    congr 1
    · subst hpre
      rw [List.append_cons, getD_append_of_lt _ _ _ _ (by simp), getD_append_single]
    · have := ih (next + 1) (pre ++ [e.2]) (by simp [hpre])
      simpa [List.append_assoc] using this

/-- What the allocation of a pod set does on the heap: it allocates one pod set object and
one set for every pod, changes no object there was, and the pod set read through the new
reference is the pod set allocated. -/
theorem allocPodSet_spec (h : Heap) (ps : PodSet) :
    (h.allocPodSet ps).2 = h.podSets.length ∧
    (h.allocPodSet ps).1.cpuSets = h.cpuSets ∧
    (h.allocPodSet ps).1.podSets.length = h.podSets.length + 1 ∧
    h.stringSets.length ≤ (h.allocPodSet ps).1.stringSets.length ∧
    (∀ q, q < h.podSets.length →
      (h.allocPodSet ps).1.podSetEntriesAt q = h.podSetEntriesAt q) ∧
    (∀ s, s < h.stringSets.length → (h.allocPodSet ps).1.stringSetAt s = h.stringSetAt s) ∧
    (∀ y ∈ (h.allocPodSet ps).1.podSetEntriesAt h.podSets.length,
      h.stringSets.length ≤ y.2 ∧ y.2 < (h.allocPodSet ps).1.stringSets.length) ∧
    (h.allocPodSet ps).1.podSetAt h.podSets.length = ps := by
  have hnew : (h.allocPodSet ps).1.podSetEntriesAt h.podSets.length =
      (allocPodSet.loop h.stringSets.length ps.entries).2 := by
    simp only [Heap.allocPodSet, Heap.podSetEntriesAt]
    exact getD_append_single _ _ _
  have hlen : (h.allocPodSet ps).1.stringSets.length =
      h.stringSets.length + ps.entries.length := by
    simp [Heap.allocPodSet, allocPodSet_loop_length]
  refine ⟨rfl, rfl, by simp [Heap.allocPodSet], by omega, ?_, ?_, ?_, ?_⟩
  · intro q hq
    simp only [Heap.allocPodSet, Heap.podSetEntriesAt]
    exact getD_append_of_lt _ _ _ _ hq
  · intro s hs
    simp only [Heap.allocPodSet, Heap.stringSetAt]
    exact getD_append_of_lt _ _ _ _ hs
  · intro y hy
    rw [hnew] at hy
    have := allocPodSet_loop_refs ps.entries h.stringSets.length y hy
    omega
  · have hview := allocPodSet_loop_view ps.entries h.stringSets.length h.stringSets rfl
    cases ps with
    | mk entries =>
      simp only [Heap.podSetAt, hnew]
      congr 1

/-- What `PodSet.Clone` does on the heap: it allocates one pod set object and one set for
every pod, changes no object there was, and the pod set read through the new reference is
the pod set cloned. -/
theorem ClonePodSet_spec (h : Heap) (ref : Nat) :
    (h.ClonePodSet ref).2 = h.podSets.length ∧
    (h.ClonePodSet ref).1.cpuSets = h.cpuSets ∧
    (h.ClonePodSet ref).1.podSets.length = h.podSets.length + 1 ∧
    h.stringSets.length ≤ (h.ClonePodSet ref).1.stringSets.length ∧
    (∀ q, q < h.podSets.length →
      (h.ClonePodSet ref).1.podSetEntriesAt q = h.podSetEntriesAt q) ∧
    (∀ s, s < h.stringSets.length → (h.ClonePodSet ref).1.stringSetAt s = h.stringSetAt s) ∧
    (∀ y ∈ (h.ClonePodSet ref).1.podSetEntriesAt h.podSets.length,
      h.stringSets.length ≤ y.2 ∧ y.2 < (h.ClonePodSet ref).1.stringSets.length) ∧
    (h.ClonePodSet ref).1.podSetAt h.podSets.length = h.podSetAt ref := by
  have hc : h.ClonePodSet ref = h.allocPodSet (h.podSetAt ref) := by
    simp only [Heap.ClonePodSet, PodSet_Clone_eq]
  rw [hc]
  exact allocPodSet_spec h (h.podSetAt ref)

theorem Allocated_ClonePodSet (h : Heap) (ref q : Nat) (hq : h.Allocated q) :
    (h.ClonePodSet ref).1.Allocated q ∧
    (h.ClonePodSet ref).1.podSetEntriesAt q = h.podSetEntriesAt q ∧
    (h.ClonePodSet ref).1.podSetAt q = h.podSetAt q := by
  obtain ⟨_, _, hlen, hle, hold, hsets, _, _⟩ := ClonePodSet_spec h ref
  have hent := hold q hq.1
  have hq1 := hq.1
  refine ⟨⟨by omega, ?_⟩, hent, ?_⟩
  · intro x hx
    rw [hent] at hx
    exact lt_of_lt_of_le (hq.2 x hx) hle
  · apply podSetAt_congr _ _ _ hent
    intro x hx
    exact hsets x.2 (hq.2 x hx)

theorem Allocated_ClonePodSet_new (h : Heap) (ref : Nat) :
    (h.ClonePodSet ref).1.Allocated h.podSets.length := by
  obtain ⟨_, _, hlen, _, _, _, hnew, _⟩ := ClonePodSet_spec h ref
  exact ⟨by omega, fun y hy => (hnew y hy).2⟩

/-- The pod set `PodSet.Clone` returns shares nothing with a pod set there was. -/
theorem Apart_ClonePodSet_new (h : Heap) (ref q : Nat) (hq : h.Allocated q) :
    (h.ClonePodSet ref).1.Apart h.podSets.length q ∧
    (h.ClonePodSet ref).1.Apart q h.podSets.length := by
  obtain ⟨hq1, hent, _⟩ := Allocated_ClonePodSet h ref q hq
  obtain ⟨_, _, _, _, _, _, hnew, _⟩ := ClonePodSet_spec h ref
  have hne : h.podSets.length ≠ q := by
    have := hq.1
    omega
  refine ⟨⟨hne, hq1, ?_⟩, ⟨fun e => hne e.symm, Allocated_ClonePodSet_new h ref, ?_⟩⟩
  · intro x hx y hy
    rw [hent] at hx
    have h1 := hq.2 x hx
    have h2 := (hnew y hy).1
    omega
  · intro x hx y hy
    rw [hent] at hy
    have h1 := hq.2 y hy
    have h2 := (hnew x hx).1
    omega

/-- Pod sets that share nothing still share nothing after a `PodSet.Clone`. -/
theorem Apart_ClonePodSet_old (h : Heap) (ref a b : Nat) (ha : h.Allocated a)
    (hab : h.Apart a b) : (h.ClonePodSet ref).1.Apart a b := by
  obtain ⟨_, hea, _⟩ := Allocated_ClonePodSet h ref a ha
  obtain ⟨hb1, heb, _⟩ := Allocated_ClonePodSet h ref b hab.2.1
  refine ⟨hab.1, hb1, ?_⟩
  intro x hx y hy
  rw [heb] at hx
  rw [hea] at hy
  exact hab.2.2 x hx y hy

theorem CloneCPUSet_spec (h : Heap) (ref : Nat) :
    (h.CloneCPUSet ref).2 = h.cpuSets.length ∧
    (h.CloneCPUSet ref).1.podSets = h.podSets ∧
    (h.CloneCPUSet ref).1.stringSets = h.stringSets ∧
    (h.CloneCPUSet ref).1.cpuSets.length = h.cpuSets.length + 1 ∧
    (∀ c, c < h.cpuSets.length → (h.CloneCPUSet ref).1.cpuSetAt c = h.cpuSetAt c) ∧
    (h.CloneCPUSet ref).1.cpuSetAt h.cpuSets.length = h.cpuSetAt ref := by
  refine ⟨rfl, rfl, rfl, by simp [Heap.CloneCPUSet], ?_, ?_⟩
  · intro c hc
    simp only [Heap.CloneCPUSet, Heap.cpuSetAt]
    exact getD_append_of_lt _ _ _ _ hc
  · simp only [Heap.CloneCPUSet, Heap.cpuSetAt, CPUSet_Clone_eq]
    exact getD_append_single _ _ _

theorem mutateCPUSet_spec (h : Heap) (c : Nat) (g : CPUSet → CPUSet) :
    (h.mutateCPUSet c g).podSets = h.podSets ∧
    (h.mutateCPUSet c g).stringSets = h.stringSets ∧
    (h.mutateCPUSet c g).cpuSets.length = h.cpuSets.length ∧
    (∀ d, c ≠ d → (h.mutateCPUSet c g).cpuSetAt d = h.cpuSetAt d) := by
  refine ⟨rfl, rfl, by simp [Heap.mutateCPUSet], ?_⟩
  intro d hd
  simp only [Heap.mutateCPUSet, Heap.cpuSetAt]
  exact getD_set_of_ne _ _ _ _ _ hd

/-- A heap that holds the maps of the region still holds them when the pod set of the
region reads as before and no CPU set has changed. -/
theorem Holds_of_pods (region : QoSRegionBase σp σh) (r : RegionRefs) (h h2 : Heap)
    (hold : h.Holds r region) (halloc : h2.Allocated r.podSet)
    (hpods : h2.podSetAt r.podSet = h.podSetAt r.podSet) (hc : h2.cpuSets = h.cpuSets) :
    h2.Holds r region := by
  obtain ⟨_, hlt, hp, hb⟩ := hold
  refine ⟨halloc, by rw [hc]; exact hlt, hpods.trans hp, ?_⟩
  simp only [Heap.cpuSetAt, hc]
  exact hb

/-- A heap that holds the maps of the region still holds them when the binding NUMA set of
the region reads as before and no pod set and no set of container names has changed. -/
theorem Holds_of_cpus (region : QoSRegionBase σp σh) (r : RegionRefs) (h h2 : Heap)
    (hold : h.Holds r region) (hlt : r.bindingNumas < h2.cpuSets.length)
    (hcpu : h2.cpuSetAt r.bindingNumas = h.cpuSetAt r.bindingNumas)
    (hp : h2.podSets = h.podSets) (hs : h2.stringSets = h.stringSets) :
    h2.Holds r region := by
  obtain ⟨halloc, _, hv, hb⟩ := hold
  refine ⟨?_, hlt, ?_, hcpu.trans hb⟩
  · unfold Heap.Allocated Heap.podSetEntriesAt at *
    rw [hp, hs]
    exact halloc
  · unfold Heap.podSetAt Heap.podSetEntriesAt Heap.stringSetAt at *
    rw [hp, hs]
    exact hv

/-- Two successive `GetPods` on the heap: both results are new pod sets that read as the
pod set of the region, the object of the region is as it was, and edits through either
result reach neither the other result nor the object of the region. -/
theorem GetPods_twice (r : RegionRefs) (h : Heap) (edits : List PodSetEdit)
    (halloc : h.Allocated r.podSet) (h1 h2 : Heap) (p1 p2 : Nat)
    (e1 : QoSRegionBase.GetPods r h = (h1, p1))
    (e2 : QoSRegionBase.GetPods r h1 = (h2, p2)) :
    (h1.podSetAt p1 = h.podSetAt r.podSet ∧ h2.podSetAt p1 = h.podSetAt r.podSet ∧
      h2.podSetAt p2 = h.podSetAt r.podSet) ∧
    (p1 ≠ p2 ∧ p1 ≠ r.podSet ∧ p2 ≠ r.podSet) ∧
    (h1.Allocated r.podSet ∧ h1.podSetAt r.podSet = h.podSetAt r.podSet ∧
      h1.cpuSets = h.cpuSets) ∧
    ((h1.editsPodSet p1 edits).Allocated r.podSet ∧
      (h1.editsPodSet p1 edits).podSetAt r.podSet = h.podSetAt r.podSet ∧
      (h1.editsPodSet p1 edits).cpuSets = h.cpuSets) ∧
    (h2.Allocated r.podSet ∧ h2.podSetAt r.podSet = h.podSetAt r.podSet ∧
      h2.cpuSets = h.cpuSets) ∧
    ((h2.editsPodSet p1 edits).podSetAt p2 = h.podSetAt r.podSet ∧
      (h2.editsPodSet p1 edits).Allocated r.podSet ∧
      (h2.editsPodSet p1 edits).podSetAt r.podSet = h.podSetAt r.podSet ∧
      (h2.editsPodSet p1 edits).cpuSets = h.cpuSets) ∧
    ((h2.editsPodSet p2 edits).podSetAt p1 = h.podSetAt r.podSet ∧
      (h2.editsPodSet p2 edits).Allocated r.podSet ∧
      (h2.editsPodSet p2 edits).podSetAt r.podSet = h.podSetAt r.podSet ∧
      (h2.editsPodSet p2 edits).cpuSets = h.cpuSets) := by
  have hh1 : h1 = (h.ClonePodSet r.podSet).1 := (congrArg Prod.fst e1).symm
  have hp1 : p1 = h.podSets.length := (congrArg Prod.snd e1).symm
  have hh2 : h2 = (h1.ClonePodSet r.podSet).1 := (congrArg Prod.fst e2).symm
  have hp2 : p2 = h1.podSets.length := (congrArg Prod.snd e2).symm
  -- the first call
  obtain ⟨_, hc1, hl1, _, _, _, _, hv1⟩ := ClonePodSet_spec h r.podSet
  obtain ⟨ha1, _, hr1⟩ := Allocated_ClonePodSet h r.podSet r.podSet halloc
  have hn1 := Allocated_ClonePodSet_new h r.podSet
  obtain ⟨hap1, _⟩ := Apart_ClonePodSet_new h r.podSet r.podSet halloc
  rw [← hh1] at hc1 hl1 hv1 ha1 hr1 hn1 hap1
  rw [← hp1] at hv1 hn1 hap1
  -- the second call
  obtain ⟨_, hc2, _, _, _, _, _, hv2⟩ := ClonePodSet_spec h1 r.podSet
  obtain ⟨ha2, _, hr2⟩ := Allocated_ClonePodSet h1 r.podSet r.podSet ha1
  obtain ⟨_, _, hk2⟩ := Allocated_ClonePodSet h1 r.podSet p1 hn1
  obtain ⟨hap2r, _⟩ := Apart_ClonePodSet_new h1 r.podSet r.podSet ha1
  obtain ⟨hap21, hap12⟩ := Apart_ClonePodSet_new h1 r.podSet p1 hn1
  have hap1r := Apart_ClonePodSet_old h1 r.podSet p1 r.podSet hn1 hap1
  rw [← hh2] at hc2 hv2 ha2 hr2 hk2 hap2r hap21 hap12 hap1r
  rw [← hp2] at hv2 hap2r hap21 hap12
  -- edits through the first result, and through the second
  obtain ⟨_, _, hf12⟩ := Apart_editsPodSet edits h2 p1 p2 hap12
  obtain ⟨hf1r, _, hf1v⟩ := Apart_editsPodSet edits h2 p1 r.podSet hap1r
  obtain ⟨_, _, hf21⟩ := Apart_editsPodSet edits h2 p2 p1 hap21
  obtain ⟨hf2r, _, hf2v⟩ := Apart_editsPodSet edits h2 p2 r.podSet hap2r
  obtain ⟨hg1r, _, hg1v⟩ := Apart_editsPodSet edits h1 p1 r.podSet hap1
  have hr : h2.podSetAt r.podSet = h.podSetAt r.podSet := hr2.trans hr1
  have hv : h2.podSetAt p2 = h.podSetAt r.podSet := hv2.trans hr1
  have hk : h2.podSetAt p1 = h.podSetAt r.podSet := hk2.trans hv1
  have hc : h2.cpuSets = h.cpuSets := hc2.trans hc1
  have hlt := halloc.1
  refine ⟨⟨hv1, hk, hv⟩, ⟨by omega, by omega, by omega⟩, ⟨ha1, hr1, hc1⟩,
    ⟨hg1r.2.1, hg1v.trans hr1, ?_⟩, ⟨ha2, hr, hc⟩,
    ⟨hf12.trans hv, hf1r.2.1, hf1v.trans hr, ?_⟩, ⟨hf21.trans hk, hf2r.2.1, hf2v.trans hr, ?_⟩⟩
  · rw [editsPodSet_cpuSets, hc1]
  · rw [editsPodSet_cpuSets, hc]
  · rw [editsPodSet_cpuSets, hc]

/-- Two successive `GetBindingNumas` on the heap: both results are new sets that read as
the binding NUMA set of the region, the object of the region is as it was, and a change of
either result reaches neither the other result nor the object of the region. -/
theorem GetBindingNumas_twice (r : RegionRefs) (h : Heap) (g : CPUSet → CPUSet)
    (hlt : r.bindingNumas < h.cpuSets.length) (h1 h2 : Heap) (c1 c2 : Nat)
    (e1 : QoSRegionBase.GetBindingNumas r h = (h1, c1))
    (e2 : QoSRegionBase.GetBindingNumas r h1 = (h2, c2)) :
    (h1.cpuSetAt c1 = h.cpuSetAt r.bindingNumas ∧ h2.cpuSetAt c1 = h.cpuSetAt r.bindingNumas ∧
      h2.cpuSetAt c2 = h.cpuSetAt r.bindingNumas) ∧
    (c1 ≠ c2 ∧ c1 ≠ r.bindingNumas ∧ c2 ≠ r.bindingNumas) ∧
    (r.bindingNumas < h1.cpuSets.length ∧
      h1.cpuSetAt r.bindingNumas = h.cpuSetAt r.bindingNumas ∧
      h1.podSets = h.podSets ∧ h1.stringSets = h.stringSets) ∧
    (r.bindingNumas < (h1.mutateCPUSet c1 g).cpuSets.length ∧
      (h1.mutateCPUSet c1 g).cpuSetAt r.bindingNumas = h.cpuSetAt r.bindingNumas ∧
      (h1.mutateCPUSet c1 g).podSets = h.podSets ∧
      (h1.mutateCPUSet c1 g).stringSets = h.stringSets) ∧
    (r.bindingNumas < h2.cpuSets.length ∧
      h2.cpuSetAt r.bindingNumas = h.cpuSetAt r.bindingNumas ∧
      h2.podSets = h.podSets ∧ h2.stringSets = h.stringSets) ∧
    ((h2.mutateCPUSet c1 g).cpuSetAt c2 = h.cpuSetAt r.bindingNumas ∧
      r.bindingNumas < (h2.mutateCPUSet c1 g).cpuSets.length ∧
      (h2.mutateCPUSet c1 g).cpuSetAt r.bindingNumas = h.cpuSetAt r.bindingNumas ∧
      (h2.mutateCPUSet c1 g).podSets = h.podSets ∧
      (h2.mutateCPUSet c1 g).stringSets = h.stringSets) ∧
    ((h2.mutateCPUSet c2 g).cpuSetAt c1 = h.cpuSetAt r.bindingNumas ∧
      r.bindingNumas < (h2.mutateCPUSet c2 g).cpuSets.length ∧
      (h2.mutateCPUSet c2 g).cpuSetAt r.bindingNumas = h.cpuSetAt r.bindingNumas ∧
      (h2.mutateCPUSet c2 g).podSets = h.podSets ∧
      (h2.mutateCPUSet c2 g).stringSets = h.stringSets) := by
  have hh1 : h1 = (h.CloneCPUSet r.bindingNumas).1 := (congrArg Prod.fst e1).symm
  have hc1 : c1 = h.cpuSets.length := (congrArg Prod.snd e1).symm
  have hh2 : h2 = (h1.CloneCPUSet r.bindingNumas).1 := (congrArg Prod.fst e2).symm
  have hc2 : c2 = h1.cpuSets.length := (congrArg Prod.snd e2).symm
  obtain ⟨_, hp1, hs1, hl1, ho1, hn1⟩ := CloneCPUSet_spec h r.bindingNumas
  rw [← hh1] at hp1 hs1 hl1 ho1 hn1
  rw [← hc1] at hn1
  obtain ⟨_, hp2, hs2, hl2, ho2, hn2⟩ := CloneCPUSet_spec h1 r.bindingNumas
  rw [← hh2] at hp2 hs2 hl2 ho2 hn2
  rw [← hc2] at hn2
  have hr1 : h1.cpuSetAt r.bindingNumas = h.cpuSetAt r.bindingNumas := ho1 _ hlt
  have hr2 : h2.cpuSetAt r.bindingNumas = h.cpuSetAt r.bindingNumas :=
    (ho2 _ (by omega)).trans hr1
  have hk : h2.cpuSetAt c1 = h.cpuSetAt r.bindingNumas := (ho2 _ (by omega)).trans hn1
  have hv : h2.cpuSetAt c2 = h.cpuSetAt r.bindingNumas := hn2.trans hr1
  obtain ⟨hmp1, hms1, hml1, hmo1⟩ := mutateCPUSet_spec h2 c1 g
  obtain ⟨hmp2, hms2, hml2, hmo2⟩ := mutateCPUSet_spec h2 c2 g
  obtain ⟨hmp0, hms0, hml0, hmo0⟩ := mutateCPUSet_spec h1 c1 g
  refine ⟨⟨hn1, hk, hv⟩, ⟨by omega, by omega, by omega⟩, ⟨by omega, hr1, hp1, hs1⟩,
    ⟨by omega, (hmo0 _ (by omega)).trans hr1, hmp0.trans hp1, hms0.trans hs1⟩,
    ⟨by omega, hr2, hp2.trans hp1, hs2.trans hs1⟩,
    ⟨(hmo1 c2 (by omega)).trans hv, by omega, (hmo1 _ (by omega)).trans hr2,
      hmp1.trans (hp2.trans hp1), hms1.trans (hs2.trans hs1)⟩,
    ⟨(hmo2 c1 (by omega)).trans hk, by omega, (hmo2 _ (by omega)).trans hr2,
      hmp2.trans (hp2.trans hp1), hms2.trans (hs2.trans hs1)⟩⟩

/-- C11: on a heap that holds the maps of the region, two successive calls of `GetPods`
(respectively `GetBindingNumas`), with no call on the region in between, return references
to two new objects, distinct from each other and from the object of the region, each
reading as the membership (respectively the binding NUMA set) of the region, and the heap
still holds the maps of the region, also when the first result is edited before the second
call. Whatever is then inserted into or removed from one of the two results, the other
result still reads as that value, the heap still holds the maps of the region, and a later
call returns that value again. -/
theorem accessors_return_independent_copies (region : QoSRegionBase σp σh) (r : RegionRefs)
    (h : Heap) (edits : List PodSetEdit) (g : CPUSet → CPUSet) (hold : h.Holds r region) :
    (∀ h1 p1 h2 p2,
      QoSRegionBase.GetPods r h = (h1, p1) → QoSRegionBase.GetPods r h1 = (h2, p2) →
      (h1.podSetAt p1 = region.podSet ∧ h2.podSetAt p1 = region.podSet ∧
        h2.podSetAt p2 = region.podSet) ∧
      (p1 ≠ p2 ∧ p1 ≠ r.podSet ∧ p2 ≠ r.podSet) ∧
      (h1.Holds r region ∧ (h1.editsPodSet p1 edits).Holds r region ∧ h2.Holds r region) ∧
      ((h2.editsPodSet p1 edits).podSetAt p2 = region.podSet ∧
        (h2.editsPodSet p1 edits).Holds r region ∧
        (QoSRegionBase.GetPods r (h2.editsPodSet p1 edits)).1.podSetAt
          (QoSRegionBase.GetPods r (h2.editsPodSet p1 edits)).2 = region.podSet) ∧
      ((h2.editsPodSet p2 edits).podSetAt p1 = region.podSet ∧
        (h2.editsPodSet p2 edits).Holds r region ∧
        (QoSRegionBase.GetPods r (h2.editsPodSet p2 edits)).1.podSetAt
          (QoSRegionBase.GetPods r (h2.editsPodSet p2 edits)).2 = region.podSet)) ∧
    (∀ h1 c1 h2 c2,
      QoSRegionBase.GetBindingNumas r h = (h1, c1) →
      QoSRegionBase.GetBindingNumas r h1 = (h2, c2) →
      (h1.cpuSetAt c1 = region.bindingNumas ∧ h2.cpuSetAt c1 = region.bindingNumas ∧
        h2.cpuSetAt c2 = region.bindingNumas) ∧
      (c1 ≠ c2 ∧ c1 ≠ r.bindingNumas ∧ c2 ≠ r.bindingNumas) ∧
      (h1.Holds r region ∧ (h1.mutateCPUSet c1 g).Holds r region ∧ h2.Holds r region) ∧
      ((h2.mutateCPUSet c1 g).cpuSetAt c2 = region.bindingNumas ∧
        (h2.mutateCPUSet c1 g).Holds r region ∧
        (QoSRegionBase.GetBindingNumas r (h2.mutateCPUSet c1 g)).1.cpuSetAt
          (QoSRegionBase.GetBindingNumas r (h2.mutateCPUSet c1 g)).2 = region.bindingNumas) ∧
      ((h2.mutateCPUSet c2 g).cpuSetAt c1 = region.bindingNumas ∧
        (h2.mutateCPUSet c2 g).Holds r region ∧
        (QoSRegionBase.GetBindingNumas r (h2.mutateCPUSet c2 g)).1.cpuSetAt
          (QoSRegionBase.GetBindingNumas r (h2.mutateCPUSet c2 g)).2 =
            region.bindingNumas)) := by
  have hpods := hold.2.2.1
  have hcpu := hold.2.2.2
  refine ⟨?_, ?_⟩
  · intro h1 p1 h2 p2 e1 e2
    obtain ⟨⟨a1, a2, a3⟩, hne, ⟨b1, b2, b3⟩, ⟨m1, m2, m3⟩, ⟨c1, c2, c3⟩, ⟨d1, d2, d3, d4⟩,
      ⟨f1, f2, f3, f4⟩⟩ := GetPods_twice r h edits hold.1 h1 h2 p1 p2 e1 e2
    rw [← hpods]
    refine ⟨⟨a1, a2, a3⟩, hne,
      ⟨Holds_of_pods region r h h1 hold b1 b2 b3, Holds_of_pods region r h _ hold m1 m2 m3,
        Holds_of_pods region r h h2 hold c1 c2 c3⟩,
      ⟨d1, Holds_of_pods region r h _ hold d2 d3 d4, ?_⟩,
      ⟨f1, Holds_of_pods region r h _ hold f2 f3 f4, ?_⟩⟩
    · exact ((ClonePodSet_spec (h2.editsPodSet p1 edits) r.podSet).2.2.2.2.2.2.2).trans d3
    · exact ((ClonePodSet_spec (h2.editsPodSet p2 edits) r.podSet).2.2.2.2.2.2.2).trans f3
  · intro h1 c1 h2 c2 e1 e2
    obtain ⟨⟨a1, a2, a3⟩, hne, ⟨b1, b2, b3, b4⟩, ⟨m1, m2, m3, m4⟩, ⟨k1, k2, k3, k4⟩,
      ⟨d1, d2, d3, d4, d5⟩, ⟨f1, f2, f3, f4, f5⟩⟩ :=
      GetBindingNumas_twice r h g hold.2.1 h1 h2 c1 c2 e1 e2
    rw [← hcpu]
    refine ⟨⟨a1, a2, a3⟩, hne,
      ⟨Holds_of_cpus region r h h1 hold b1 b2 b3 b4,
        Holds_of_cpus region r h _ hold m1 m2 m3 m4,
        Holds_of_cpus region r h h2 hold k1 k2 k3 k4⟩,
      ⟨d1, Holds_of_cpus region r h _ hold d2 d3 d4 d5, ?_⟩,
      ⟨f1, Holds_of_cpus region r h _ hold f2 f3 f4 f5, ?_⟩⟩
    · exact ((CloneCPUSet_spec (h2.mutateCPUSet c1 g) r.bindingNumas).2.2.2.2.2).trans d3
    · exact ((CloneCPUSet_spec (h2.mutateCPUSet c2 g) r.bindingNumas).2.2.2.2.2).trans f3

/-- Witness of C11 on the sample heap: two `GetPods` hand out the references 1 and 2;
after the caller has inserted into and removed from the first result, the second result
and the pod set of the region still read as the one pod with its one container, while the
first result reads as what the caller made of it. Likewise for `GetBindingNumas` after
core 5 has been added to the first result. -/
theorem accessors_return_independent_copies_witness :
    sampleHeap.Holds sampleRefs sampleRegion ∧
    QoSRegionBase.GetPods sampleRefs sampleHeap =
      (⟨[["c1"], ["c1"]], [[("uid1", 0)], [("uid1", 1)]], [{0, 1}]⟩, 1) ∧
    ((QoSRegionBase.GetPods sampleRefs
      (QoSRegionBase.GetPods sampleRefs sampleHeap).1).1.editsPodSet 1
        sampleEdits).podSetAt 2 = ⟨[("uid1", ["c1"])]⟩ ∧
    ((QoSRegionBase.GetPods sampleRefs
      (QoSRegionBase.GetPods sampleRefs sampleHeap).1).1.editsPodSet 1
        sampleEdits).podSetAt sampleRefs.podSet = ⟨[("uid1", ["c1"])]⟩ ∧
    ((QoSRegionBase.GetPods sampleRefs
      (QoSRegionBase.GetPods sampleRefs sampleHeap).1).1.editsPodSet 1
        sampleEdits).podSetAt 1 = ⟨[("uid9", ["c9"])]⟩ ∧
    ((QoSRegionBase.GetBindingNumas sampleRefs
      (QoSRegionBase.GetBindingNumas sampleRefs sampleHeap).1).1.mutateCPUSet 1
        (fun s => insert 5 s)).cpuSetAt 2 = {0, 1} ∧
    ((QoSRegionBase.GetBindingNumas sampleRefs
      (QoSRegionBase.GetBindingNumas sampleRefs sampleHeap).1).1.mutateCPUSet 1
        (fun s => insert 5 s)).cpuSetAt sampleRefs.bindingNumas = {0, 1} := by
  have hold : sampleHeap.Holds sampleRefs sampleRegion := by
    simp [Heap.Holds, Heap.Allocated, sampleHeap, sampleRefs, sampleRegion,
      Heap.podSetEntriesAt, Heap.podSetAt, Heap.cpuSetAt, Heap.stringSetAt]
  have h := accessors_return_independent_copies sampleRegion sampleRefs sampleHeap
    sampleEdits (fun s => insert 5 s) hold
  have hp := h.1 (QoSRegionBase.GetPods sampleRefs sampleHeap).1 1
    (QoSRegionBase.GetPods sampleRefs (QoSRegionBase.GetPods sampleRefs sampleHeap).1).1 2
    rfl rfl
  have hc := h.2 (QoSRegionBase.GetBindingNumas sampleRefs sampleHeap).1 1
    (QoSRegionBase.GetBindingNumas sampleRefs
      (QoSRegionBase.GetBindingNumas sampleRefs sampleHeap).1).1 2 rfl rfl
  exact ⟨hold, rfl, hp.2.2.2.1.1, hp.2.2.2.1.2.1.2.2.1, by decide,
    hc.2.2.2.1.1, hc.2.2.2.1.2.1.2.2.2⟩

/-- Edits through the reference the region itself holds do change the pod set of the
region: an accessor that handed out that reference would hand out a live alias. -/
theorem edit_through_live_reference :
    (sampleHeap.editPodSet sampleRefs.podSet (.Insert "uid1" "c2")).podSetAt sampleRefs.podSet =
      ⟨[("uid1", ["c1", "c2"])]⟩ := by
  decide

/-- Pod sets that share the set of a pod are not independent: on `sharingHeap` an insertion
through the reference 1 changes the pod set read through the reference 0. The heap tells a
copy of the outer map alone from the copy `PodSet.Clone` returns. -/
theorem edit_through_shared_set :
    sharingHeap.podSetAt 0 = ⟨[("uid1", ["c1"])]⟩ ∧
    (sharingHeap.editPodSet 1 (.Insert "uid1" "c2")).podSetAt 0 = ⟨[("uid1", ["c1", "c2"])]⟩ ∧
    ¬ sharingHeap.Apart 1 0 := by
  refine ⟨by decide, by decide, ?_⟩
  intro hap
  exact hap.2.2 ("uid1", 0) (by decide) ("uid1", 0) (by decide) rfl

/-! ### What `Clear` leaves alone -/

/-- C21: `Clear` changes the membership and the reference assignment only: the policy
chains with the update status and state of every policy, the recorded policies in use, the
resource essentials, the binding NUMA set and the names of the region are those of the
region before. Hence `GetHeadroom` right after `Clear` returns the value or error it would
have returned right before, recording the same policy, and `GetHeadRoomPolicy` and
`GetProvisionPolicy` report the same names. -/
theorem Clear_keeps_policies (r : QoSRegionBase σp σh) :
    r.Clear = { r with podSet := ⟨[]⟩, containerTopologyAwareAssignment := ⟨[]⟩ } ∧
    r.Clear.provisionPolicies = r.provisionPolicies ∧
    r.Clear.headroomPolicies = r.headroomPolicies ∧
    r.Clear.provisionPolicyInUse = r.provisionPolicyInUse ∧
    r.Clear.headroomPolicyInUse = r.headroomPolicyInUse ∧
    r.Clear.ResourceEssentials = r.ResourceEssentials ∧
    r.Clear.bindingNumas = r.bindingNumas ∧
    (r.Clear.name = r.name ∧ r.Clear.ownerPoolName = r.ownerPoolName ∧
      r.Clear.regionType = r.regionType) ∧
    r.Clear.GetHeadroom.2 = r.GetHeadroom.2 ∧
    r.Clear.GetHeadroom.1 = r.GetHeadroom.1.Clear ∧
    r.Clear.GetHeadroom.1.headroomPolicyInUse = r.GetHeadroom.1.headroomPolicyInUse ∧
    r.Clear.GetHeadRoomPolicy = r.GetHeadRoomPolicy ∧
    r.Clear.GetHeadroom.1.GetHeadRoomPolicy = r.GetHeadroom.1.GetHeadRoomPolicy ∧
    r.Clear.GetProvision.2 = r.GetProvision.2 ∧
    r.Clear.GetProvisionPolicy = r.GetProvisionPolicy := by
  have hh : r.Clear.GetHeadroom.2 = r.GetHeadroom.2 ∧
      r.Clear.GetHeadroom.1 = r.GetHeadroom.1.Clear := by
    have hchain : r.Clear.headroomPolicies = r.headroomPolicies := rfl
    simp only [QoSRegionBase.GetHeadroom, hchain]
    cases GetHeadroom.loop 0 r.headroomPolicies with
    | none => exact ⟨rfl, rfl⟩
    | some p => exact ⟨rfl, rfl⟩
  have hp : r.Clear.GetProvision.2 = r.GetProvision.2 := by
    have hchain : r.Clear.provisionPolicies = r.provisionPolicies := rfl
    simp only [QoSRegionBase.GetProvision, hchain]
    cases GetProvision.loop 0 r.provisionPolicies with
    | none => rfl
    | some p => rfl
  refine ⟨rfl, rfl, rfl, rfl, rfl, rfl, rfl, ⟨rfl, rfl, rfl⟩, hh.1, hh.2, ?_, rfl, ?_, hp, rfl⟩
  · rw [hh.2]; rfl
  · rw [hh.2]; rfl

/-! ### The key of an inference result -/

theorem String_append_left_cancel (p a b : String) (h : p ++ a = p ++ b) : a = b := by
  have hd := congrArg String.data h
  simp only [String.data_append] at hd
  exact String.ext (List.append_cancel_left hd)

theorem String_ne_append_slash (p b : String) : p ≠ p ++ "/" ++ b := by
  intro h
  have hl := congrArg String.length h
  simp only [String.length_append] at hl
  have hs : ("/" : String).length = 1 := rfl
  omega

/-- C22: `GetInferenceResultKey` returns the legacy model name itself for the legacy model
name, and the legacy name, a slash and the model name for every other model name; the key
of another model name is never the legacy key, and the function is injective: model names
with equal keys are equal. This holds whatever the legacy model name is. -/
theorem GetInferenceResultKey_injective (ModelNameBorwein : String) :
    GetInferenceResultKey ModelNameBorwein ModelNameBorwein = ModelNameBorwein ∧
    (∀ modelName, modelName ≠ ModelNameBorwein →
      GetInferenceResultKey ModelNameBorwein modelName =
        ModelNameBorwein ++ "/" ++ modelName) ∧
    (∀ modelName, modelName ≠ ModelNameBorwein →
      GetInferenceResultKey ModelNameBorwein modelName ≠
        GetInferenceResultKey ModelNameBorwein ModelNameBorwein) ∧
    (∀ a b, GetInferenceResultKey ModelNameBorwein a = GetInferenceResultKey ModelNameBorwein b →
      a = b) ∧
    Function.Injective (GetInferenceResultKey ModelNameBorwein) := by
  have hlegacy : GetInferenceResultKey ModelNameBorwein ModelNameBorwein = ModelNameBorwein := by
    simp [GetInferenceResultKey]
  have hother : ∀ modelName, modelName ≠ ModelNameBorwein →
      GetInferenceResultKey ModelNameBorwein modelName =
        ModelNameBorwein ++ "/" ++ modelName := by
    intro modelName hne
    simp [GetInferenceResultKey, hne]
  have hinj : ∀ a b,
      GetInferenceResultKey ModelNameBorwein a = GetInferenceResultKey ModelNameBorwein b →
      a = b := by
    intro a b h
    by_cases ha : a = ModelNameBorwein
    · by_cases hb : b = ModelNameBorwein
      · rw [ha, hb]
      · rw [ha, hlegacy, hother b hb] at h
        exact absurd h (String_ne_append_slash _ _)
    · by_cases hb : b = ModelNameBorwein
      · rw [hb, hlegacy, hother a ha] at h
        exact absurd h.symm (String_ne_append_slash _ _)
      · rw [hother a ha, hother b hb, String.append_assoc, String.append_assoc] at h
        exact String_append_left_cancel _ _ _ (String_append_left_cancel _ _ _ h)
  refine ⟨hlegacy, hother, ?_, hinj, fun a b h => hinj a b h⟩
  intro modelName hne h
  exact hne (hinj _ _ h)

/-- Witness of C22 with the legacy model name "borwein": the key of "borwein" is "borwein",
the key of "latency" is "borwein/latency", and the two keys differ. -/
theorem GetInferenceResultKey_injective_witness :
    GetInferenceResultKey "borwein" "borwein" = "borwein" ∧
    GetInferenceResultKey "borwein" "latency" = "borwein/latency" ∧
    GetInferenceResultKey "borwein" "latency" ≠ GetInferenceResultKey "borwein" "borwein" := by
  have h := GetInferenceResultKey_injective "borwein"
  exact ⟨h.1, (h.2.1 "latency" (by decide)).trans (by decide), h.2.2.1 "latency" (by decide)⟩

end Katalyst
